import Mathlib

/-!
# IR View Graph Engine — verification development

Shallow embedding of the graph-view engine of the `mlir-modifier` frontend:

* data model: `src/frontend/src/types/ir.ts`
* boundary-IO calculator: `src/frontend/src/components/Graph/groupUtils.ts`
* pipeline (index builder, view resolver, region walker, edge synthesizer):
  `src/frontend/src/components/Graph/irToFlow.ts`

JavaScript `Map`/`Set` objects (string keys, insertion-ordered) are modelled
as association lists / ordered duplicate-free lists; `Map.set` overwrites the
value in place, keeping the key's original position, exactly as JS Maps do.
-/

namespace IrView

/-! ## JS containers -/

/-- A JS `Map` with string keys: an insertion-ordered association list. -/
abbrev JsMap (α : Type) : Type := List (String × α)

namespace JsMap

/-- `m.set k v`: overwrite in place if `k` is present, else append. -/
def set {α : Type} : JsMap α → String → α → JsMap α
  | [], k, v => [(k, v)]
  | (k', v') :: rest, k, v =>
    if k' = k then (k, v) :: rest else (k', v') :: set rest k v

/-- `m.get k` (`undefined` becomes `none`): the value at the unique entry
for `k`, scanning in order. -/
def get? {α : Type} : JsMap α → String → Option α
  | [], _ => none
  | (k', v') :: rest, k => if k' = k then some v' else get? rest k

/-- `m.has k`. -/
def hasKey {α : Type} (m : JsMap α) (k : String) : Bool :=
  (m.get? k).isSome

/-- `[...m.values()]` in insertion order. -/
def values {α : Type} (m : JsMap α) : List α :=
  m.map (fun p => p.2)

/-- `[...m.keys()]` in insertion order. -/
def keys {α : Type} (m : JsMap α) : List String :=
  m.map (fun p => p.1)

end JsMap

/-- A JS `Set` of strings: an insertion-ordered list without duplicates. -/
abbrev JsSet : Type := List String

namespace JsSet

/-- `s.add x`: append if absent (JS Sets keep the first insertion position). -/
def add (s : JsSet) (x : String) : JsSet :=
  if s.contains x then s else s ++ [x]

end JsSet

/-! ## Data model (`src/frontend/src/types/ir.ts`) -/

structure ValueInfo where
  value_id : String
  type : String
deriving DecidableEq, Repr

structure AttributeInfo where
  type : String
  value : String
deriving DecidableEq, Repr

structure OperationInfo where
  op_id : String
  name : String
  dialect : String
  attributes : List (String × AttributeInfo)
  operands : List ValueInfo
  results : List ValueInfo
  regions : List String
  parent_block : String
  position : Nat
deriving DecidableEq, Repr

structure BlockInfo where
  block_id : String
  arguments : List ValueInfo
  parent_region : String
  operations : List String
deriving DecidableEq, Repr

structure RegionInfo where
  region_id : String
  parent_op : String
  blocks : List String
deriving DecidableEq, Repr

structure EdgeInfo where
  from_value : String
  to_op : String
  to_operand_index : Nat
deriving DecidableEq, Repr

structure IRGraph where
  module_id : String
  operations : List OperationInfo
  blocks : List BlockInfo
  regions : List RegionInfo
  edges : List EdgeInfo
deriving DecidableEq, Repr

structure GroupInput where
  valueId : String
  type : String
  consumerOpIds : List String
deriving DecidableEq, Repr

structure GroupOutput where
  valueId : String
  type : String
  producerOpId : String
  resultIndex : Nat
deriving DecidableEq, Repr

inductive GroupDisplayMode where
  | collapsed
  | expanded
  | drilldown
deriving DecidableEq, Repr

structure NodeGroup where
  id : String
  name : String
  opIds : List String
  displayMode : GroupDisplayMode
  inputs : List GroupInput
  outputs : List GroupOutput
deriving DecidableEq, Repr

/-! ## Index builder (`buildLookups`, irToFlow.ts) -/

/-- Entry of `valueProducerMap`: `{ opId, resultIndex }`. -/
structure Producer where
  opId : String
  resultIndex : Nat
deriving DecidableEq, Repr

/-- `value_id -> producing op & result index`; shared construction between
`buildLookups` (irToFlow.ts) and `computeGroupIO` (groupUtils.ts), which build
it with the same loop. -/
def buildValueProducerMap (graph : IRGraph) : JsMap Producer :=
  graph.operations.foldl
    (fun m op =>
      (op.results.enum).foldl
        (fun m p => m.set p.2.value_id ⟨op.op_id, p.1⟩) m)
    []

/-- The (value id, producer) pairs that `buildValueProducerMap` inserts, in
insertion order (used to reason about the map's contents). -/
def producerPairs (graph : IRGraph) : List (String × Producer) :=
  graph.operations.flatMap
    (fun op => op.results.enum.map (fun q => (q.2.value_id, ⟨op.op_id, q.1⟩)))

structure Lookups where
  opMap : JsMap OperationInfo
  blockMap : JsMap BlockInfo
  regionMap : JsMap RegionInfo
  valueProducerMap : JsMap Producer
  blockArgNodeMap : JsMap String
deriving Repr

def buildLookups (graph : IRGraph) : Lookups where
  opMap := graph.operations.foldl (fun m op => m.set op.op_id op) []
  blockMap := graph.blocks.foldl (fun m b => m.set b.block_id b) []
  regionMap := graph.regions.foldl (fun m r => m.set r.region_id r) []
  valueProducerMap := buildValueProducerMap graph
  blockArgNodeMap :=
    graph.blocks.foldl
      (fun m block =>
        block.arguments.foldl
          (fun m arg => m.set arg.value_id ("input_" ++ arg.value_id)) m)
      []

/-! ## View resolver (`getViewRootRegionIds`, irToFlow.ts) -/

def getViewRootRegionIds (graph : IRGraph) (viewPath : List String)
    (opMap : JsMap OperationInfo) : List String :=
  match viewPath.getLast? with
  | none => []
  | some rootOpId =>
    if rootOpId = graph.module_id then
      (graph.regions.filter (fun r => r.parent_op == rootOpId)).map
        (fun r => r.region_id)
    else
      match opMap.get? rootOpId with
      | none => []
      | some rootOp => rootOp.regions

/-! ## Boundary-IO calculator (`computeGroupIO`, groupUtils.ts) -/

/-- Register/extend a boundary-input entry for one qualifying operand
(the body of the `if (!producer || !groupOpIdSet.has(...))` branch). -/
def registerGroupInput (inputMap : JsMap GroupInput) (operand : ValueInfo)
    (opId : String) : JsMap GroupInput :=
  match inputMap.get? operand.value_id with
  | some existing =>
    if existing.consumerOpIds.contains opId then inputMap
    else
      inputMap.set operand.value_id
        { existing with consumerOpIds := existing.consumerOpIds ++ [opId] }
  | none =>
    inputMap.set operand.value_id
      ⟨operand.value_id, operand.type, [opId]⟩

/-- `value_id → list of consumer op_ids` (the `valueConsumerMap` loop of
`computeGroupIO`). -/
def buildValueConsumerMap (graph : IRGraph) : JsMap (List String) :=
  graph.edges.foldl
    (fun m edge =>
      m.set edge.from_value (((m.get? edge.from_value).getD []) ++ [edge.to_op]))
    []

/-- Processing of one operand in the `--- Inputs ---` loop of
`computeGroupIO`: register the operand when its producer is absent or not a
member. -/
def groupInputOperandStep (opIds : List String)
    (valueProducerMap : JsMap Producer) (opId : String)
    (inputMap : JsMap GroupInput) (operand : ValueInfo) : JsMap GroupInput :=
  match valueProducerMap.get? operand.value_id with
  | none => registerGroupInput inputMap operand opId
  | some producer =>
    if opIds.contains producer.opId then inputMap
    else registerGroupInput inputMap operand opId

/-- The `--- Inputs ---` accumulation of `computeGroupIO`. -/
def groupInputsMap (opIds : List String) (graph : IRGraph) : JsMap GroupInput :=
  opIds.foldl
    (fun inputMap opId =>
      match graph.operations.find? (fun o => o.op_id == opId) with
      | none => inputMap
      | some op =>
        op.operands.foldl
          (groupInputOperandStep opIds (buildValueProducerMap graph) opId)
          inputMap)
    []

/-- The `--- Outputs ---` accumulation of `computeGroupIO`. -/
def groupOutputsList (opIds : List String) (graph : IRGraph) :
    List GroupOutput :=
  opIds.foldl
    (fun outputs opId =>
      match graph.operations.find? (fun o => o.op_id == opId) with
      | none => outputs
      | some op =>
        (op.results.enum).foldl
          (fun outputs p =>
            if (((buildValueConsumerMap graph).get? p.2.value_id).getD []).any
                (fun cId => !opIds.contains cId) then
              outputs ++ [⟨p.2.value_id, p.2.type, opId, p.1⟩]
            else outputs)
          outputs)
    []

/-- `computeGroupIO` from groupUtils.ts: external inputs and outputs of a
group of ops. (The source computes `valueProducerMap` and `valueConsumerMap`
once up front; here the pure builders are named and shared.) -/
def computeGroupIo (opIds : List String) (graph : IRGraph) :
    List GroupInput × List GroupOutput :=
  ((groupInputsMap opIds graph).values, groupOutputsList opIds graph)

/-! ## Node and edge model (React-Flow output shapes)

`position` is always `{x:0,y:0}` (layout happens downstream), `style` and
`labelStyle` are constant presentation records, and the group handler
callbacks (`onRename`/`onUngroup`/`onSetMode`) are opaque UI functions; these
carry no graph structure and are omitted from the embedding. A node's `type`
string (`opNode` / `inputNode` / `groupNode`) always matches its data shape in
the source, so it is derived from the data constructor here. -/

structure OpNodeData where
  label : String
  dialect : String
  attributes : List (String × AttributeInfo)
  operands : List ValueInfo
  results : List ValueInfo
  hasRegions : Bool
  collapsed : Bool
  regionCount : Option Nat
  groupColor : Option String
deriving DecidableEq, Repr

structure InputNodeData where
  label : String
  type : String
  valueId : String
deriving DecidableEq, Repr

structure GroupNodeData where
  groupId : String
  name : String
  color : Option String
  inputs : List GroupInput
  outputs : List GroupOutput
  operands : List ValueInfo
  results : List ValueInfo
deriving DecidableEq, Repr

inductive NodeData where
  | op (d : OpNodeData)
  | input (d : InputNodeData)
  | group (d : GroupNodeData)
deriving DecidableEq, Repr

/-- The React-Flow `type` string of a node, determined by its data shape. -/
def NodeData.nodeType : NodeData → String
  | .op _ => "opNode"
  | .input _ => "inputNode"
  | .group _ => "groupNode"

structure FlowNode where
  id : String
  data : NodeData
deriving DecidableEq, Repr

def FlowNode.type (n : FlowNode) : String := n.data.nodeType

structure EdgeData where
  valueId : String
  toOp : String
  toOperandIndex : Nat
deriving DecidableEq, Repr

structure FlowEdge where
  id : String
  source : String
  sourceHandle : String
  target : String
  targetHandle : String
  label : String
  deletable : Bool
  data : EdgeData
deriving DecidableEq, Repr

/-! ## Group colors (`groupUtils.ts`) -/

def GROUP_COLORS : List String :=
  ["#1890ff", "#52c41a", "#fa8c16", "#722ed1",
   "#eb2f96", "#13c2c2", "#f5222d", "#fadb14"]

/-- `getGroupColor`: deterministic palette color from the numeric suffix of a
group id. `parseInt` failure yields `undefined` in JS, modelled as `none`
(ids produced by `generateGroupId` always parse). -/
def getGroupColor (groupId : String) : Option String :=
  ((groupId.replace "group_" "").toNat?).map
    (fun n => GROUP_COLORS.getD ((n - 1) % GROUP_COLORS.length) "")

/-! ## Region walker (`walkRegions`, irToFlow.ts)

The source walks with a pair (`depth`, `maxExpandDepth`), expands an op with
child regions iff `depth <= maxExpandDepth`, and recurses at `depth + 1`.
Both numbers enter only through that comparison, so the recursion is driven
here by the remaining expansion budget `gas = maxExpandDepth + 1 - depth`:
`gas = 0` iff `depth > maxExpandDepth`, and descending one level turns
`gas + 1` into `gas`. `walkRegions` below restores the (depth, maxExpandDepth)
interface of the source. -/

/-- The mutable accumulators threaded through the source walk, as one record.
`encountered` is specification instrumentation with no counterpart in the
source: it records each op the walk processes past the hidden-name filter
(before the group logic), so that reachability can be stated in theorems. -/
structure WalkState where
  nodes : List FlowNode
  visibleOpIds : JsSet
  visibleInputNodeIds : JsSet
  renderedGroupIds : JsSet
  visibleGroupIds : JsSet
  encountered : List String
deriving Repr

def WalkState.initial : WalkState := ⟨[], [], [], [], [], []⟩

/-- The read-only inputs of the walk. -/
structure WalkEnv where
  lookups : Lookups
  hiddenOpNames : List String
  collapsedGroupByOp : JsMap NodeGroup
  inlineGroupByOp : JsMap NodeGroup
deriving Repr

/-- Emit the pseudo-input node for one block argument. -/
def emitBlockArg (lookups : Lookups) (st : WalkState) (arg : ValueInfo) :
    WalkState :=
  match lookups.blockArgNodeMap.get? arg.value_id with
  | none => st
  | some nodeId =>
    { st with
      nodes := st.nodes ++ [⟨nodeId, .input ⟨arg.value_id, arg.type, arg.value_id⟩⟩]
      visibleInputNodeIds := st.visibleInputNodeIds.add nodeId }

/-- Push an op node and mark the op visible. -/
def pushOpNode (op : OperationInfo) (d : OpNodeData) (st : WalkState) :
    WalkState :=
  { st with
    nodes := st.nodes ++ [⟨op.op_id, .op d⟩]
    visibleOpIds := st.visibleOpIds.add op.op_id }

def mkGroupNodeData (group : NodeGroup) : GroupNodeData where
  groupId := group.id
  name := group.name
  color := getGroupColor group.id
  inputs := group.inputs
  outputs := group.outputs
  operands := group.inputs.map (fun inp => ⟨inp.valueId, inp.type⟩)
  results := group.outputs.map (fun out => ⟨out.valueId, out.type⟩)

/-- Emit a collapsed group's merged node and mark the group rendered. -/
def emitGroupNode (group : NodeGroup) (st : WalkState) : WalkState :=
  { st with
    nodes := st.nodes ++ [⟨group.id, .group (mkGroupNodeData group)⟩]
    renderedGroupIds := st.renderedGroupIds.add group.id
    visibleGroupIds := st.visibleGroupIds.add group.id }

/-- Ghost update (see `WalkState.encountered`). -/
def ghostEncounter (opId : String) (st : WalkState) : WalkState :=
  { st with encountered := st.encountered ++ [opId] }

def opNodeDataExpanded (op : OperationInfo) (groupColor : Option String) :
    OpNodeData :=
  ⟨op.name, op.dialect, op.attributes, op.operands, op.results,
   true, false, none, groupColor⟩

def opNodeDataCollapsed (op : OperationInfo) (groupColor : Option String) :
    OpNodeData :=
  ⟨op.name, op.dialect, op.attributes, op.operands, op.results,
   true, true, some op.regions.length, groupColor⟩

def opNodeDataLeaf (op : OperationInfo) (groupColor : Option String) :
    OpNodeData :=
  ⟨op.name, op.dialect, op.attributes, op.operands, op.results,
   false, false, none, groupColor⟩

/-- Per-op step of the walk. `expandChildren` is the walk of child regions one
level deeper when the current depth is within the expansion threshold, and
`none` past the threshold (collapse-by-depth). -/
def walkOpStep (env : WalkEnv)
    (expandChildren : Option (List String → WalkState → WalkState))
    (st : WalkState) (opId : String) : WalkState :=
  match env.lookups.opMap.get? opId with
  | none => st
  | some op =>
    if env.hiddenOpNames.contains op.name then st
    else
      let st := ghostEncounter opId st
      match env.collapsedGroupByOp.get? opId with
      | some group =>
        if st.renderedGroupIds.contains group.id then st
        else emitGroupNode group st
      | none =>
        let groupColor :=
          (env.inlineGroupByOp.get? opId).bind (fun g => getGroupColor g.id)
        if 0 < op.regions.length then
          match expandChildren with
          | some recurse =>
            recurse op.regions (pushOpNode op (opNodeDataExpanded op groupColor) st)
          | none => pushOpNode op (opNodeDataCollapsed op groupColor) st
        else pushOpNode op (opNodeDataLeaf op groupColor) st

/-- One nesting level of the walk: regions → blocks → block args + ops. -/
def walkLevel (env : WalkEnv)
    (expandChildren : Option (List String → WalkState → WalkState))
    (regionIds : List String) (st : WalkState) : WalkState :=
  regionIds.foldl
    (fun st regionId =>
      match env.lookups.regionMap.get? regionId with
      | none => st
      | some region =>
        region.blocks.foldl
          (fun st blockId =>
            match env.lookups.blockMap.get? blockId with
            | none => st
            | some block =>
              let st := block.arguments.foldl (emitBlockArg env.lookups) st
              block.operations.foldl (walkOpStep env expandChildren) st)
          st)
    st

/-- The walk, driven by the remaining expansion budget. -/
def walkRegionsGas (env : WalkEnv) : Nat → List String → WalkState → WalkState
  | 0 => walkLevel env none
  | gas + 1 => walkLevel env (some (walkRegionsGas env gas))

/-- `walkRegions` with the source's (depth, maxExpandDepth) interface. -/
def walkRegions (regionIds : List String) (depth maxExpandDepth : Nat)
    (env : WalkEnv) (st : WalkState) : WalkState :=
  walkRegionsGas env (maxExpandDepth + 1 - depth) regionIds st

/-- The treatment of a single op at a given depth (used to state the
depth-threshold claims); agrees with how `walkRegions` treats each op. -/
def walkOp (opId : String) (depth maxExpandDepth : Nat) (env : WalkEnv)
    (st : WalkState) : WalkState :=
  walkOpStep env
    (if depth ≤ maxExpandDepth then
      some (fun rids st => walkRegions rids (depth + 1) maxExpandDepth env st)
    else none)
    st opId

/-! ## Group lookup maps (irToFlow.ts, main entry, first block) -/

structure GroupMaps where
  collapsedGroupByOp : JsMap NodeGroup
  inlineGroupByOp : JsMap NodeGroup
  collapsedGroupsMap : JsMap NodeGroup
deriving Repr

def GroupMaps.empty : GroupMaps := ⟨[], [], []⟩

/-- One iteration of the `for (const group of nodeGroups ?? [])` loop of
`irToFlow`. With an active drill group the iteration is skipped ('drilldown'
display mode falls through with no effect). -/
def groupMapsStep (activeDrillGroupId : Option String) (maps : GroupMaps)
    (group : NodeGroup) : GroupMaps :=
  if activeDrillGroupId.isSome then maps
  else if group.displayMode = .collapsed then
    { maps with
      collapsedGroupsMap := maps.collapsedGroupsMap.set group.id group
      collapsedGroupByOp :=
        group.opIds.foldl (fun m opId => m.set opId group)
          maps.collapsedGroupByOp }
  else if group.displayMode = .expanded then
    { maps with
      inlineGroupByOp :=
        group.opIds.foldl (fun m opId => m.set opId group)
          maps.inlineGroupByOp }
  else maps

/-- Build op → collapsed group, op → inline (expanded) group, and id →
collapsed group maps. With an active drill group all three stay empty. -/
def buildGroupMaps (nodeGroups : List NodeGroup)
    (activeDrillGroupId : Option String) : GroupMaps :=
  nodeGroups.foldl (groupMapsStep activeDrillGroupId) GroupMaps.empty

/-! ## Edge synthesizer (`generateEdges`, irToFlow.ts) -/

def mkEdgeId (valueId target : String) (idx : Nat) : String :=
  "edge-" ++ valueId ++ "-" ++ target ++ "-" ++ toString idx

def outHandle (idx : Nat) : String := "out-" ++ toString idx

def inHandle (idx : Nat) : String := "in-" ++ toString idx

/-- The block-argument fallback shared (syntactically duplicated in the
source) by both halves of `generateEdges`: an edge out of a visible
pseudo-input node, or nothing. `deletable` is `true` for edges targeting ops
and `false` for edges targeting group nodes, as in the source. -/
def blockArgEdge (visibleInputNodeIds : JsSet) (lookups : Lookups)
    (valueId type targetId : String) (targetIdx : Nat) (deletable : Bool) :
    List FlowEdge :=
  match lookups.blockArgNodeMap.get? valueId with
  | none => []
  | some inputNodeId =>
    if visibleInputNodeIds.contains inputNodeId then
      [⟨mkEdgeId valueId targetId targetIdx, inputNodeId, outHandle 0,
        targetId, inHandle targetIdx, type, deletable,
        ⟨valueId, targetId, targetIdx⟩⟩]
    else []

/-- Edges produced by one operand of one visible op (the loop body of the
first half of `generateEdges`): a direct op → op edge, an edge out of a
rendered collapsed group's matching output port, an edge out of a visible
block-argument input node, or nothing. -/
def edgesForOperand (visibleOpIds visibleInputNodeIds visibleGroupIds : JsSet)
    (lookups : Lookups) (collapsedGroupByOp : JsMap NodeGroup)
    (op : OperationInfo) (operandIdx : Nat) (operand : ValueInfo) :
    List FlowEdge :=
  match lookups.valueProducerMap.get? operand.value_id with
  | none =>
    blockArgEdge visibleInputNodeIds lookups operand.value_id operand.type
      op.op_id operandIdx true
  | some producer =>
    if visibleOpIds.contains producer.opId then
      [⟨mkEdgeId operand.value_id op.op_id operandIdx, producer.opId,
        outHandle producer.resultIndex, op.op_id, inHandle operandIdx,
        operand.type, true, ⟨operand.value_id, op.op_id, operandIdx⟩⟩]
    else
      match collapsedGroupByOp.get? producer.opId with
      | some producerGroup =>
        if visibleGroupIds.contains producerGroup.id then
          match producerGroup.outputs.findIdx?
              (fun o => o.valueId == operand.value_id) with
          | some outputIdx =>
            [⟨mkEdgeId operand.value_id op.op_id operandIdx, producerGroup.id,
              outHandle outputIdx, op.op_id, inHandle operandIdx,
              operand.type, false, ⟨operand.value_id, op.op_id, operandIdx⟩⟩]
          | none => []
        else
          blockArgEdge visibleInputNodeIds lookups operand.value_id
            operand.type op.op_id operandIdx true
      | none =>
        blockArgEdge visibleInputNodeIds lookups operand.value_id operand.type
          op.op_id operandIdx true

/-- Edges produced by one boundary input of one rendered collapsed group (the
loop body of the second half of `generateEdges`). -/
def edgesForGroupInput (visibleOpIds visibleInputNodeIds visibleGroupIds : JsSet)
    (lookups : Lookups) (collapsedGroupByOp : JsMap NodeGroup)
    (group : NodeGroup) (inputIdx : Nat) (inp : GroupInput) : List FlowEdge :=
  match lookups.valueProducerMap.get? inp.valueId with
  | none =>
    blockArgEdge visibleInputNodeIds lookups inp.valueId inp.type group.id
      inputIdx false
  | some producer =>
    if visibleOpIds.contains producer.opId then
      [⟨mkEdgeId inp.valueId group.id inputIdx, producer.opId,
        outHandle producer.resultIndex, group.id, inHandle inputIdx,
        inp.type, false, ⟨inp.valueId, group.id, inputIdx⟩⟩]
    else
      match collapsedGroupByOp.get? producer.opId with
      | some producerGroup =>
        if visibleGroupIds.contains producerGroup.id ∧ producerGroup.id ≠ group.id
        then
          match producerGroup.outputs.findIdx? (fun o => o.valueId == inp.valueId)
          with
          | some outputIdx =>
            [⟨mkEdgeId inp.valueId group.id inputIdx, producerGroup.id,
              outHandle outputIdx, group.id, inHandle inputIdx, inp.type, false,
              ⟨inp.valueId, group.id, inputIdx⟩⟩]
          | none => []
        else
          blockArgEdge visibleInputNodeIds lookups inp.valueId inp.type
            group.id inputIdx false
      | none =>
        blockArgEdge visibleInputNodeIds lookups inp.valueId inp.type group.id
          inputIdx false

/-- `generateEdges`: data-flow edges between visible nodes. -/
def generateEdges (visibleOpIds visibleInputNodeIds visibleGroupIds : JsSet)
    (lookups : Lookups) (collapsedGroupByOp collapsedGroupsMap : JsMap NodeGroup) :
    List FlowEdge :=
  let opEdges :=
    visibleOpIds.foldl
      (fun edges opId =>
        match lookups.opMap.get? opId with
        | none => edges
        | some op =>
          (op.operands.enum).foldl
            (fun edges p =>
              edges ++
                edgesForOperand visibleOpIds visibleInputNodeIds
                  visibleGroupIds lookups collapsedGroupByOp op p.1 p.2)
            edges)
      []
  visibleGroupIds.foldl
    (fun edges groupId =>
      match collapsedGroupsMap.get? groupId with
      | none => edges
      | some group =>
        (group.inputs.enum).foldl
          (fun edges p =>
            edges ++
              edgesForGroupInput visibleOpIds visibleInputNodeIds
                visibleGroupIds lookups collapsedGroupByOp group p.1 p.2)
          edges)
    opEdges

/-! ## Drilldown post-filter and main entry point (`irToFlow`) -/

/-- Result of the drilldown post-filter: the data that feeds edge generation. -/
structure DrillResult where
  nodes : List FlowNode
  visibleOpIds : JsSet
  visibleInputNodeIds : JsSet
deriving Repr

/-- One step of the virtual-input loop of the drilldown post-filter: add the
boundary input's pseudo-node unless some node with its id already exists. -/
def drillInputFold (acc : List FlowNode × JsSet) (inp : GroupInput) :
    List FlowNode × JsSet :=
  let nodeId := "input_" ++ inp.valueId
  if acc.1.any (fun n => n.id == nodeId) then acc
  else
    (acc.1 ++ [⟨nodeId, .input ⟨inp.type, inp.type, inp.valueId⟩⟩],
     acc.2.add nodeId)

/-- The `if (activeDrillGroupId)` block of `irToFlow`: keep only the active
group's op nodes and the input nodes of its boundary-input values, then add a
virtual input node for every boundary input that has no node yet (the source
checks and pushes against the same growing array). `visibleOpIds` is filtered
to the member set; `visibleInputNodeIds` only ever grows, as in the source. -/
def drillFilter (nodeGroups : List NodeGroup)
    (activeDrillGroupId : Option String) (st : WalkState) : DrillResult :=
  match activeDrillGroupId with
  | none => ⟨st.nodes, st.visibleOpIds, st.visibleInputNodeIds⟩
  | some gid =>
    match nodeGroups.find? (fun g => g.id == gid) with
    | none => ⟨st.nodes, st.visibleOpIds, st.visibleInputNodeIds⟩
    | some activeGroup =>
      let filteredNodes :=
        st.nodes.filter
          (fun n =>
            match n.data with
            | .op _ => activeGroup.opIds.contains n.id
            | .input d =>
              activeGroup.inputs.any (fun inp => inp.valueId == d.valueId)
            | .group _ => false)
      let (filteredNodes, visibleInputNodeIds) :=
        activeGroup.inputs.foldl drillInputFold
          (filteredNodes, st.visibleInputNodeIds)
      ⟨filteredNodes,
       st.visibleOpIds.filter (fun id => activeGroup.opIds.contains id),
       visibleInputNodeIds⟩

structure FlowResult where
  nodes : List FlowNode
  edges : List FlowEdge
deriving DecidableEq, Repr

/-- `irToFlow`: the full pipeline. Optional parameters of the source
(`hiddenOpNames`, `nodeGroups`, `activeDrillGroupId`) are explicit here;
omitting them in JS behaves as the empty set / empty list / null. -/
def irToFlow (graph : IRGraph) (viewPath : List String)
    (maxExpandDepth : Nat) (hiddenOpNames : List String)
    (nodeGroups : List NodeGroup) (activeDrillGroupId : Option String) :
    FlowResult :=
  let lookups := buildLookups graph
  let regionIds := getViewRootRegionIds graph viewPath lookups.opMap
  if regionIds.length = 0 then ⟨[], []⟩
  else
    let maps := buildGroupMaps nodeGroups activeDrillGroupId
    let env : WalkEnv :=
      ⟨lookups, hiddenOpNames, maps.collapsedGroupByOp, maps.inlineGroupByOp⟩
    let st := walkRegions regionIds 1 maxExpandDepth env WalkState.initial
    let dr := drillFilter nodeGroups activeDrillGroupId st
    let edges :=
      generateEdges dr.visibleOpIds dr.visibleInputNodeIds st.visibleGroupIds
        lookups maps.collapsedGroupByOp maps.collapsedGroupsMap
    ⟨dr.nodes, edges⟩

/-! ## Spec-side boundary-IO counts (for the refinement statement of the
boundary calculator)

These two definitions follow the specification's wording (§4.3 / §8 of the
spec), not the code: the number of distinct value ids consumed by the group's
members whose producer is outside the group or absent, and the number of
distinct value ids produced by the group's members that have at least one
consumer outside the group. They are compared against `computeGroupIo`. -/

/-- Spec wording: an operation is a member of the group iff its id is in the
member-id set. -/
def memberOps (opIds : List String) (graph : IRGraph) : List OperationInfo :=
  graph.operations.filter (fun op => opIds.contains op.op_id)

/-- Spec wording: a value's producer is outside the group or absent iff no
member operation has it among its results. -/
def producedOutside (opIds : List String) (graph : IRGraph) (v : String) :
    Bool :=
  graph.operations.all
    (fun p => p.results.all (fun r => r.value_id != v) || !opIds.contains p.op_id)

/-- Spec: `len(boundary_inputs(G))` should equal the number of distinct
values consumed by G's members whose producer is outside G (or absent). -/
def specExternalInputCount (opIds : List String) (graph : IRGraph) : Nat :=
  (((memberOps opIds graph).flatMap
      (fun op =>
        (op.operands.filter (fun od => producedOutside opIds graph od.value_id)).map
          (fun od => od.value_id))).toFinset).card

/-- Spec: `len(boundary_outputs(G))` should equal the number of distinct
values produced by G's members with at least one external consumer. -/
def specExternalOutputCount (opIds : List String) (graph : IRGraph) : Nat :=
  (((memberOps opIds graph).flatMap
      (fun op =>
        (op.results.filter
            (fun r =>
              graph.edges.any
                (fun e => e.from_value == r.value_id && !opIds.contains e.to_op))).map
          (fun r => r.value_id))).toFinset).card

/-! ## Single emission steps of the region walk

`WalkStep env st st'` says that `st'` extends `st` by the effect of one
emission of the walk: a block-argument pseudo-input node, the processing of
one op that is attributed to a collapsed group (ghost record plus group node
unless already rendered), or the node push for one op that is not (the
recursion into an expanded op's children contributes further steps). Every
run of `walkRegions` is a reflexive-transitive chain of these steps, which is
how state invariants of the walk are established. -/

inductive WalkStep (env : WalkEnv) : WalkState → WalkState → Prop where
  | blockArg (st : WalkState) (arg : ValueInfo) (nodeId : String)
      (hmap : env.lookups.blockArgNodeMap.get? arg.value_id = some nodeId)
      (hfmt : nodeId = "input_" ++ arg.value_id) :
      WalkStep env st
        { st with
          nodes := st.nodes ++ [⟨nodeId, .input ⟨arg.value_id, arg.type, arg.value_id⟩⟩]
          visibleInputNodeIds := st.visibleInputNodeIds.add nodeId }
  | groupEmit (st : WalkState) (opId : String) (op : OperationInfo)
      (group : NodeGroup)
      (hop : env.lookups.opMap.get? opId = some op)
      (hkey : op.op_id = opId)
      (hhid : env.hiddenOpNames.contains op.name = false)
      (hgrp : env.collapsedGroupByOp.get? opId = some group)
      (hnew : group.id ∉ st.renderedGroupIds) :
      WalkStep env st (emitGroupNode group (ghostEncounter opId st))
  | groupSkip (st : WalkState) (opId : String) (op : OperationInfo)
      (group : NodeGroup)
      (hop : env.lookups.opMap.get? opId = some op)
      (hkey : op.op_id = opId)
      (hhid : env.hiddenOpNames.contains op.name = false)
      (hgrp : env.collapsedGroupByOp.get? opId = some group)
      (hold : group.id ∈ st.renderedGroupIds) :
      WalkStep env st (ghostEncounter opId st)
  | visibleOp (st : WalkState) (opId : String) (op : OperationInfo)
      (d : OpNodeData)
      (hop : env.lookups.opMap.get? opId = some op)
      (hkey : op.op_id = opId)
      (hhid : env.hiddenOpNames.contains op.name = false)
      (hgrp : env.collapsedGroupByOp.get? opId = none)
      (hlabel : d.label = op.name) :
      WalkStep env st (pushOpNode op d (ghostEncounter opId st))

/-- The two key-discipline facts of the index maps that the walk invariants
rely on: `opMap` stores each op under its own id, and `blockArgNodeMap` maps
a value id `v` to the node id `input_v`. Both hold for `buildLookups`. -/
def EnvKeyed (env : WalkEnv) : Prop :=
  (∀ k op, env.lookups.opMap.get? k = some op → op.op_id = k) ∧
  (∀ k s, env.lookups.blockArgNodeMap.get? k = some s → s = "input_" ++ k)

/-- Well-formedness of a walk state, preserved by every emission step: the
visible-op set is keyed, unhidden and ungrouped; every node's id is tracked
by the matching visibility set (and conversely); pseudo-input ids come from
the block-argument map and group-node ids from the collapsed-group map; and
the rendered and visible group-id sets coincide. -/
def WalkWf (env : WalkEnv) (st : WalkState) : Prop :=
  (∀ id ∈ st.visibleOpIds, ∃ op, env.lookups.opMap.get? id = some op ∧
    env.hiddenOpNames.contains op.name = false ∧
    env.collapsedGroupByOp.get? id = none ∧ op.op_id = id) ∧
  (∀ n ∈ st.nodes,
    (∀ d, n.data = NodeData.op d → n.id ∈ st.visibleOpIds ∧
      env.hiddenOpNames.contains d.label = false) ∧
    (∀ d, n.data = NodeData.input d → n.id ∈ st.visibleInputNodeIds ∧
      ∃ v, env.lookups.blockArgNodeMap.get? v = some n.id) ∧
    (∀ d, n.data = NodeData.group d → n.id ∈ st.visibleGroupIds ∧
      ∃ g opId, env.collapsedGroupByOp.get? opId = some g ∧ n.id = g.id)) ∧
  (∀ id ∈ st.visibleOpIds, ∃ n ∈ st.nodes, n.id = id ∧
    ∃ d, n.data = NodeData.op d) ∧
  (∀ id ∈ st.visibleInputNodeIds, ∃ n ∈ st.nodes, n.id = id ∧
    ∃ d, n.data = NodeData.input d) ∧
  (∀ id ∈ st.visibleGroupIds, ∃ n ∈ st.nodes, n.id = id ∧
    ∃ d, n.data = NodeData.group d) ∧
  st.renderedGroupIds = st.visibleGroupIds

/-- Componentwise inclusion of the visibility sets of two walk states (used
to compare a walk that hides some names with the same walk hiding none). -/
def WalkLe (s1 s2 : WalkState) : Prop :=
  (∀ x ∈ s1.visibleOpIds, x ∈ s2.visibleOpIds) ∧
  (∀ x ∈ s1.visibleInputNodeIds, x ∈ s2.visibleInputNodeIds) ∧
  (∀ x ∈ s1.visibleGroupIds, x ∈ s2.visibleGroupIds) ∧
  (∀ x ∈ s1.renderedGroupIds, x ∈ s2.renderedGroupIds)

/-- Number of group nodes with a given id in a node list. -/
def groupNodeCount (gid : String) (nodes : List FlowNode) : Nat :=
  (nodes.filter (fun n => n.type == "groupNode" && n.id == gid)).length

/-- The ids of the pseudo-input nodes of a node list, in order. -/
def inputNodeIds (nodes : List FlowNode) : List String :=
  nodes.filterMap
    (fun n =>
      match n.data with
      | NodeData.input _ => some n.id
      | _ => none)

/-! ## Concrete fixtures (used by witnesses and counterexamples)

`sampleGraph` is the `SIMPLE_GRAPH` fixture of the repository's own test
suite (irToFlow.test.ts): `%0 = arith.addf %arg0 %arg1; %1 = arith.mulf %0
%arg2; return %1` inside `func.func @add_mul` inside the module. -/

def sampleGraph : IRGraph where
  module_id := "op_module"
  operations :=
    [⟨"op_addf", "arith.addf", "arith", [], [⟨"val_arg0", "f32"⟩, ⟨"val_arg1", "f32"⟩],
      [⟨"val_add_result", "f32"⟩], [], "block_0", 0⟩,
     ⟨"op_mulf", "arith.mulf", "arith", [], [⟨"val_add_result", "f32"⟩, ⟨"val_arg2", "f32"⟩],
      [⟨"val_mul_result", "f32"⟩], [], "block_0", 1⟩,
     ⟨"op_return", "func.return", "func", [], [⟨"val_mul_result", "f32"⟩], [], [],
      "block_0", 2⟩,
     ⟨"op_func", "func.func", "func", [], [], [], ["region_0"], "block_module", 0⟩]
  blocks :=
    [⟨"block_0", [⟨"val_arg0", "f32"⟩, ⟨"val_arg1", "f32"⟩, ⟨"val_arg2", "f32"⟩],
      "region_0", ["op_addf", "op_mulf", "op_return"]⟩,
     ⟨"block_module", [], "region_module", ["op_func"]⟩]
  regions :=
    [⟨"region_0", "op_func", ["block_0"]⟩,
     ⟨"region_module", "op_module", ["block_module"]⟩]
  edges :=
    [⟨"val_arg0", "op_addf", 0⟩, ⟨"val_arg1", "op_addf", 1⟩,
     ⟨"val_add_result", "op_mulf", 0⟩, ⟨"val_arg2", "op_mulf", 1⟩,
     ⟨"val_mul_result", "op_return", 0⟩]

/-- The standard function-body view of `sampleGraph`. -/
def sampleViewPath : List String := ["op_module", "op_func"]

/-- A collapsed group over `{op_addf, op_mulf}` with fresh boundary-IO. -/
def sampleGroup : NodeGroup where
  id := "group_1"
  name := "Group 1"
  opIds := ["op_addf", "op_mulf"]
  displayMode := .collapsed
  inputs := (computeGroupIo ["op_addf", "op_mulf"] sampleGraph).1
  outputs := (computeGroupIo ["op_addf", "op_mulf"] sampleGraph).2

/-- A collapsed group containing only `op_addf` (fresh boundary-IO). -/
def overlapGroupA : NodeGroup where
  id := "group_1"
  name := "A"
  opIds := ["op_addf"]
  displayMode := .collapsed
  inputs := (computeGroupIo ["op_addf"] sampleGraph).1
  outputs := (computeGroupIo ["op_addf"] sampleGraph).2

/-- A second collapsed group also containing `op_addf`, registered after
`overlapGroupA`. -/
def overlapGroupB : NodeGroup where
  id := "group_2"
  name := "B"
  opIds := ["op_addf"]
  displayMode := .collapsed
  inputs := (computeGroupIo ["op_addf"] sampleGraph).1
  outputs := (computeGroupIo ["op_addf"] sampleGraph).2

/-- The walk environment `irToFlow` builds for `sampleGraph` with hidden
names, groups and drill state as given. -/
def sampleEnv (hiddenOpNames : List String) (nodeGroups : List NodeGroup)
    (activeDrillGroupId : Option String) : WalkEnv where
  lookups := buildLookups sampleGraph
  hiddenOpNames := hiddenOpNames
  collapsedGroupByOp := (buildGroupMaps nodeGroups activeDrillGroupId).collapsedGroupByOp
  inlineGroupByOp := (buildGroupMaps nodeGroups activeDrillGroupId).inlineGroupByOp

/-! ## Container lemmas -/

namespace JsMap

theorem get?_set {α : Type} (m : JsMap α) (k k' : String) (v : α) :
    (m.set k v).get? k' = if k = k' then some v else m.get? k' := by
  induction m with
  | nil => by_cases h : k = k' <;> simp [set, get?, h]
  | cons p rest ih =>
    obtain ⟨k₀, v₀⟩ := p
    by_cases h : k₀ = k
    · subst h
      by_cases h' : k₀ = k' <;> simp [set, get?, h']
    · by_cases h' : k₀ = k' <;> by_cases h'' : k = k' <;>
        simp_all [set, get?, h, h', h'']

theorem keys_set {α : Type} (m : JsMap α) (k : String) (v : α) :
    (m.set k v).keys = if k ∈ m.keys then m.keys else m.keys ++ [k] := by
  induction m with
  | nil => simp [set, keys]
  | cons p rest ih =>
    obtain ⟨k₀, v₀⟩ := p
    by_cases h : k₀ = k
    · subst h
      simp [set, keys]
    · have hne : ¬ k = k₀ := fun hh => h hh.symm
      by_cases hm : k ∈ keys rest <;>
        simp_all [set, keys, h, hne, hm]

theorem mem_keys_iff_get? {α : Type} (m : JsMap α) (k : String) :
    k ∈ m.keys ↔ (m.get? k).isSome := by
  induction m with
  | nil => simp [keys, get?]
  | cons p rest ih =>
    obtain ⟨k₀, v₀⟩ := p
    simp only [keys, List.map_cons, List.mem_cons, get?]
    by_cases h : k₀ = k
    · simp [h]
    · have hne : ¬ k = k₀ := fun hh => h hh.symm
      simp only [h, if_false, hne, false_or]
      simpa [keys] using ih

theorem get?_eq_none_of_not_mem {α : Type} {m : JsMap α} {k : String}
    (h : k ∉ m.keys) : m.get? k = none := by
  have h2 := (mem_keys_iff_get? m k).not.mp h
  cases hg : m.get? k with
  | none => rfl
  | some v => rw [hg] at h2; simp at h2

theorem nodup_keys_set {α : Type} {m : JsMap α} (k : String) (v : α)
    (h : m.keys.Nodup) : (m.set k v).keys.Nodup := by
  rw [keys_set]
  by_cases hm : k ∈ m.keys
  · simpa [hm] using h
  · simp only [hm, if_false]
    refine List.Nodup.append h (List.nodup_singleton k) ?_
    intro a ha hk
    simp at hk
    exact hm (hk ▸ ha)

theorem mem_of_get?_eq_some {α : Type} {m : JsMap α} {k : String} {v : α}
    (h : m.get? k = some v) : (k, v) ∈ m := by
  induction m with
  | nil => simp [get?] at h
  | cons p rest ih =>
    obtain ⟨k₀, v₀⟩ := p
    by_cases hk : k₀ = k
    · subst hk
      have h' : v₀ = v := by simpa [get?] using h
      subst h'
      exact List.mem_cons_self _ _
    · simp only [get?, if_neg hk] at h
      exact List.mem_cons_of_mem _ (ih h)

theorem length_values {α : Type} (m : JsMap α) : m.values.length = m.length := by
  simp [values]

theorem length_keys {α : Type} (m : JsMap α) : m.keys.length = m.length := by
  simp [keys]

end JsMap

namespace JsSet

theorem contains_iff (s : JsSet) (x : String) : s.contains x = true ↔ x ∈ s := by
  simp [List.contains]

theorem mem_add (s : JsSet) (x y : String) : y ∈ s.add x ↔ y ∈ s ∨ y = x := by
  by_cases h : x ∈ s
  · simp only [add]
    rw [if_pos ((contains_iff s x).mpr h)]
    constructor
    · exact Or.inl
    · rintro (hy | rfl)
      · exact hy
      · exact h
  · simp only [add]
    rw [if_neg (fun hc => h ((contains_iff s x).mp hc))]
    simp [List.mem_append]

theorem self_mem_add (s : JsSet) (x : String) : x ∈ s.add x := by
  simp [mem_add]

theorem mem_add_of_mem {s : JsSet} {y : String} (x : String) (h : y ∈ s) :
    y ∈ s.add x := by
  simp [mem_add, h]

end JsSet

/-! ## Generic fold lemmas -/

theorem foldl_set_assoc_append {α : Type} (l₁ l₂ : List (String × α))
    (m : JsMap α) :
    (l₁ ++ l₂).foldl (fun m p => m.set p.1 p.2) m =
      l₂.foldl (fun m p => m.set p.1 p.2) (l₁.foldl (fun m p => m.set p.1 p.2) m) := by
  simp [List.foldl_append]

/-- A fold that appends `g x` for each element equals the initial value
followed by the flattened images. -/
theorem foldl_append_eq {α β : Type} (g : β → List α) (l : List β)
    (init : List α) :
    l.foldl (fun acc x => acc ++ g x) init = init ++ l.flatMap g := by
  induction l generalizing init with
  | nil => simp
  | cons x rest ih => simp [List.foldl_cons, ih, List.flatMap_cons, List.append_assoc]

/-- A fold that conditionally appends a singleton equals the initial value
followed by the filtered, mapped list. -/
theorem foldl_filter_append_eq {α β : Type} (c : β → Bool) (f : β → α)
    (l : List β) (init : List α) :
    l.foldl (fun acc x => if c x then acc ++ [f x] else acc) init =
      init ++ (l.filter c).map f := by
  induction l generalizing init with
  | nil => simp
  | cons x rest ih =>
    by_cases h : c x
    · simp [List.foldl_cons, h, ih, List.append_assoc]
    · simp [List.foldl_cons, h, ih]

/-- Fold preservation: a property that holds initially and is preserved by
every step (for elements of the list) holds for the fold. -/
theorem foldl_preserve {α β : Type} (P : α → Prop) (f : α → β → α) (l : List β)
    (a : α) (h0 : P a) (h1 : ∀ b x, x ∈ l → P b → P (f b x)) : P (l.foldl f a) := by
  induction l generalizing a with
  | nil => exact h0
  | cons x rest ih =>
    exact ih (f a x) (h1 a x (by simp) h0)
      (fun b y hy hb => h1 b y (by simp [hy]) hb)

/-- Setting keys of `l` to the constant `g` leaves absent keys untouched. -/
theorem foldl_set_not_mem {α : Type} (g : α) (l : List String) (m : JsMap α)
    (k : String) (h : k ∉ l) :
    (l.foldl (fun m x => m.set x g) m).get? k = m.get? k := by
  induction l generalizing m with
  | nil => rfl
  | cons x rest ih =>
    have hx : ¬ x = k := fun hh => h (by simp [hh])
    have hr : k ∉ rest := fun hh => h (by simp [hh])
    rw [List.foldl_cons, ih (m.set x g) hr, JsMap.get?_set, if_neg hx]

/-- Setting every key of `l` to the constant `g`: keys in `l` map to `g`. -/
theorem foldl_set_const_get {α : Type} (g : α) (l : List String) (m : JsMap α)
    (k : String) (h : k ∈ l) :
    (l.foldl (fun m x => m.set x g) m).get? k = some g := by
  induction l generalizing m with
  | nil => simp at h
  | cons x rest ih =>
    by_cases hr : k ∈ rest
    · exact ih (m.set x g) hr
    · have hx : k = x := by
        rcases List.mem_cons.mp h with h' | h'
        · exact h'
        · exact absurd h' hr
      subst hx
      rw [List.foldl_cons, foldl_set_not_mem g rest (m.set k g) k hr,
        JsMap.get?_set, if_pos rfl]

/-! ## Lookup-map characterizations -/

theorem opMap_keyed (g : IRGraph) :
    ∀ k op, (buildLookups g).opMap.get? k = some op → op.op_id = k := by
  refine foldl_preserve
    (fun m : JsMap OperationInfo => ∀ k op, m.get? k = some op → op.op_id = k)
    _ g.operations [] ?_ ?_
  · intro k op h
    simp [JsMap.get?] at h
  · intro m x _ hP k op hk
    rw [JsMap.get?_set] at hk
    by_cases he : x.op_id = k
    · rw [if_pos he] at hk
      cases hk
      exact he
    · rw [if_neg he] at hk
      exact hP k op hk

theorem opMap_mem (g : IRGraph) :
    ∀ k op, (buildLookups g).opMap.get? k = some op → op ∈ g.operations := by
  refine foldl_preserve
    (fun m : JsMap OperationInfo => ∀ k op, m.get? k = some op → op ∈ g.operations)
    _ g.operations [] ?_ ?_
  · intro k op h
    simp [JsMap.get?] at h
  · intro m x hx hP k op hk
    rw [JsMap.get?_set] at hk
    by_cases he : x.op_id = k
    · rw [if_pos he] at hk
      cases hk
      exact hx
    · rw [if_neg he] at hk
      exact hP k op hk

theorem regionMap_keyed (g : IRGraph) :
    ∀ k r, (buildLookups g).regionMap.get? k = some r → r.region_id = k := by
  refine foldl_preserve
    (fun m : JsMap RegionInfo => ∀ k r, m.get? k = some r → r.region_id = k)
    _ g.regions [] ?_ ?_
  · intro k r h
    simp [JsMap.get?] at h
  · intro m x _ hP k r hk
    rw [JsMap.get?_set] at hk
    by_cases he : x.region_id = k
    · rw [if_pos he] at hk
      cases hk
      exact he
    · rw [if_neg he] at hk
      exact hP k r hk

theorem blockArgNodeMap_format (g : IRGraph) :
    ∀ k s, (buildLookups g).blockArgNodeMap.get? k = some s → s = "input_" ++ k := by
  refine foldl_preserve
    (fun m : JsMap String => ∀ k s, m.get? k = some s → s = "input_" ++ k)
    _ g.blocks [] ?_ ?_
  · intro k s h
    simp [JsMap.get?] at h
  · intro m b _ hP
    refine foldl_preserve
      (fun m : JsMap String => ∀ k s, m.get? k = some s → s = "input_" ++ k)
      _ b.arguments m hP ?_
    intro m' a _ hP' k s hk
    rw [JsMap.get?_set] at hk
    by_cases he : a.value_id = k
    · rw [if_pos he] at hk
      cases hk
      rw [he]
    · rw [if_neg he] at hk
      exact hP' k s hk

/-! ## Group-map characterizations (`buildGroupMaps`) -/

theorem groupMapsStep_collapsed (maps : GroupMaps) (x : NodeGroup)
    (h : x.displayMode = .collapsed) :
    groupMapsStep none maps x =
      { maps with
        collapsedGroupsMap := maps.collapsedGroupsMap.set x.id x
        collapsedGroupByOp :=
          x.opIds.foldl (fun m opId => m.set opId x) maps.collapsedGroupByOp } := by
  simp [groupMapsStep, h]

theorem groupMapsStep_expanded (maps : GroupMaps) (x : NodeGroup)
    (h : x.displayMode = .expanded) :
    groupMapsStep none maps x =
      { maps with
        inlineGroupByOp :=
          x.opIds.foldl (fun m opId => m.set opId x) maps.inlineGroupByOp } := by
  simp [groupMapsStep, h]

theorem groupMapsStep_drilldown (maps : GroupMaps) (x : NodeGroup)
    (h : x.displayMode = .drilldown) :
    groupMapsStep none maps x = maps := by
  simp [groupMapsStep, h]

/-- The `collapsedGroupByOp` component of a group-map step, in closed form. -/
theorem groupMapsStep_collapsedByOp (maps : GroupMaps) (x : NodeGroup) :
    (groupMapsStep none maps x).collapsedGroupByOp =
      if x.displayMode = .collapsed then
        x.opIds.foldl (fun m opId => m.set opId x) maps.collapsedGroupByOp
      else maps.collapsedGroupByOp := by
  cases h : x.displayMode
  · rw [groupMapsStep_collapsed maps x h]
    simp
  · rw [groupMapsStep_expanded maps x h]
    simp
  · rw [groupMapsStep_drilldown maps x h]
    simp

/-- With an active drill group, all three group maps stay empty. -/
theorem buildGroupMaps_drill (groups : List NodeGroup) (gid : String) :
    buildGroupMaps groups (some gid) = GroupMaps.empty := by
  unfold buildGroupMaps
  induction groups with
  | nil => rfl
  | cons x rest ih =>
    rw [List.foldl_cons]
    have hstep : groupMapsStep (some gid) GroupMaps.empty x = GroupMaps.empty := by
      simp [groupMapsStep]
    rw [hstep]
    exact ih

theorem collapsedByOp_range (groups : List NodeGroup) :
    ∀ k g, (buildGroupMaps groups none).collapsedGroupByOp.get? k = some g →
      g ∈ groups ∧ g.displayMode = .collapsed ∧ k ∈ g.opIds := by
  refine foldl_preserve
    (fun maps : GroupMaps => ∀ k g, maps.collapsedGroupByOp.get? k = some g →
      g ∈ groups ∧ g.displayMode = .collapsed ∧ k ∈ g.opIds)
    _ groups GroupMaps.empty ?_ ?_
  · intro k g h
    simp [GroupMaps.empty, JsMap.get?] at h
  · intro maps x hx hP k g
    rw [groupMapsStep_collapsedByOp]
    by_cases hc : x.displayMode = .collapsed
    · rw [if_pos hc]
      refine foldl_preserve
        (fun m : JsMap NodeGroup => m.get? k = some g →
          g ∈ groups ∧ g.displayMode = .collapsed ∧ k ∈ g.opIds)
        _ x.opIds maps.collapsedGroupByOp (hP k g) ?_
      intro m opId hop hP' hk
      rw [JsMap.get?_set] at hk
      by_cases he : opId = k
      · rw [if_pos he] at hk
        cases hk
        exact ⟨hx, hc, he ▸ hop⟩
      · rw [if_neg he] at hk
        exact hP' hk
    · rw [if_neg hc]
      exact hP k g

theorem collapsedGroupsMap_keyed (groups : List NodeGroup) :
    ∀ k g, (buildGroupMaps groups none).collapsedGroupsMap.get? k = some g →
      g.id = k ∧ g ∈ groups ∧ g.displayMode = .collapsed := by
  refine foldl_preserve
    (fun maps : GroupMaps => ∀ k g, maps.collapsedGroupsMap.get? k = some g →
      g.id = k ∧ g ∈ groups ∧ g.displayMode = .collapsed)
    _ groups GroupMaps.empty ?_ ?_
  · intro k g h
    simp [GroupMaps.empty, JsMap.get?] at h
  · intro maps x hx hP k g hk
    by_cases hc : x.displayMode = .collapsed
    · rw [groupMapsStep_collapsed maps x hc] at hk
      simp only at hk
      rw [JsMap.get?_set] at hk
      by_cases he : x.id = k
      · rw [if_pos he] at hk
        cases hk
        exact ⟨he, hx, hc⟩
      · rw [if_neg he] at hk
        exact hP k g hk
    · cases hd : x.displayMode
      · exact absurd hd hc
      · rw [groupMapsStep_expanded maps x hd] at hk
        exact hP k g hk
      · rw [groupMapsStep_drilldown maps x hd] at hk
        exact hP k g hk

/-- Last registration wins in `collapsedGroupByOp`: after the last collapsed
group containing `op` is processed, no later group overwrites the binding. -/
theorem collapsedByOp_last (p q : List NodeGroup) (G : NodeGroup) (op : String)
    (hmode : G.displayMode = .collapsed) (hmem : op ∈ G.opIds)
    (hpost : ∀ g ∈ q, g.displayMode = .collapsed → op ∈ g.opIds → g = G) :
    (buildGroupMaps (p ++ G :: q) none).collapsedGroupByOp.get? op = some G := by
  unfold buildGroupMaps
  rw [List.foldl_append, List.foldl_cons]
  refine foldl_preserve
    (fun maps : GroupMaps => maps.collapsedGroupByOp.get? op = some G)
    _ q _ ?_ ?_
  · rw [groupMapsStep_collapsed _ G hmode]
    exact foldl_set_const_get G G.opIds _ op hmem
  · intro maps x hx hP
    rw [groupMapsStep_collapsedByOp]
    by_cases hc : x.displayMode = .collapsed
    · rw [if_pos hc]
      by_cases hop : op ∈ x.opIds
      · have hxG : x = G := hpost x hx hc hop
        subst hxG
        exact foldl_set_const_get x x.opIds maps.collapsedGroupByOp op hop
      · rw [foldl_set_not_mem x x.opIds maps.collapsedGroupByOp op hop]
        exact hP
    · rw [if_neg hc]
      exact hP

/-! ## C4 — determinism of the pipeline -/

/-- C4: the pipeline is deterministic: invoking it twice on the same
(snapshot, view path, expansion depth, hidden-name set, group list,
drill-group) input yields identical node and edge lists in identical order
(port indices included, since they are part of the handle strings), and the
boundary-IO calculator returns identically ordered lists on an unchanged
(membership, snapshot) pair. Both are pure functions of their inputs. -/
theorem pipeline_deterministic (graph : IRGraph) (viewPath : List String)
    (maxExpandDepth : Nat) (hiddenOpNames : List String)
    (nodeGroups : List NodeGroup) (activeDrillGroupId : Option String)
    (opIds : List String) :
    irToFlow graph viewPath maxExpandDepth hiddenOpNames nodeGroups
        activeDrillGroupId =
      irToFlow graph viewPath maxExpandDepth hiddenOpNames nodeGroups
        activeDrillGroupId ∧
    computeGroupIo opIds graph = computeGroupIo opIds graph :=
  ⟨rfl, rfl⟩

/-! ## C6 — empty / unresolvable view paths -/

/-- C6: if the view path is empty, or its last entry is neither the module
root id nor an operation id present in the index, the view resolver returns
the empty region list and the pipeline returns empty node and edge lists
(no failure state exists: the functions are total). -/
theorem empty_view_resolution (graph : IRGraph) (viewPath : List String)
    (h : viewPath = [] ∨ ∃ r, viewPath.getLast? = some r ∧
      r ≠ graph.module_id ∧ (buildLookups graph).opMap.get? r = none) :
    getViewRootRegionIds graph viewPath (buildLookups graph).opMap = [] ∧
    ∀ maxExpandDepth hiddenOpNames nodeGroups activeDrillGroupId,
      irToFlow graph viewPath maxExpandDepth hiddenOpNames nodeGroups
        activeDrillGroupId = ⟨[], []⟩ := by
  have hempty : getViewRootRegionIds graph viewPath (buildLookups graph).opMap = [] := by
    rcases h with h | ⟨r, hr, hne, hnone⟩
    · simp [getViewRootRegionIds, h]
    · simp only [getViewRootRegionIds, hr]
      rw [if_neg hne, hnone]
  refine ⟨hempty, ?_⟩
  intro maxExpandDepth hiddenOpNames nodeGroups activeDrillGroupId
  simp [irToFlow, hempty]

/-- Witness for C6 at a concrete input: a one-entry view path naming an
operation id absent from `sampleGraph`. -/
theorem empty_view_resolution_witness :
    ((["op_missing"] : List String) = [] ∨ ∃ r,
      (["op_missing"] : List String).getLast? = some r ∧
      r ≠ sampleGraph.module_id ∧
      (buildLookups sampleGraph).opMap.get? r = none) ∧
    (getViewRootRegionIds sampleGraph ["op_missing"]
        (buildLookups sampleGraph).opMap = [] ∧
     ∀ maxExpandDepth hiddenOpNames nodeGroups activeDrillGroupId,
       irToFlow sampleGraph ["op_missing"] maxExpandDepth hiddenOpNames
         nodeGroups activeDrillGroupId = ⟨[], []⟩) :=
  have h : (["op_missing"] : List String) = [] ∨ ∃ r,
      (["op_missing"] : List String).getLast? = some r ∧
      r ≠ sampleGraph.module_id ∧
      (buildLookups sampleGraph).opMap.get? r = none :=
    Or.inr ⟨"op_missing", by decide, by decide, by decide⟩
  ⟨h, empty_view_resolution sampleGraph ["op_missing"] h⟩

/-! ## Walk unfolding lemmas -/

/-- The walk at a given depth is one `walkLevel` whose per-op child
continuation recurses at `depth + 1` iff `depth ≤ maxExpandDepth` — i.e. the
(depth, maxExpandDepth) interface and the budget-driven recursion agree. -/
theorem walkRegions_eq_level (rids : List String) (depth maxExpandDepth : Nat)
    (env : WalkEnv) (st : WalkState) :
    walkRegions rids depth maxExpandDepth env st =
      walkLevel env
        (if depth ≤ maxExpandDepth then
          some (fun r s => walkRegions r (depth + 1) maxExpandDepth env s)
        else none)
        rids st := by
  by_cases h : depth ≤ maxExpandDepth
  · have h1 : maxExpandDepth + 1 - depth = (maxExpandDepth - depth) + 1 := by omega
    have h3 : maxExpandDepth + 1 - (depth + 1) = maxExpandDepth - depth := by omega
    rw [if_pos h]
    unfold walkRegions
    rw [h1]
    simp only [h3]
    rfl
  · have h1 : maxExpandDepth + 1 - depth = 0 := by omega
    rw [if_neg h]
    unfold walkRegions
    rw [h1]
    rfl

/-- `walkLevel` processes each op of each walked block with `walkOpStep`,
which is what `walkOp` wraps; so each op at depth `d` is treated by
`walkOp _ d maxExpandDepth`. -/
theorem walkOp_eq_step (opId : String) (depth maxExpandDepth : Nat)
    (env : WalkEnv) (st : WalkState) :
    walkOp opId depth maxExpandDepth env st =
      walkOpStep env
        (if depth ≤ maxExpandDepth then
          some (fun r s => walkRegions r (depth + 1) maxExpandDepth env s)
        else none)
        st opId := rfl

/-! ## C5 — depth-threshold boundary -/

/-- C5: an operation owning at least one child region, not hidden and not in
a collapsed group, walked at depth exactly the expansion threshold, is
emitted as a normal (non-collapsed) node and its child regions are walked at
depth + 1 from that point; walked at threshold + 1 it is emitted marked
collapsed-by-depth carrying its region count, and it contributes exactly that
one node — none of its descendants appear. -/
theorem depth_threshold_boundary (opId : String) (t : Nat) (env : WalkEnv)
    (st : WalkState) (op : OperationInfo)
    (hop : env.lookups.opMap.get? opId = some op)
    (hhid : env.hiddenOpNames.contains op.name = false)
    (hgrp : env.collapsedGroupByOp.get? opId = none)
    (hreg : 0 < op.regions.length) :
    (walkOp opId t t env st =
      walkRegions op.regions (t + 1) t env
        (pushOpNode op
          (opNodeDataExpanded op
            ((env.inlineGroupByOp.get? opId).bind (fun g => getGroupColor g.id)))
          (ghostEncounter opId st))) ∧
    ((walkOp opId (t + 1) t env st).nodes =
      st.nodes ++
        [⟨op.op_id,
          .op (opNodeDataCollapsed op
            ((env.inlineGroupByOp.get? opId).bind (fun g => getGroupColor g.id)))⟩]) ∧
    (opNodeDataCollapsed op
        ((env.inlineGroupByOp.get? opId).bind (fun g => getGroupColor g.id))).collapsed
      = true ∧
    (opNodeDataCollapsed op
        ((env.inlineGroupByOp.get? opId).bind (fun g => getGroupColor g.id))).regionCount
      = some op.regions.length := by
  refine ⟨?_, ?_, rfl, rfl⟩
  · rw [walkOp_eq_step, if_pos (Nat.le_refl t)]
    unfold walkOpStep
    rw [hop]
    simp only [hhid, Bool.false_eq_true, if_false, hgrp]
    rw [if_pos hreg]
  · rw [walkOp_eq_step, if_neg (by omega : ¬ t + 1 ≤ t)]
    unfold walkOpStep
    rw [hop]
    simp only [hhid, Bool.false_eq_true, if_false, hgrp]
    rw [if_pos hreg]
    simp [pushOpNode, ghostEncounter]

/-- Witness for C5: `op_func` of `sampleGraph` (one child region), walked at
depth 3 with threshold 3 and at depth 4 with threshold 3. -/
theorem depth_threshold_boundary_witness :
    ((sampleEnv [] [] none).lookups.opMap.get? "op_func" =
      some ⟨"op_func", "func.func", "func", [], [], [], ["region_0"], "block_module", 0⟩ ∧
     (sampleEnv [] [] none).hiddenOpNames.contains "func.func" = false ∧
     (sampleEnv [] [] none).collapsedGroupByOp.get? "op_func" = none ∧
     0 < (["region_0"] : List String).length) ∧
    (walkOp "op_func" 3 3 (sampleEnv [] [] none) WalkState.initial =
      walkRegions ["region_0"] 4 3 (sampleEnv [] [] none)
        (pushOpNode ⟨"op_func", "func.func", "func", [], [], [], ["region_0"], "block_module", 0⟩
          (opNodeDataExpanded
            ⟨"op_func", "func.func", "func", [], [], [], ["region_0"], "block_module", 0⟩
            (((sampleEnv [] [] none).inlineGroupByOp.get? "op_func").bind
              (fun g => getGroupColor g.id)))
          (ghostEncounter "op_func" WalkState.initial))) ∧
    ((walkOp "op_func" 4 3 (sampleEnv [] [] none) WalkState.initial).nodes =
      WalkState.initial.nodes ++
        [⟨"op_func",
          .op (opNodeDataCollapsed
            ⟨"op_func", "func.func", "func", [], [], [], ["region_0"], "block_module", 0⟩
            (((sampleEnv [] [] none).inlineGroupByOp.get? "op_func").bind
              (fun g => getGroupColor g.id)))⟩]) := by
  have h := depth_threshold_boundary "op_func" 3 (sampleEnv [] [] none)
    WalkState.initial
    ⟨"op_func", "func.func", "func", [], [], [], ["region_0"], "block_module", 0⟩
    (by decide) (by decide) (by decide) (by decide)
  exact ⟨⟨by decide, by decide, by decide, by decide⟩, h.1, h.2.1⟩

/-! ## The walk as a chain of emission steps -/

theorem buildLookups_envKeyed (g : IRGraph) (hid : List String)
    (c i : JsMap NodeGroup) : EnvKeyed ⟨buildLookups g, hid, c, i⟩ :=
  ⟨opMap_keyed g, blockArgNodeMap_format g⟩

/-- Chain reflexive-transitive steps along a fold. -/
theorem foldl_rtc {σ β : Type} (R : σ → σ → Prop) (f : σ → β → σ)
    (l : List β) (h : ∀ s x, x ∈ l → Relation.ReflTransGen R s (f s x)) :
    ∀ s, Relation.ReflTransGen R s (l.foldl f s) := by
  induction l with
  | nil => intro s; exact .refl
  | cons x rest ih =>
    intro s
    exact (h s x (by simp)).trans
      (ih (fun s y hy => h s y (by simp [hy])) (f s x))

theorem emitBlockArg_rtc (env : WalkEnv) (he : EnvKeyed env)
    (st : WalkState) (arg : ValueInfo) :
    Relation.ReflTransGen (WalkStep env) st (emitBlockArg env.lookups st arg) := by
  unfold emitBlockArg
  cases hm : env.lookups.blockArgNodeMap.get? arg.value_id with
  | none => exact .refl
  | some nodeId =>
    exact Relation.ReflTransGen.single
      (WalkStep.blockArg st arg nodeId hm (he.2 _ _ hm))

theorem walkOpStep_rtc (env : WalkEnv) (he : EnvKeyed env)
    (ec : Option (List String → WalkState → WalkState))
    (hec : ∀ f, ec = some f → ∀ rids st,
      Relation.ReflTransGen (WalkStep env) st (f rids st))
    (st : WalkState) (opId : String) :
    Relation.ReflTransGen (WalkStep env) st (walkOpStep env ec st opId) := by
  cases hop : env.lookups.opMap.get? opId with
  | none =>
    simp only [walkOpStep, hop]
    exact .refl
  | some op =>
    have hkey : op.op_id = opId := he.1 _ _ hop
    simp only [walkOpStep, hop]
    cases hhid : env.hiddenOpNames.contains op.name with
    | true => exact .refl
    | false =>
      simp only [Bool.false_eq_true, if_false]
      cases hgrp : env.collapsedGroupByOp.get? opId with
      | some group =>
        simp only [hgrp]
        cases hrend : (ghostEncounter opId st).renderedGroupIds.contains group.id with
        | true =>
          exact Relation.ReflTransGen.single
            (WalkStep.groupSkip st opId op group hop hkey hhid hgrp
              ((JsSet.contains_iff _ _).mp hrend))
        | false =>
          simp only [Bool.false_eq_true, if_false]
          refine Relation.ReflTransGen.single
            (WalkStep.groupEmit st opId op group hop hkey hhid hgrp ?_)
          intro hmem
          have hc : List.contains (ghostEncounter opId st).renderedGroupIds group.id
              = true := (JsSet.contains_iff _ _).mpr hmem
          rw [hc] at hrend
          cases hrend
      | none =>
        simp only [hgrp]
        by_cases hreg : 0 < op.regions.length
        · rw [if_pos hreg]
          cases ec with
          | none =>
            exact Relation.ReflTransGen.single
              (WalkStep.visibleOp st opId op _ hop hkey hhid hgrp rfl)
          | some f =>
            exact Relation.ReflTransGen.trans
              (Relation.ReflTransGen.single
                (WalkStep.visibleOp st opId op _ hop hkey hhid hgrp rfl))
              (hec f rfl op.regions _)
        · rw [if_neg hreg]
          exact Relation.ReflTransGen.single
            (WalkStep.visibleOp st opId op _ hop hkey hhid hgrp rfl)

theorem walkLevel_rtc (env : WalkEnv) (he : EnvKeyed env)
    (ec : Option (List String → WalkState → WalkState))
    (hec : ∀ f, ec = some f → ∀ rids st,
      Relation.ReflTransGen (WalkStep env) st (f rids st)) :
    ∀ rids st,
      Relation.ReflTransGen (WalkStep env) st (walkLevel env ec rids st) := by
  intro rids st
  unfold walkLevel
  refine foldl_rtc _ _ rids ?_ st
  intro s regionId _
  cases env.lookups.regionMap.get? regionId with
  | none => exact .refl
  | some region =>
    refine foldl_rtc _ _ region.blocks ?_ s
    intro s' blockId _
    cases env.lookups.blockMap.get? blockId with
    | none => exact .refl
    | some block =>
      refine Relation.ReflTransGen.trans
        (foldl_rtc _ _ block.arguments
          (fun s'' arg _ => emitBlockArg_rtc env he s'' arg) s') ?_
      refine foldl_rtc _ _ block.operations ?_ _
      intro s'' opId _
      exact walkOpStep_rtc env he ec hec s'' opId

/-- Every run of the walk is a chain of single emission steps. -/
theorem walkRegionsGas_rtc (env : WalkEnv) (he : EnvKeyed env) (gas : Nat) :
    ∀ rids st,
      Relation.ReflTransGen (WalkStep env) st (walkRegionsGas env gas rids st) := by
  induction gas with
  | zero =>
    intro rids st
    exact walkLevel_rtc env he none (fun f hf => by cases hf) rids st
  | succ g ih =>
    intro rids st
    exact walkLevel_rtc env he (some (walkRegionsGas env g))
      (fun f hf => by cases hf; exact ih) rids st

theorem walkRegions_rtc (env : WalkEnv) (he : EnvKeyed env)
    (rids : List String) (depth maxExpandDepth : Nat) (st : WalkState) :
    Relation.ReflTransGen (WalkStep env) st
      (walkRegions rids depth maxExpandDepth env st) :=
  walkRegionsGas_rtc env he _ rids st

/-- Transport a step-preserved invariant along a walk. -/
theorem rtc_invariant {env : WalkEnv} (P : WalkState → Prop)
    (h : ∀ s s', WalkStep env s s' → P s → P s')
    {s s' : WalkState} (hr : Relation.ReflTransGen (WalkStep env) s s')
    (hs : P s) : P s' := by
  induction hr with
  | refl => exact hs
  | tail _ h2 ih => exact h _ _ h2 ih

/-! ## Node-count helpers -/

theorem groupNodeCount_append (gid : String) (l1 l2 : List FlowNode) :
    groupNodeCount gid (l1 ++ l2) = groupNodeCount gid l1 + groupNodeCount gid l2 := by
  simp [groupNodeCount, List.filter_append]

theorem groupNodeCount_op (gid id : String) (d : OpNodeData) :
    groupNodeCount gid [⟨id, .op d⟩] = 0 := by
  have h : ((FlowNode.mk id (.op d)).type == "groupNode") = false := by
    simp [FlowNode.type, NodeData.nodeType]
  simp [groupNodeCount, List.filter, h]

theorem groupNodeCount_input (gid id : String) (d : InputNodeData) :
    groupNodeCount gid [⟨id, .input d⟩] = 0 := by
  have h : ((FlowNode.mk id (.input d)).type == "groupNode") = false := by
    simp [FlowNode.type, NodeData.nodeType]
  simp [groupNodeCount, List.filter, h]

theorem groupNodeCount_group (gid id : String) (d : GroupNodeData) :
    groupNodeCount gid [⟨id, .group d⟩] = if id = gid then 1 else 0 := by
  by_cases h : id = gid
  · subst h
    simp [groupNodeCount, List.filter, FlowNode.type, NodeData.nodeType]
  · have hb : ((FlowNode.mk id (.group d)).id == gid) = false := by
      simp [h]
    simp [groupNodeCount, List.filter, hb, h]

/-! ## Walk-state invariants (preserved by every emission step) -/

/-- A group id is rendered iff exactly one group node with that id has been
pushed; unrendered group ids have no group node. -/
theorem walkStep_groupNodeCount {env : WalkEnv} (gid : String)
    {s s' : WalkState} (hstep : WalkStep env s s')
    (h : groupNodeCount gid s.nodes = if gid ∈ s.renderedGroupIds then 1 else 0) :
    groupNodeCount gid s'.nodes = if gid ∈ s'.renderedGroupIds then 1 else 0 := by
  cases hstep with
  | blockArg arg nodeId hmap hfmt =>
    simpa [groupNodeCount_append, groupNodeCount_input] using h
  | groupEmit opId op group hop hkey hhid hgrp hnew =>
    show groupNodeCount gid (s.nodes ++ [⟨group.id, .group (mkGroupNodeData group)⟩]) =
      if gid ∈ s.renderedGroupIds.add group.id then 1 else 0
    rw [groupNodeCount_append, groupNodeCount_group]
    by_cases hg : group.id = gid
    · subst hg
      rw [if_pos rfl, if_pos (JsSet.self_mem_add _ _)]
      rw [if_neg hnew] at h
      omega
    · rw [if_neg hg]
      have hmem : gid ∈ s.renderedGroupIds.add group.id ↔ gid ∈ s.renderedGroupIds := by
        rw [JsSet.mem_add]
        constructor
        · rintro (hh | rfl)
          · exact hh
          · exact absurd rfl hg
        · exact Or.inl
      rw [h]
      by_cases hr : gid ∈ s.renderedGroupIds
      · rw [if_pos hr, if_pos (hmem.mpr hr)]
      · rw [if_neg hr, if_neg (fun hh => hr (hmem.mp hh))]
  | groupSkip opId op group hop hkey hhid hgrp hold =>
    simpa [ghostEncounter] using h
  | visibleOp opId op d hop hkey hhid hgrp hlabel =>
    show groupNodeCount gid ((ghostEncounter opId s).nodes ++ [⟨op.op_id, .op d⟩]) =
      if gid ∈ s.renderedGroupIds then 1 else 0
    rw [groupNodeCount_append, groupNodeCount_op]
    simpa [ghostEncounter] using h

/-- Every op recorded as encountered that is attributed to a collapsed group
has that group's id rendered. -/
theorem walkStep_encountered_rendered {env : WalkEnv}
    {s s' : WalkState} (hstep : WalkStep env s s')
    (h : ∀ m ∈ s.encountered, ∀ g, env.collapsedGroupByOp.get? m = some g →
      g.id ∈ s.renderedGroupIds) :
    ∀ m ∈ s'.encountered, ∀ g, env.collapsedGroupByOp.get? m = some g →
      g.id ∈ s'.renderedGroupIds := by
  cases hstep with
  | blockArg arg nodeId hmap hfmt =>
    exact h
  | groupEmit opId op group hop hkey hhid hgrp hnew =>
    intro m hm g hg
    show g.id ∈ s.renderedGroupIds.add group.id
    rcases List.mem_append.mp hm with hm | hm
    · exact JsSet.mem_add_of_mem _ (h m hm g hg)
    · have hmop : m = opId := by simpa using hm
      subst hmop
      rw [hgrp] at hg
      cases hg
      exact JsSet.self_mem_add _ _
  | groupSkip opId op group hop hkey hhid hgrp hold =>
    intro m hm g hg
    rcases List.mem_append.mp hm with hm | hm
    · exact h m hm g hg
    · have hmop : m = opId := by simpa using hm
      subst hmop
      rw [hgrp] at hg
      cases hg
      exact hold
  | visibleOp opId op d hop hkey hhid hgrp hlabel =>
    intro m hm g hg
    rcases List.mem_append.mp hm with hm | hm
    · exact h m hm g hg
    · have hmop : m = opId := by simpa using hm
      subst hmop
      rw [hgrp] at hg
      cases hg

/-- Every pushed op node belongs to an op that is not attributed to any
collapsed group. -/
theorem walkStep_opNode_free {env : WalkEnv}
    {s s' : WalkState} (hstep : WalkStep env s s')
    (h : ∀ n ∈ s.nodes, n.type = "opNode" → env.collapsedGroupByOp.get? n.id = none) :
    ∀ n ∈ s'.nodes, n.type = "opNode" → env.collapsedGroupByOp.get? n.id = none := by
  cases hstep with
  | blockArg arg nodeId hmap hfmt =>
    intro n hn ht
    rcases List.mem_append.mp hn with hn | hn
    · exact h n hn ht
    · have : n = ⟨nodeId, .input ⟨arg.value_id, arg.type, arg.value_id⟩⟩ := by
        simpa using hn
      subst this
      simp [FlowNode.type, NodeData.nodeType] at ht
  | groupEmit opId op group hop hkey hhid hgrp hnew =>
    intro n hn ht
    rcases List.mem_append.mp hn with hn | hn
    · exact h n hn ht
    · have : n = ⟨group.id, .group (mkGroupNodeData group)⟩ := by simpa using hn
      subst this
      simp [FlowNode.type, NodeData.nodeType] at ht
  | groupSkip opId op group hop hkey hhid hgrp hold =>
    exact h
  | visibleOp opId op d hop hkey hhid hgrp hlabel =>
    intro n hn ht
    rcases List.mem_append.mp hn with hn | hn
    · exact h n hn ht
    · have : n = ⟨op.op_id, .op d⟩ := by simpa using hn
      subst this
      show env.collapsedGroupByOp.get? op.op_id = none
      rw [hkey]
      exact hgrp

/-- Every id in `visibleOpIds` is an op not attributed to a collapsed group. -/
theorem walkStep_visibleOp_free {env : WalkEnv}
    {s s' : WalkState} (hstep : WalkStep env s s')
    (h : ∀ id ∈ s.visibleOpIds, env.collapsedGroupByOp.get? id = none) :
    ∀ id ∈ s'.visibleOpIds, env.collapsedGroupByOp.get? id = none := by
  cases hstep with
  | blockArg arg nodeId hmap hfmt =>
    exact h
  | groupEmit opId op group hop hkey hhid hgrp hnew =>
    exact h
  | groupSkip opId op group hop hkey hhid hgrp hold =>
    exact h
  | visibleOp opId op d hop hkey hhid hgrp hlabel =>
    intro id hid
    rcases (JsSet.mem_add _ _ _).mp hid with hid | rfl
    · exact h id hid
    · rw [hkey]
      exact hgrp

/-- Every id in `visibleGroupIds` is the id of some group registered in the
collapsed-group map. -/
theorem walkStep_visibleGroup_range {env : WalkEnv}
    {s s' : WalkState} (hstep : WalkStep env s s')
    (h : ∀ id ∈ s.visibleGroupIds, ∃ g k,
      env.collapsedGroupByOp.get? k = some g ∧ g.id = id) :
    ∀ id ∈ s'.visibleGroupIds, ∃ g k,
      env.collapsedGroupByOp.get? k = some g ∧ g.id = id := by
  cases hstep with
  | blockArg arg nodeId hmap hfmt =>
    exact h
  | groupEmit opId op group hop hkey hhid hgrp hnew =>
    intro id hid
    rcases (JsSet.mem_add _ _ _).mp hid with hid | rfl
    · exact h id hid
    · exact ⟨group, opId, hgrp, rfl⟩
  | groupSkip opId op group hop hkey hhid hgrp hold =>
    exact h
  | visibleOp opId op d hop hkey hhid hgrp hlabel =>
    exact h

/-! ## Pipeline unfolding -/

/-- When the view resolves to at least one region, the pipeline is the walk
followed by the drill filter and edge generation. -/
theorem irToFlow_unfold (graph : IRGraph) (viewPath : List String)
    (maxExpandDepth : Nat) (hiddenOpNames : List String)
    (nodeGroups : List NodeGroup) (activeDrillGroupId : Option String)
    (hne : getViewRootRegionIds graph viewPath (buildLookups graph).opMap ≠ []) :
    irToFlow graph viewPath maxExpandDepth hiddenOpNames nodeGroups
        activeDrillGroupId =
      ⟨(drillFilter nodeGroups activeDrillGroupId
          (walkRegions (getViewRootRegionIds graph viewPath (buildLookups graph).opMap)
            1 maxExpandDepth
            ⟨buildLookups graph, hiddenOpNames,
             (buildGroupMaps nodeGroups activeDrillGroupId).collapsedGroupByOp,
             (buildGroupMaps nodeGroups activeDrillGroupId).inlineGroupByOp⟩
            WalkState.initial)).nodes,
       generateEdges
         (drillFilter nodeGroups activeDrillGroupId
           (walkRegions (getViewRootRegionIds graph viewPath (buildLookups graph).opMap)
             1 maxExpandDepth
             ⟨buildLookups graph, hiddenOpNames,
              (buildGroupMaps nodeGroups activeDrillGroupId).collapsedGroupByOp,
              (buildGroupMaps nodeGroups activeDrillGroupId).inlineGroupByOp⟩
             WalkState.initial)).visibleOpIds
         (drillFilter nodeGroups activeDrillGroupId
           (walkRegions (getViewRootRegionIds graph viewPath (buildLookups graph).opMap)
             1 maxExpandDepth
             ⟨buildLookups graph, hiddenOpNames,
              (buildGroupMaps nodeGroups activeDrillGroupId).collapsedGroupByOp,
              (buildGroupMaps nodeGroups activeDrillGroupId).inlineGroupByOp⟩
             WalkState.initial)).visibleInputNodeIds
         (walkRegions (getViewRootRegionIds graph viewPath (buildLookups graph).opMap)
           1 maxExpandDepth
           ⟨buildLookups graph, hiddenOpNames,
            (buildGroupMaps nodeGroups activeDrillGroupId).collapsedGroupByOp,
            (buildGroupMaps nodeGroups activeDrillGroupId).inlineGroupByOp⟩
           WalkState.initial).visibleGroupIds
         (buildLookups graph)
         (buildGroupMaps nodeGroups activeDrillGroupId).collapsedGroupByOp
         (buildGroupMaps nodeGroups activeDrillGroupId).collapsedGroupsMap⟩ := by
  show (if (getViewRootRegionIds graph viewPath (buildLookups graph).opMap).length = 0
      then (⟨[], []⟩ : FlowResult) else _) = _
  rw [if_neg (fun h0 => hne (List.length_eq_zero.mp h0))]

/-- With no drill group the drill filter is the identity extraction. -/
theorem drillFilter_none (nodeGroups : List NodeGroup) (st : WalkState) :
    drillFilter nodeGroups none st =
      ⟨st.nodes, st.visibleOpIds, st.visibleInputNodeIds⟩ := rfl

/-! ## C1 — one group node per collapsed group -/

/-- C1 (amended): with no active drill group, and no member of `G` shared
with another collapsed group of the list (last-registration-wins would
otherwise silently re-attribute the op, see C9), a collapsed group with at
least one member encountered in the walk (present in the index, walked, not
name-hidden — recorded by the walk's `encountered` ghost field) contributes
exactly one group node to the visible-node set, no matter how many members
are encountered, and no operation node is emitted for any of its members. -/
theorem collapsed_group_single_node
    (graph : IRGraph) (viewPath : List String) (maxExpandDepth : Nat)
    (hiddenOpNames : List String) (nodeGroups : List NodeGroup)
    (G : NodeGroup) (env : WalkEnv) (st : WalkState)
    (henv : env = ⟨buildLookups graph, hiddenOpNames,
      (buildGroupMaps nodeGroups none).collapsedGroupByOp,
      (buildGroupMaps nodeGroups none).inlineGroupByOp⟩)
    (hst : st = walkRegions
      (getViewRootRegionIds graph viewPath (buildLookups graph).opMap)
      1 maxExpandDepth env WalkState.initial)
    (hG : G ∈ nodeGroups) (hmode : G.displayMode = .collapsed)
    (hdisj : ∀ g' ∈ nodeGroups, g'.displayMode = .collapsed →
      ∀ m ∈ G.opIds, m ∈ g'.opIds → g' = G)
    (hreach : ∃ m ∈ G.opIds, m ∈ st.encountered) :
    groupNodeCount G.id
      (irToFlow graph viewPath maxExpandDepth hiddenOpNames nodeGroups
        none).nodes = 1 ∧
    ∀ m ∈ G.opIds,
      ∀ n ∈ (irToFlow graph viewPath maxExpandDepth hiddenOpNames nodeGroups
        none).nodes, ¬ (n.type = "opNode" ∧ n.id = m) := by
  obtain ⟨m0, hm0G, hm0enc⟩ := hreach
  by_cases hv : getViewRootRegionIds graph viewPath (buildLookups graph).opMap = []
  · rw [hv, walkRegions_eq_level] at hst
    have hstI : st = WalkState.initial := hst
    rw [hstI] at hm0enc
    simp [WalkState.initial] at hm0enc
  · have hrtc : Relation.ReflTransGen (WalkStep env) WalkState.initial st := by
      rw [hst]
      exact walkRegions_rtc env
        (henv ▸ buildLookups_envKeyed graph hiddenOpNames _ _) _ _ _ _
    obtain ⟨p, q, hpq⟩ := List.append_of_mem hG
    have howner : ∀ m ∈ G.opIds, env.collapsedGroupByOp.get? m = some G := by
      intro m hm
      rw [henv]
      show (buildGroupMaps nodeGroups none).collapsedGroupByOp.get? m = some G
      rw [hpq]
      exact collapsedByOp_last p q G m hmode hm
        (fun g hgq hgc hgm => hdisj g (by rw [hpq]; simp [hgq]) hgc m hm hgm)
    have hA : groupNodeCount G.id st.nodes =
        if G.id ∈ st.renderedGroupIds then 1 else 0 :=
      rtc_invariant _ (fun _ _ hs h => walkStep_groupNodeCount G.id hs h) hrtc
        (by simp [WalkState.initial, groupNodeCount])
    have hB : ∀ m ∈ st.encountered, ∀ g,
        env.collapsedGroupByOp.get? m = some g → g.id ∈ st.renderedGroupIds :=
      rtc_invariant _ (fun _ _ hs h => walkStep_encountered_rendered hs h) hrtc
        (by simp [WalkState.initial])
    have hC : ∀ n ∈ st.nodes, n.type = "opNode" →
        env.collapsedGroupByOp.get? n.id = none :=
      rtc_invariant _ (fun _ _ hs h => walkStep_opNode_free hs h) hrtc
        (by simp [WalkState.initial])
    have hrend : G.id ∈ st.renderedGroupIds := hB m0 hm0enc G (howner m0 hm0G)
    have hnodes : (irToFlow graph viewPath maxExpandDepth hiddenOpNames
        nodeGroups none).nodes = st.nodes := by
      rw [irToFlow_unfold graph viewPath maxExpandDepth hiddenOpNames
        nodeGroups none hv, drillFilter_none, hst, henv]
    constructor
    · rw [hnodes, hA, if_pos hrend]
    · rintro m hm n hn ⟨ht, hid⟩
      rw [hnodes] at hn
      have hfree := hC n hn ht
      rw [hid, howner m hm] at hfree
      cases hfree

/-- Counterexample to C1 as frozen: both `overlapGroupA` and `overlapGroupB`
are collapsed and contain the reachable op `op_addf` (encountered by the
walk), yet the group registered first contributes zero group nodes — the op
is silently attributed to the group registered last. -/
theorem collapsed_group_single_node_counterexample :
    overlapGroupA.displayMode = .collapsed ∧
    "op_addf" ∈ overlapGroupA.opIds ∧
    "op_addf" ∈ (walkRegions
      (getViewRootRegionIds sampleGraph sampleViewPath
        (buildLookups sampleGraph).opMap)
      1 0 (sampleEnv [] [overlapGroupA, overlapGroupB] none)
      WalkState.initial).encountered ∧
    groupNodeCount overlapGroupA.id
      (irToFlow sampleGraph sampleViewPath 0 []
        [overlapGroupA, overlapGroupB] none).nodes = 0 := by
  refine ⟨rfl, by decide, by decide, by decide⟩

/-- Witness for the amended C1: the single collapsed group `sampleGroup`
(members `op_addf`, `op_mulf`) yields exactly one `group_1` node and no
member op nodes. -/
theorem collapsed_group_single_node_witness :
    (sampleGroup ∈ [sampleGroup] ∧ sampleGroup.displayMode = .collapsed ∧
     (∀ g' ∈ [sampleGroup], g'.displayMode = .collapsed →
       ∀ m ∈ sampleGroup.opIds, m ∈ g'.opIds → g' = sampleGroup) ∧
     (∃ m ∈ sampleGroup.opIds, m ∈ (walkRegions
       (getViewRootRegionIds sampleGraph sampleViewPath
         (buildLookups sampleGraph).opMap)
       1 0 (sampleEnv [] [sampleGroup] none) WalkState.initial).encountered)) ∧
    (groupNodeCount sampleGroup.id
      (irToFlow sampleGraph sampleViewPath 0 [] [sampleGroup] none).nodes = 1 ∧
     ∀ m ∈ sampleGroup.opIds,
       ∀ n ∈ (irToFlow sampleGraph sampleViewPath 0 [] [sampleGroup]
         none).nodes, ¬ (n.type = "opNode" ∧ n.id = m)) :=
  ⟨⟨by decide, rfl, by decide, by decide⟩,
   collapsed_group_single_node sampleGraph sampleViewPath 0 [] [sampleGroup]
     sampleGroup (sampleEnv [] [sampleGroup] none) _ rfl rfl (by decide) rfl
     (by decide) (by decide)⟩

/-! ## C9 — ops in multiple collapsed groups: last registration wins -/

/-- C9: an operation that is a member of more than one collapsed group is
silently attributed to the group registered last in the list: (1) the
op → collapsed-group map binds it to that group; (2) when the walk encounters
the op (not hidden, group not yet rendered) it emits that group's node;
(3) the edge synthesizer resolves values produced by the op through that
group's node and its boundary-output port. -/
theorem multi_group_last_wins
    (nodeGroups p q : List NodeGroup) (G : NodeGroup) (opId : String)
    (hsplit : nodeGroups = p ++ G :: q)
    (hmode : G.displayMode = .collapsed)
    (hmem : opId ∈ G.opIds)
    (hpost : ∀ g ∈ q, g.displayMode = .collapsed → opId ∈ g.opIds → g = G) :
    (buildGroupMaps nodeGroups none).collapsedGroupByOp.get? opId = some G ∧
    (∀ env st op depth maxExpandDepth,
      env.collapsedGroupByOp =
        (buildGroupMaps nodeGroups none).collapsedGroupByOp →
      env.lookups.opMap.get? opId = some op →
      env.hiddenOpNames.contains op.name = false →
      G.id ∉ st.renderedGroupIds →
      walkOp opId depth maxExpandDepth env st =
        emitGroupNode G (ghostEncounter opId st)) ∧
    (∀ vO vI vG lookups top operandIdx operand producer outputIdx,
      lookups.valueProducerMap.get? operand.value_id = some producer →
      producer.opId = opId →
      vO.contains producer.opId = false →
      vG.contains G.id = true →
      G.outputs.findIdx? (fun o => o.valueId == operand.value_id) =
        some outputIdx →
      edgesForOperand vO vI vG lookups
        (buildGroupMaps nodeGroups none).collapsedGroupByOp top operandIdx
        operand =
        [⟨mkEdgeId operand.value_id top.op_id operandIdx, G.id,
          outHandle outputIdx, top.op_id, inHandle operandIdx, operand.type,
          false, ⟨operand.value_id, top.op_id, operandIdx⟩⟩]) := by
  have h1 : (buildGroupMaps nodeGroups none).collapsedGroupByOp.get? opId
      = some G := by
    rw [hsplit]
    exact collapsedByOp_last p q G opId hmode hmem hpost
  refine ⟨h1, ?_, ?_⟩
  · intro env st op depth maxExpandDepth hmap hop hhid hnew
    rw [walkOp_eq_step]
    simp only [walkOpStep, hop]
    rw [hhid]
    simp only [Bool.false_eq_true, if_false, hmap, h1]
    have hcf : List.contains (ghostEncounter opId st).renderedGroupIds G.id
        = false := by
      cases hcc : List.contains (ghostEncounter opId st).renderedGroupIds G.id
      · rfl
      · exact absurd ((JsSet.contains_iff _ _).mp hcc) hnew
    rw [hcf]
    simp only [Bool.false_eq_true, if_false]
  · intro vO vI vG lookups top operandIdx operand producer outputIdx
      hprod hpid hvo hvg hidx
    subst hpid
    unfold edgesForOperand
    simp only [hprod, hvo, Bool.false_eq_true, if_false, h1, hvg, if_true,
      hidx]

/-- Witness for C9: `op_addf` is in both `overlapGroupA` and `overlapGroupB`
(both collapsed); the later `overlapGroupB` wins in the map, in the walk and
in edge resolution. -/
theorem multi_group_last_wins_witness :
    (([overlapGroupA, overlapGroupB] : List NodeGroup) =
      [overlapGroupA] ++ overlapGroupB :: [] ∧
     overlapGroupB.displayMode = .collapsed ∧
     "op_addf" ∈ overlapGroupB.opIds) ∧
    (buildGroupMaps [overlapGroupA, overlapGroupB]
      none).collapsedGroupByOp.get? "op_addf" = some overlapGroupB ∧
    walkOp "op_addf" 1 0 (sampleEnv [] [overlapGroupA, overlapGroupB] none)
        WalkState.initial =
      emitGroupNode overlapGroupB (ghostEncounter "op_addf" WalkState.initial) ∧
    edgesForOperand [] [] ["group_2"] (buildLookups sampleGraph)
        (buildGroupMaps [overlapGroupA, overlapGroupB] none).collapsedGroupByOp
        ⟨"op_mulf", "arith.mulf", "arith", [],
         [⟨"val_add_result", "f32"⟩, ⟨"val_arg2", "f32"⟩],
         [⟨"val_mul_result", "f32"⟩], [], "block_0", 1⟩ 0
        ⟨"val_add_result", "f32"⟩ =
      [⟨mkEdgeId "val_add_result" "op_mulf" 0, "group_2", outHandle 0,
        "op_mulf", inHandle 0, "f32", false, ⟨"val_add_result", "op_mulf", 0⟩⟩] :=
  have h := multi_group_last_wins [overlapGroupA, overlapGroupB]
    [overlapGroupA] [] overlapGroupB "op_addf" rfl rfl (by decide)
    (by intro g hg; simp at hg)
  ⟨⟨rfl, rfl, by decide⟩, h.1,
   h.2.1 (sampleEnv [] [overlapGroupA, overlapGroupB] none) WalkState.initial
     ⟨"op_addf", "arith.addf", "arith", [],
      [⟨"val_arg0", "f32"⟩, ⟨"val_arg1", "f32"⟩],
      [⟨"val_add_result", "f32"⟩], [], "block_0", 0⟩ 1 0 rfl (by decide)
     (by decide) (by decide),
   h.2.2 [] [] ["group_2"] (buildLookups sampleGraph)
     ⟨"op_mulf", "arith.mulf", "arith", [],
      [⟨"val_add_result", "f32"⟩, ⟨"val_arg2", "f32"⟩],
      [⟨"val_mul_result", "f32"⟩], [], "block_0", 1⟩ 0
     ⟨"val_add_result", "f32"⟩ ⟨"op_addf", 0⟩ 0 (by decide) rfl (by decide)
     (by decide) (by decide)⟩

/-! ## Edge-synthesizer case analyses -/

theorem blockArgEdge_cases {vI : JsSet} {lookups : Lookups}
    {valueId type targetId : String} {targetIdx : Nat} {deletable : Bool}
    {e : FlowEdge}
    (he : e ∈ blockArgEdge vI lookups valueId type targetId targetIdx deletable) :
    lookups.blockArgNodeMap.get? valueId = some e.source ∧ e.source ∈ vI ∧
      e.target = targetId := by
  unfold blockArgEdge at he
  cases h : lookups.blockArgNodeMap.get? valueId with
  | none =>
    simp only [h] at he
    simp at he
  | some inputNodeId =>
    simp only [h] at he
    cases hv : List.contains vI inputNodeId with
    | false =>
      rw [if_neg (by intro hh; rw [hv] at hh; cases hh)] at he
      simp at he
    | true =>
      rw [if_pos hv] at he
      simp only [List.mem_singleton] at he
      subst he
      exact ⟨rfl, (JsSet.contains_iff _ _).mp hv, rfl⟩

theorem edgesForOperand_cases {vO vI vG : JsSet} {lookups : Lookups}
    {cbo : JsMap NodeGroup} {op : OperationInfo} {operandIdx : Nat}
    {operand : ValueInfo} {e : FlowEdge}
    (he : e ∈ edgesForOperand vO vI vG lookups cbo op operandIdx operand) :
    e.target = op.op_id ∧
    (e.source ∈ vO ∨
     (∃ producer g,
       lookups.valueProducerMap.get? operand.value_id = some producer ∧
       cbo.get? producer.opId = some g ∧ e.source = g.id ∧ e.source ∈ vG) ∨
     (lookups.blockArgNodeMap.get? operand.value_id = some e.source ∧
       e.source ∈ vI)) := by
  unfold edgesForOperand at he
  cases hp : lookups.valueProducerMap.get? operand.value_id with
  | none =>
    simp only [hp] at he
    obtain ⟨h1, h2, h3⟩ := blockArgEdge_cases he
    exact ⟨h3, Or.inr (Or.inr ⟨h1, h2⟩)⟩
  | some producer =>
    simp only [hp] at he
    cases hvo : List.contains vO producer.opId with
    | true =>
      rw [if_pos hvo] at he
      simp only [List.mem_singleton] at he
      subst he
      exact ⟨rfl, Or.inl ((JsSet.contains_iff _ _).mp hvo)⟩
    | false =>
      rw [if_neg (by intro hh; rw [hvo] at hh; cases hh)] at he
      cases hg : cbo.get? producer.opId with
      | none =>
        simp only [hg] at he
        obtain ⟨h1, h2, h3⟩ := blockArgEdge_cases he
        exact ⟨h3, Or.inr (Or.inr ⟨h1, h2⟩)⟩
      | some producerGroup =>
        simp only [hg] at he
        cases hvg : List.contains vG producerGroup.id with
        | false =>
          rw [if_neg (by intro hh; rw [hvg] at hh; cases hh)] at he
          obtain ⟨h1, h2, h3⟩ := blockArgEdge_cases he
          exact ⟨h3, Or.inr (Or.inr ⟨h1, h2⟩)⟩
        | true =>
          rw [if_pos hvg] at he
          cases hidx : producerGroup.outputs.findIdx?
              (fun o => o.valueId == operand.value_id) with
          | none =>
            simp only [hidx] at he
            simp at he
          | some outputIdx =>
            simp only [hidx, List.mem_singleton] at he
            subst he
            exact ⟨rfl, Or.inr (Or.inl ⟨producer, producerGroup, rfl, hg, rfl,
              (JsSet.contains_iff _ _).mp hvg⟩)⟩

theorem edgesForGroupInput_cases {vO vI vG : JsSet} {lookups : Lookups}
    {cbo : JsMap NodeGroup} {group : NodeGroup} {inputIdx : Nat}
    {inp : GroupInput} {e : FlowEdge}
    (he : e ∈ edgesForGroupInput vO vI vG lookups cbo group inputIdx inp) :
    e.target = group.id ∧
    (e.source ∈ vO ∨
     (∃ producer g,
       lookups.valueProducerMap.get? inp.valueId = some producer ∧
       cbo.get? producer.opId = some g ∧ e.source = g.id ∧ e.source ∈ vG) ∨
     (lookups.blockArgNodeMap.get? inp.valueId = some e.source ∧
       e.source ∈ vI)) := by
  unfold edgesForGroupInput at he
  cases hp : lookups.valueProducerMap.get? inp.valueId with
  | none =>
    simp only [hp] at he
    obtain ⟨h1, h2, h3⟩ := blockArgEdge_cases he
    exact ⟨h3, Or.inr (Or.inr ⟨h1, h2⟩)⟩
  | some producer =>
    simp only [hp] at he
    cases hvo : List.contains vO producer.opId with
    | true =>
      rw [if_pos hvo] at he
      simp only [List.mem_singleton] at he
      subst he
      exact ⟨rfl, Or.inl ((JsSet.contains_iff _ _).mp hvo)⟩
    | false =>
      rw [if_neg (by intro hh; rw [hvo] at hh; cases hh)] at he
      cases hg : cbo.get? producer.opId with
      | none =>
        simp only [hg] at he
        obtain ⟨h1, h2, h3⟩ := blockArgEdge_cases he
        exact ⟨h3, Or.inr (Or.inr ⟨h1, h2⟩)⟩
      | some producerGroup =>
        simp only [hg] at he
        by_cases hvg : List.contains vG producerGroup.id = true ∧
            producerGroup.id ≠ group.id
        · rw [if_pos hvg] at he
          cases hidx : producerGroup.outputs.findIdx?
              (fun o => o.valueId == inp.valueId) with
          | none =>
            simp only [hidx] at he
            simp at he
          | some outputIdx =>
            simp only [hidx, List.mem_singleton] at he
            subst he
            exact ⟨rfl, Or.inr (Or.inl ⟨producer, producerGroup, rfl, hg, rfl,
              (JsSet.contains_iff _ _).mp hvg.1⟩)⟩
        · rw [if_neg hvg] at he
          obtain ⟨h1, h2, h3⟩ := blockArgEdge_cases he
          exact ⟨h3, Or.inr (Or.inr ⟨h1, h2⟩)⟩

/-- Every synthesized edge comes from some visible op's operand slot or from
some rendered group's boundary-input slot. -/
theorem generateEdges_mem {vO vI vG : JsSet} {lookups : Lookups}
    {cbo cgm : JsMap NodeGroup} {e : FlowEdge}
    (he : e ∈ generateEdges vO vI vG lookups cbo cgm) :
    (∃ opId op, opId ∈ vO ∧ lookups.opMap.get? opId = some op ∧
      ∃ q ∈ op.operands.enum,
        e ∈ edgesForOperand vO vI vG lookups cbo op q.1 q.2) ∨
    (∃ gid g, gid ∈ vG ∧ cgm.get? gid = some g ∧
      ∃ q ∈ g.inputs.enum,
        e ∈ edgesForGroupInput vO vI vG lookups cbo g q.1 q.2) := by
  revert e
  show ∀ e ∈ generateEdges vO vI vG lookups cbo cgm,
    (∃ opId op, opId ∈ vO ∧ lookups.opMap.get? opId = some op ∧
      ∃ q ∈ op.operands.enum,
        e ∈ edgesForOperand vO vI vG lookups cbo op q.1 q.2) ∨
    (∃ gid g, gid ∈ vG ∧ cgm.get? gid = some g ∧
      ∃ q ∈ g.inputs.enum,
        e ∈ edgesForGroupInput vO vI vG lookups cbo g q.1 q.2)
  unfold generateEdges
  refine foldl_preserve
    (fun edges : List FlowEdge => ∀ e ∈ edges,
      (∃ opId op, opId ∈ vO ∧ lookups.opMap.get? opId = some op ∧
        ∃ q ∈ op.operands.enum,
          e ∈ edgesForOperand vO vI vG lookups cbo op q.1 q.2) ∨
      (∃ gid g, gid ∈ vG ∧ cgm.get? gid = some g ∧
        ∃ q ∈ g.inputs.enum,
          e ∈ edgesForGroupInput vO vI vG lookups cbo g q.1 q.2))
    _ vG _ ?_ ?_
  · refine foldl_preserve
      (fun edges : List FlowEdge => ∀ e ∈ edges,
        (∃ opId op, opId ∈ vO ∧ lookups.opMap.get? opId = some op ∧
          ∃ q ∈ op.operands.enum,
            e ∈ edgesForOperand vO vI vG lookups cbo op q.1 q.2) ∨
        (∃ gid g, gid ∈ vG ∧ cgm.get? gid = some g ∧
          ∃ q ∈ g.inputs.enum,
            e ∈ edgesForGroupInput vO vI vG lookups cbo g q.1 q.2))
      _ vO _ ?_ ?_
    · intro e he
      simp at he
    · intro edges opId hop hP e he
      cases hm : lookups.opMap.get? opId with
      | none =>
        simp only [hm] at he
        exact hP e he
      | some op =>
        simp only [hm] at he
        rw [foldl_append_eq
          (fun q : Nat × ValueInfo =>
            edgesForOperand vO vI vG lookups cbo op q.1 q.2)
          op.operands.enum edges] at he
        rcases List.mem_append.mp he with he | he
        · exact hP e he
        · obtain ⟨q, hq, heq⟩ := List.mem_flatMap.mp he
          exact Or.inl ⟨opId, op, hop, hm, q, hq, heq⟩
  · intro edges gid hgid hP e he
    cases hm : cgm.get? gid with
    | none =>
      simp only [hm] at he
      exact hP e he
    | some g =>
      simp only [hm] at he
      rw [foldl_append_eq
        (fun q : Nat × GroupInput =>
          edgesForGroupInput vO vI vG lookups cbo g q.1 q.2)
        g.inputs.enum edges] at he
      rcases List.mem_append.mp he with he | he
      · exact hP e he
      · obtain ⟨q, hq, heq⟩ := List.mem_flatMap.mp he
        exact Or.inr ⟨gid, g, hgid, hm, q, hq, heq⟩

/-- Members of a collapsed group are always bound in `collapsedGroupByOp`
(to that group or to a later-registered one). -/
theorem collapsedByOp_isSome (groups : List NodeGroup) (G : NodeGroup)
    (m : String) (hG : G ∈ groups) (hmode : G.displayMode = .collapsed)
    (hm : m ∈ G.opIds) :
    ((buildGroupMaps groups none).collapsedGroupByOp.get? m).isSome := by
  obtain ⟨p, q, hpq⟩ := List.append_of_mem hG
  rw [hpq]
  unfold buildGroupMaps
  rw [List.foldl_append, List.foldl_cons]
  refine foldl_preserve
    (fun maps : GroupMaps => (maps.collapsedGroupByOp.get? m).isSome) _ q _ ?_ ?_
  · rw [groupMapsStep_collapsed _ G hmode]
    show ((G.opIds.foldl (fun (mm : JsMap NodeGroup) opId => mm.set opId G)
      ((p.foldl (groupMapsStep none) GroupMaps.empty).collapsedGroupByOp)).get?
        m).isSome
    rw [foldl_set_const_get G G.opIds _ m hm]
    rfl
  · intro maps x _ hP
    rw [groupMapsStep_collapsedByOp]
    by_cases hc : x.displayMode = .collapsed
    · rw [if_pos hc]
      refine foldl_preserve
        (fun mm : JsMap NodeGroup => (mm.get? m).isSome) _ x.opIds _ hP ?_
      intro mm y _ hPP
      rw [JsMap.get?_set]
      by_cases hy : y = m
      · rw [if_pos hy]
        rfl
      · rw [if_neg hy]
        exact hPP
    · rw [if_neg hc]
      exact hP

/-! ## C2 — no intra-group edges while a group is collapsed -/

/-- C2 (amended): with no active drill group, and group ids disjoint from the
member ids of `G` (they live in separate id namespaces), the synthesized edge
set contains no edge whose source and target are both member operations of a
collapsed group `G`: in fact no edge even has its target among `G`'s
members. -/
theorem no_intra_group_edges
    (graph : IRGraph) (viewPath : List String) (maxExpandDepth : Nat)
    (hiddenOpNames : List String) (nodeGroups : List NodeGroup) (G : NodeGroup)
    (hG : G ∈ nodeGroups) (hmode : G.displayMode = .collapsed)
    (hids : ∀ g' ∈ nodeGroups, g'.id ∉ G.opIds) :
    ∀ e ∈ (irToFlow graph viewPath maxExpandDepth hiddenOpNames nodeGroups
        none).edges, ¬ (e.source ∈ G.opIds ∧ e.target ∈ G.opIds) := by
  intro e he hst
  by_cases hv : getViewRootRegionIds graph viewPath (buildLookups graph).opMap = []
  · have hz : irToFlow graph viewPath maxExpandDepth hiddenOpNames nodeGroups
        none = ⟨[], []⟩ := by
      unfold irToFlow
      rw [if_pos (by rw [hv]; rfl)]
    rw [hz] at he
    simp at he
  · rw [irToFlow_unfold graph viewPath maxExpandDepth hiddenOpNames nodeGroups
      none hv] at he
    simp only [drillFilter_none] at he
    set env : WalkEnv := ⟨buildLookups graph, hiddenOpNames,
      (buildGroupMaps nodeGroups none).collapsedGroupByOp,
      (buildGroupMaps nodeGroups none).inlineGroupByOp⟩ with henv
    set st := walkRegions
      (getViewRootRegionIds graph viewPath (buildLookups graph).opMap)
      1 maxExpandDepth env WalkState.initial with hstdef
    have hrtc : Relation.ReflTransGen (WalkStep env) WalkState.initial st :=
      walkRegions_rtc env (buildLookups_envKeyed graph hiddenOpNames _ _) _ _ _ _
    have hOpFree : ∀ id ∈ st.visibleOpIds,
        env.collapsedGroupByOp.get? id = none :=
      rtc_invariant _ (fun _ _ hs h => walkStep_visibleOp_free hs h) hrtc
        (by simp [WalkState.initial])
    have hMemberSome : ∀ m ∈ G.opIds,
        (env.collapsedGroupByOp.get? m).isSome :=
      fun m hm => collapsedByOp_isSome nodeGroups G m hG hmode hm
    have hMemberNotVisible : ∀ m ∈ G.opIds, m ∉ st.visibleOpIds := by
      intro m hm hmem
      have h1 := hOpFree m hmem
      have h2 := hMemberSome m hm
      rw [h1] at h2
      simp at h2
    rcases generateEdges_mem he with
      ⟨opId, op, hopId, hopm, q, hq, hein⟩ | ⟨gid, g, hgid, hgm, q, hq, hein⟩
    · have hc := edgesForOperand_cases hein
      have hkey : op.op_id = opId := opMap_keyed graph opId op hopm
      have : e.target ∈ st.visibleOpIds := by
        rw [hc.1, hkey]
        exact hopId
      exact hMemberNotVisible e.target hst.2 this
    · have hc := edgesForGroupInput_cases hein
      obtain ⟨hgid2, hgin, hgcol⟩ := collapsedGroupsMap_keyed nodeGroups gid g hgm
      have : e.target ∈ G.opIds := hst.2
      rw [hc.1] at this
      exact hids g hgin this

/-- Counterexample to C2 as frozen: drilling into the collapsed group
`sampleGroup` surfaces the intra-group edge `op_addf → op_mulf` while the
group's display mode is still collapsed. -/
theorem no_intra_group_edges_counterexample :
    sampleGroup.displayMode = .collapsed ∧
    ((irToFlow sampleGraph sampleViewPath 0 [] [sampleGroup]
        (some "group_1")).edges.any
      (fun e => sampleGroup.opIds.contains e.source &&
        sampleGroup.opIds.contains e.target)) = true := by
  exact ⟨rfl, by decide⟩

/-- Witness for the amended C2 on `sampleGraph` with the collapsed group
`sampleGroup` and no drill group. -/
theorem no_intra_group_edges_witness :
    (sampleGroup ∈ [sampleGroup] ∧ sampleGroup.displayMode = .collapsed ∧
     (∀ g' ∈ [sampleGroup], g'.id ∉ sampleGroup.opIds)) ∧
    (∀ e ∈ (irToFlow sampleGraph sampleViewPath 0 [] [sampleGroup]
        none).edges,
      ¬ (e.source ∈ sampleGroup.opIds ∧ e.target ∈ sampleGroup.opIds)) :=
  ⟨⟨by decide, rfl, by decide⟩,
   no_intra_group_edges sampleGraph sampleViewPath 0 [] [sampleGroup]
     sampleGroup (by decide) rfl (by decide)⟩

/-! ## Generic list lemmas for the boundary-IO proofs -/

theorem mem_of_mem_enum {α : Type} {l : List α} {q : Nat × α}
    (h : q ∈ l.enum) : q.2 ∈ l := by
  have h2 : q.2 ∈ l.enum.map Prod.snd := List.mem_map_of_mem Prod.snd h
  rwa [List.enum_map_snd] at h2

/-- A nested fold over the pieces of a list equals a fold over its flatMap. -/
theorem foldl_flatMap {α β γ : Type} (g : α → List γ) (f : β → γ → β)
    (l : List α) (b : β) :
    l.foldl (fun acc x => (g x).foldl f acc) b = (l.flatMap g).foldl f b := by
  induction l generalizing b with
  | nil => rfl
  | cons x rest ih =>
    rw [List.foldl_cons, List.flatMap_cons, List.foldl_append, ih]

theorem sublist_flatMap {α β : Type} (f : α → List β) {l : List α} {x : α}
    (h : x ∈ l) : (f x).Sublist (l.flatMap f) := by
  induction l with
  | nil => simp at h
  | cons y rest ih =>
    rw [List.flatMap_cons]
    rcases List.mem_cons.mp h with rfl | h
    · exact (List.sublist_append_left _ _)
    · exact (ih h).trans (List.sublist_append_right _ _)

theorem nodup_flatMap_pairwise {α β : Type} {l : List α} {f : α → List β}
    (h : (l.flatMap f).Nodup) :
    l.Pairwise (fun x y => ∀ b ∈ f x, b ∉ f y) := by
  induction l with
  | nil => exact List.Pairwise.nil
  | cons x rest ih =>
    rw [List.flatMap_cons] at h
    rw [List.nodup_append] at h
    refine List.Pairwise.cons ?_ (ih h.2.1)
    intro y hy b hbx hby
    exact h.2.2 hbx (List.mem_flatMap.mpr ⟨y, hy, hby⟩)

theorem flatMap_nodup {α β : Type} (l : List α) (f : α → List β)
    (hf : ∀ x ∈ l, (f x).Nodup)
    (hdisj : List.Pairwise (fun x y => ∀ b ∈ f x, b ∉ f y) l) :
    (l.flatMap f).Nodup := by
  induction l with
  | nil => exact List.nodup_nil
  | cons x rest ih =>
    rw [List.flatMap_cons, List.nodup_append]
    refine ⟨hf x (by simp), ih (fun y hy => hf y (by simp [hy]))
      (List.Pairwise.sublist (List.sublist_cons_self x rest) hdisj), ?_⟩
    intro b hbx hbr
    obtain ⟨y, hy, hby⟩ := List.mem_flatMap.mp hbr
    exact (List.rel_of_pairwise_cons hdisj hy) b hbx hby

/-! ## More JsMap lemmas -/

namespace JsMap

theorem mem_set {α : Type} {m : JsMap α} {k k' : String} {v v' : α}
    (h : (k', v') ∈ m.set k v) : (k', v') ∈ m ∨ (k' = k ∧ v' = v) := by
  induction m with
  | nil =>
    simp [set] at h
    exact Or.inr h
  | cons p rest ih =>
    obtain ⟨k₀, v₀⟩ := p
    by_cases hk : k₀ = k
    · subst hk
      simp only [set, if_pos rfl] at h
      rcases List.mem_cons.mp h with h | h
      · cases h
        exact Or.inr ⟨rfl, rfl⟩
      · exact Or.inl (List.mem_cons_of_mem _ h)
    · simp only [set, if_neg hk] at h
      rcases List.mem_cons.mp h with h | h
      · cases h
        exact Or.inl (List.mem_cons_self _ _)
      · rcases ih h with h | h
        · exact Or.inl (List.mem_cons_of_mem _ h)
        · exact Or.inr h

theorem mem_keys_set {α : Type} (m : JsMap α) (k₀ : String) (v : α)
    (k : String) : k ∈ (m.set k₀ v).keys ↔ k ∈ m.keys ∨ k = k₀ := by
  rw [keys_set]
  by_cases hm : k₀ ∈ m.keys
  · rw [if_pos hm]
    constructor
    · exact Or.inl
    · rintro (h | rfl)
      · exact h
      · exact hm
  · rw [if_neg hm]
    simp

theorem keys_fold_set_mem {α : Type} (L : List (String × α)) (m : JsMap α)
    (k : String) :
    k ∈ (L.foldl (fun m p => m.set p.1 p.2) m).keys ↔
      k ∈ m.keys ∨ k ∈ L.map Prod.fst := by
  induction L generalizing m with
  | nil => simp
  | cons p rest ih =>
    rw [List.foldl_cons, ih, mem_keys_set]
    simp [or_assoc, or_comm, or_left_comm]

theorem fold_set_get_mem {α : Type} (L : List (String × α)) (m : JsMap α)
    (k : String) (v : α)
    (h : (L.foldl (fun m p => m.set p.1 p.2) m).get? k = some v) :
    (k, v) ∈ L ∨ (k ∉ L.map Prod.fst ∧ m.get? k = some v) := by
  induction L generalizing m with
  | nil => exact Or.inr (by simpa using h)
  | cons p rest ih =>
    obtain ⟨k₀, v₀⟩ := p
    rw [List.foldl_cons] at h
    rcases ih (m.set k₀ v₀) h with h | ⟨h1, h2⟩
    · exact Or.inl (List.mem_cons_of_mem _ h)
    · rw [get?_set] at h2
      by_cases hk : k₀ = k
      · rw [if_pos hk] at h2
        cases h2
        exact Or.inl (hk ▸ List.mem_cons_self _ _)
      · rw [if_neg hk] at h2
        refine Or.inr ⟨?_, h2⟩
        intro hmem
        rcases List.mem_cons.mp hmem with hmem | hmem
        · exact hk hmem.symm
        · exact h1 hmem

end JsMap

/-! ## Producer-map characterization -/

theorem buildValueProducerMap_eq (graph : IRGraph) :
    buildValueProducerMap graph =
      (producerPairs graph).foldl (fun m p => JsMap.set m p.1 p.2) [] := by
  unfold buildValueProducerMap producerPairs
  rw [← foldl_flatMap
    (fun op : OperationInfo =>
      op.results.enum.map (fun q => (q.2.value_id, (⟨op.op_id, q.1⟩ : Producer))))
    (fun (m : JsMap Producer) (p : String × Producer) => m.set p.1 p.2)
    graph.operations []]
  congr 1
  funext m op
  rw [List.foldl_map]

/-- The keys inserted into the producer map are exactly all result value ids
in operation order. -/
theorem producerPairs_keys (graph : IRGraph) :
    (producerPairs graph).map Prod.fst =
      graph.operations.flatMap (fun op => op.results.map (fun r => r.value_id)) := by
  unfold producerPairs
  rw [List.map_flatMap]
  congr 1
  funext op
  rw [List.map_map]
  show op.results.enum.map ((fun r : ValueInfo => r.value_id) ∘ Prod.snd) = _
  rw [← List.map_map, List.enum_map_snd]

theorem mem_producer_keys_iff (graph : IRGraph) (v : String) :
    v ∈ (buildValueProducerMap graph).keys ↔
      ∃ op ∈ graph.operations, ∃ r ∈ op.results, r.value_id = v := by
  rw [buildValueProducerMap_eq, JsMap.keys_fold_set_mem, producerPairs_keys]
  simp only [JsMap.keys, List.map_nil, List.not_mem_nil, false_or,
    List.mem_flatMap, List.mem_map]

/-- The producer map is empty at a value iff no operation produces it. -/
theorem producer_none_iff (graph : IRGraph) (v : String) :
    (buildValueProducerMap graph).get? v = none ↔
      ∀ op ∈ graph.operations, ∀ r ∈ op.results, r.value_id ≠ v := by
  constructor
  · intro h op hop r hr hrv
    have hv : v ∈ (buildValueProducerMap graph).keys :=
      (mem_producer_keys_iff graph v).mpr ⟨op, hop, r, hr, hrv⟩
    rw [JsMap.mem_keys_iff_get?, h] at hv
    simp at hv
  · intro h
    cases hg : (buildValueProducerMap graph).get? v with
    | none => rfl
    | some p =>
      have hv : v ∈ (buildValueProducerMap graph).keys :=
        (JsMap.mem_keys_iff_get? _ _).mpr (by rw [hg]; rfl)
      obtain ⟨op, hop, r, hr, hrv⟩ := (mem_producer_keys_iff graph v).mp hv
      exact absurd hrv (h op hop r hr)

/-- A producer-map binding names an operation that really produces the
value. -/
theorem producer_some_mem (graph : IRGraph) (v : String) (p : Producer)
    (h : (buildValueProducerMap graph).get? v = some p) :
    ∃ op ∈ graph.operations, op.op_id = p.opId ∧
      ∃ r ∈ op.results, r.value_id = v := by
  rw [buildValueProducerMap_eq] at h
  rcases JsMap.fold_set_get_mem _ _ _ _ h with hmem | ⟨_, hnil⟩
  · unfold producerPairs at hmem
    obtain ⟨op, hop, hin⟩ := List.mem_flatMap.mp hmem
    obtain ⟨q, hq, hqe⟩ := List.mem_map.mp hin
    have h1 : q.2.value_id = v := congrArg Prod.fst hqe
    have h2 : (⟨op.op_id, q.1⟩ : Producer) = p := congrArg Prod.snd hqe
    refine ⟨op, hop, ?_, q.2, mem_of_mem_enum hq, h1⟩
    rw [← h2]
  · simp [JsMap.get?] at hnil

/-! ## Boundary-input accumulation: characterization -/

theorem registerGroupInput_keys (m : JsMap GroupInput) (operand : ValueInfo)
    (opId k : String) :
    k ∈ (registerGroupInput m operand opId).keys ↔
      k ∈ m.keys ∨ k = operand.value_id := by
  cases hg : m.get? operand.value_id with
  | some existing =>
    simp only [registerGroupInput, hg]
    have hmem : operand.value_id ∈ m.keys :=
      (JsMap.mem_keys_iff_get? _ _).mpr (by rw [hg]; rfl)
    by_cases hc : existing.consumerOpIds.contains opId
    · rw [if_pos hc]
      constructor
      · exact Or.inl
      · rintro (h | rfl)
        · exact h
        · exact hmem
    · rw [if_neg hc]
      exact JsMap.mem_keys_set m operand.value_id _ k
  | none =>
    simp only [registerGroupInput, hg]
    exact JsMap.mem_keys_set m operand.value_id _ k

theorem registerGroupInput_keys_nodup {m : JsMap GroupInput}
    (operand : ValueInfo) (opId : String) (h : m.keys.Nodup) :
    (registerGroupInput m operand opId).keys.Nodup := by
  cases hg : m.get? operand.value_id with
  | some existing =>
    simp only [registerGroupInput, hg]
    by_cases hc : existing.consumerOpIds.contains opId
    · rwa [if_pos hc]
    · rw [if_neg hc]
      exact JsMap.nodup_keys_set _ _ h
  | none =>
    simp only [registerGroupInput, hg]
    exact JsMap.nodup_keys_set _ _ h

theorem registerGroupInput_entries {m : JsMap GroupInput}
    (operand : ValueInfo) (opId : String)
    (h : ∀ kv ∈ m, (kv.2 : GroupInput).valueId = kv.1 ∧
      kv.2.consumerOpIds.Nodup) :
    ∀ kv ∈ registerGroupInput m operand opId,
      kv.2.valueId = kv.1 ∧ kv.2.consumerOpIds.Nodup := by
  cases hg : m.get? operand.value_id with
  | some existing =>
    simp only [registerGroupInput, hg]
    by_cases hc : existing.consumerOpIds.contains opId
    · rw [if_pos hc]
      exact h
    · rw [if_neg hc]
      intro kv hkv
      rcases JsMap.mem_set hkv with hkv | ⟨h1, h2⟩
      · exact h kv hkv
      · obtain ⟨hval, hnod⟩ := h _ (JsMap.mem_of_get?_eq_some hg)
        simp only at hval hnod
        have hop : opId ∉ existing.consumerOpIds := by
          intro hmem
          exact hc ((JsSet.contains_iff _ _).mpr hmem)
        rw [h1, h2]
        refine ⟨by simpa using hval, ?_⟩
        show (existing.consumerOpIds ++ [opId]).Nodup
        rw [List.nodup_append]
        refine ⟨hnod, List.nodup_singleton _, ?_⟩
        intro a ha hb
        simp at hb
        exact hop (hb ▸ ha)
  | none =>
    simp only [registerGroupInput, hg]
    intro kv hkv
    rcases JsMap.mem_set hkv with hkv | ⟨h1, h2⟩
    · exact h kv hkv
    · rw [h1, h2]
      exact ⟨rfl, List.nodup_singleton _⟩

theorem groupInputOperandStep_keys (opIds : List String)
    (vpm : JsMap Producer) (opId : String) (m : JsMap GroupInput)
    (operand : ValueInfo) (k : String) :
    k ∈ (groupInputOperandStep opIds vpm opId m operand).keys ↔
      k ∈ m.keys ∨ (k = operand.value_id ∧
        ∀ p, vpm.get? operand.value_id = some p →
          opIds.contains p.opId = false) := by
  cases hg : vpm.get? operand.value_id with
  | none =>
    simp only [groupInputOperandStep, hg]
    rw [registerGroupInput_keys]
    constructor
    · rintro (h | h)
      · exact Or.inl h
      · exact Or.inr ⟨h, fun p hp => by cases hp⟩
    · rintro (h | ⟨h, _⟩)
      · exact Or.inl h
      · exact Or.inr h
  | some producer =>
    simp only [groupInputOperandStep, hg]
    cases hc : opIds.contains producer.opId with
    | true =>
      refine ⟨fun h => Or.inl h, ?_⟩
      rintro (h | ⟨_, hext⟩)
      · exact h
      · have hfalse := hext producer rfl
        rw [hfalse] at hc
        cases hc
    | false =>
      rw [if_neg (by intro hh; cases hh)]
      rw [registerGroupInput_keys]
      constructor
      · rintro (h | h)
        · exact Or.inl h
        · refine Or.inr ⟨h, fun p hp => ?_⟩
          cases hp
          exact hc
      · rintro (h | ⟨h, _⟩)
        · exact Or.inl h
        · exact Or.inr h

theorem operandsFold_keys (opIds : List String) (vpm : JsMap Producer)
    (opId : String) (operands : List ValueInfo) (m : JsMap GroupInput)
    (k : String) :
    k ∈ (operands.foldl (groupInputOperandStep opIds vpm opId) m).keys ↔
      k ∈ m.keys ∨ ∃ od ∈ operands, od.value_id = k ∧
        ∀ p, vpm.get? od.value_id = some p →
          opIds.contains p.opId = false := by
  induction operands generalizing m with
  | nil => simp
  | cons od rest ih =>
    rw [List.foldl_cons, ih, groupInputOperandStep_keys]
    constructor
    · rintro ((h | ⟨rfl, hext⟩) | ⟨od', hod', h⟩)
      · exact Or.inl h
      · exact Or.inr ⟨od, by simp, rfl, hext⟩
      · exact Or.inr ⟨od', by simp [hod'], h⟩
    · rintro (h | ⟨od', hod', rfl, hext⟩)
      · exact Or.inl (Or.inl h)
      · rcases List.mem_cons.mp hod' with rfl | hod'
        · exact Or.inl (Or.inr ⟨rfl, hext⟩)
        · exact Or.inr ⟨od', hod', rfl, hext⟩

theorem groupInputsMap_keys (opIds : List String) (graph : IRGraph)
    (k : String) :
    k ∈ (groupInputsMap opIds graph).keys ↔
      ∃ opId ∈ opIds, ∃ op,
        graph.operations.find? (fun o => o.op_id == opId) = some op ∧
        ∃ od ∈ op.operands, od.value_id = k ∧
          ∀ p, (buildValueProducerMap graph).get? od.value_id = some p →
            opIds.contains p.opId = false := by
  have hgen : ∀ (l : List String) (m : JsMap GroupInput),
      k ∈ (l.foldl
        (fun inputMap opId =>
          match graph.operations.find? (fun o => o.op_id == opId) with
          | none => inputMap
          | some op =>
            op.operands.foldl
              (groupInputOperandStep opIds (buildValueProducerMap graph) opId)
              inputMap)
        m).keys ↔
      k ∈ m.keys ∨ ∃ opId ∈ l, ∃ op,
        graph.operations.find? (fun o => o.op_id == opId) = some op ∧
        ∃ od ∈ op.operands, od.value_id = k ∧
          ∀ p, (buildValueProducerMap graph).get? od.value_id = some p →
            opIds.contains p.opId = false := by
    intro l
    induction l with
    | nil => simp
    | cons opId rest ih =>
      intro m
      rw [List.foldl_cons, ih]
      cases hf : graph.operations.find? (fun o => o.op_id == opId) with
      | none =>
        simp only [hf]
        constructor
        · rintro (h | ⟨opId', hopId', hrest⟩)
          · exact Or.inl h
          · exact Or.inr ⟨opId', List.mem_cons_of_mem _ hopId', hrest⟩
        · rintro (h | ⟨opId', hopId', op, hop, hrest⟩)
          · exact Or.inl h
          · rcases List.mem_cons.mp hopId' with rfl | hopId'
            · rw [hf] at hop
              cases hop
            · exact Or.inr ⟨opId', hopId', op, hop, hrest⟩
      | some op =>
        simp only [hf]
        rw [operandsFold_keys]
        constructor
        · rintro ((h | ⟨od, hod, hodk, hext⟩) | ⟨opId', hopId', hrest⟩)
          · exact Or.inl h
          · exact Or.inr ⟨opId, by simp, op, hf, od, hod, hodk, hext⟩
          · exact Or.inr ⟨opId', List.mem_cons_of_mem _ hopId', hrest⟩
        · rintro (h | ⟨opId', hopId', op', hop', od, hod, hodk, hext⟩)
          · exact Or.inl (Or.inl h)
          · rcases List.mem_cons.mp hopId' with rfl | hopId'
            · rw [hf] at hop'
              cases hop'
              exact Or.inl (Or.inr ⟨od, hod, hodk, hext⟩)
            · exact Or.inr ⟨opId', hopId', op', hop', od, hod, hodk, hext⟩
  rw [groupInputsMap, hgen opIds []]
  simp [JsMap.keys]

theorem groupInputOperandStep_keys_nodup {opIds : List String}
    {vpm : JsMap Producer} {opId : String} {m : JsMap GroupInput}
    (operand : ValueInfo) (h : m.keys.Nodup) :
    (groupInputOperandStep opIds vpm opId m operand).keys.Nodup := by
  cases hg : vpm.get? operand.value_id with
  | none =>
    simp only [groupInputOperandStep, hg]
    exact registerGroupInput_keys_nodup operand opId h
  | some producer =>
    simp only [groupInputOperandStep, hg]
    cases hc : opIds.contains producer.opId with
    | true => exact h
    | false =>
      rw [if_neg (by intro hh; cases hh)]
      exact registerGroupInput_keys_nodup operand opId h

theorem groupInputOperandStep_entries {opIds : List String}
    {vpm : JsMap Producer} {opId : String} {m : JsMap GroupInput}
    (operand : ValueInfo)
    (h : ∀ kv ∈ m, (kv.2 : GroupInput).valueId = kv.1 ∧
      kv.2.consumerOpIds.Nodup) :
    ∀ kv ∈ groupInputOperandStep opIds vpm opId m operand,
      kv.2.valueId = kv.1 ∧ kv.2.consumerOpIds.Nodup := by
  cases hg : vpm.get? operand.value_id with
  | none =>
    simp only [groupInputOperandStep, hg]
    exact registerGroupInput_entries operand opId h
  | some producer =>
    simp only [groupInputOperandStep, hg]
    cases hc : opIds.contains producer.opId with
    | true => exact h
    | false =>
      rw [if_neg (by intro hh; cases hh)]
      exact registerGroupInput_entries operand opId h

theorem groupInputsMap_keys_nodup (opIds : List String) (graph : IRGraph) :
    (groupInputsMap opIds graph).keys.Nodup := by
  unfold groupInputsMap
  refine foldl_preserve (fun m : JsMap GroupInput => m.keys.Nodup) _ opIds []
    (by simp [JsMap.keys]) ?_
  intro m opId _ hP
  cases hf : graph.operations.find? (fun o => o.op_id == opId) with
  | none =>
    simp only [hf]
    exact hP
  | some op =>
    simp only [hf]
    exact foldl_preserve (fun m : JsMap GroupInput => m.keys.Nodup) _
      op.operands m hP (fun m' od _ hP' => groupInputOperandStep_keys_nodup od hP')

theorem groupInputsMap_entries (opIds : List String) (graph : IRGraph) :
    ∀ kv ∈ groupInputsMap opIds graph,
      (kv.2 : GroupInput).valueId = kv.1 ∧ kv.2.consumerOpIds.Nodup := by
  unfold groupInputsMap
  refine foldl_preserve
    (fun m : JsMap GroupInput => ∀ kv ∈ m,
      (kv.2 : GroupInput).valueId = kv.1 ∧ kv.2.consumerOpIds.Nodup)
    _ opIds [] (by simp) ?_
  intro m opId _ hP
  cases hf : graph.operations.find? (fun o => o.op_id == opId) with
  | none =>
    simp only [hf]
    exact hP
  | some op =>
    simp only [hf]
    exact foldl_preserve
      (fun m : JsMap GroupInput => ∀ kv ∈ m,
        (kv.2 : GroupInput).valueId = kv.1 ∧ kv.2.consumerOpIds.Nodup)
      _ op.operands m hP
      (fun m' od _ hP' => groupInputOperandStep_entries od hP')

/-! ## Consumer-map characterization -/

theorem consumerMap_getD (graph : IRGraph) (v : String) :
    ((buildValueConsumerMap graph).get? v).getD [] =
      (graph.edges.filter (fun e => e.from_value == v)).map
        (fun e => e.to_op) := by
  unfold buildValueConsumerMap
  suffices hgen : ∀ (l : List EdgeInfo) (m : JsMap (List String))
      (f : String → List String), (∀ w, (m.get? w).getD [] = f w) →
      ∀ w, ((l.foldl
        (fun m edge =>
          m.set edge.from_value
            (((m.get? edge.from_value).getD []) ++ [edge.to_op]))
        m).get? w).getD [] =
        f w ++ (l.filter (fun e => e.from_value == w)).map (fun e => e.to_op) by
    have h := hgen graph.edges [] (fun _ => []) (by intro w; simp [JsMap.get?]) v
    simpa using h
  intro l
  induction l with
  | nil =>
    intro m f hm w
    simpa using hm w
  | cons e rest ih =>
    intro m f hm w
    rw [List.foldl_cons]
    have hstep : ∀ w,
        ((m.set e.from_value (((m.get? e.from_value).getD []) ++ [e.to_op])).get?
          w).getD [] =
        f w ++ (if e.from_value == w then [e.to_op] else []) := by
      intro w
      rw [JsMap.get?_set]
      by_cases hw : e.from_value = w
      · rw [if_pos hw]
        have hb : (e.from_value == w) = true := by simp [hw]
        rw [hb]
        simp only [Option.getD_some, if_true]
        rw [hw] at *
        rw [hm w]
      · rw [if_neg hw]
        have hb : (e.from_value == w) = false := by simp [hw]
        rw [hb]
        simp only [Bool.false_eq_true, if_false, List.append_nil]
        exact hm w
    have h2 := ih _ _ hstep w
    rw [h2, List.filter_cons]
    by_cases hw : e.from_value = w
    · have hb : (e.from_value == w) = true := by simp [hw]
      rw [hb]
      simp [List.append_assoc]
    · have hb : (e.from_value == w) = false := by simp [hw]
      rw [hb]
      simp

/-! ## Outputs characterization -/

theorem groupOutputsList_eq (opIds : List String) (graph : IRGraph) :
    groupOutputsList opIds graph =
      opIds.flatMap (fun opId =>
        match graph.operations.find? (fun o => o.op_id == opId) with
        | none => []
        | some op =>
          ((op.results.enum).filter (fun q =>
            (((buildValueConsumerMap graph).get? q.2.value_id).getD []).any
              (fun cId => !opIds.contains cId))).map
            (fun q => (⟨q.2.value_id, q.2.type, opId, q.1⟩ : GroupOutput))) := by
  unfold groupOutputsList
  suffices hgen : ∀ (l : List String) (acc : List GroupOutput),
      l.foldl
        (fun outputs opId =>
          match graph.operations.find? (fun o => o.op_id == opId) with
          | none => outputs
          | some op =>
            (op.results.enum).foldl
              (fun outputs p =>
                if (((buildValueConsumerMap graph).get? p.2.value_id).getD []).any
                    (fun cId => !opIds.contains cId) then
                  outputs ++ [⟨p.2.value_id, p.2.type, opId, p.1⟩]
                else outputs)
              outputs)
        acc =
      acc ++ l.flatMap (fun opId =>
        match graph.operations.find? (fun o => o.op_id == opId) with
        | none => []
        | some op =>
          ((op.results.enum).filter (fun q =>
            (((buildValueConsumerMap graph).get? q.2.value_id).getD []).any
              (fun cId => !opIds.contains cId))).map
            (fun q => (⟨q.2.value_id, q.2.type, opId, q.1⟩ : GroupOutput))) by
    have h := hgen opIds []
    simpa using h
  intro l
  induction l with
  | nil => intro acc; simp
  | cons opId rest ih =>
    intro acc
    rw [List.foldl_cons, List.flatMap_cons]
    cases hf : graph.operations.find? (fun o => o.op_id == opId) with
    | none =>
      simp only [hf]
      rw [ih acc]
      simp
    | some op =>
      simp only [hf]
      rw [foldl_filter_append_eq
        (fun q : Nat × ValueInfo =>
          (((buildValueConsumerMap graph).get? q.2.value_id).getD []).any
            (fun cId => !opIds.contains cId))
        (fun q : Nat × ValueInfo => (⟨q.2.value_id, q.2.type, opId, q.1⟩ : GroupOutput))
        op.results.enum acc]
      rw [ih]
      rw [List.append_assoc]

/-! ## Uniqueness of producers and find?-resolution under well-formedness -/

/-- Under a globally duplicate-free result-value list, the producer map binds
a produced value to the operation that produces it. -/
theorem producer_unique (graph : IRGraph)
    (hwf : (graph.operations.flatMap
      (fun op => op.results.map (fun r => r.value_id))).Nodup)
    {op : OperationInfo} (hop : op ∈ graph.operations)
    {r : ValueInfo} (hr : r ∈ op.results)
    {p : Producer}
    (h : (buildValueProducerMap graph).get? r.value_id = some p) :
    p.opId = op.op_id := by
  obtain ⟨op', hop', hid, r', hr', hv⟩ :=
    producer_some_mem graph r.value_id p h
  by_cases heq : op' = op
  · rw [← hid, heq]
  · have hpw := nodup_flatMap_pairwise hwf
    have hsymm : Symmetric
        (fun x y : OperationInfo =>
          ∀ b ∈ x.results.map (fun r => r.value_id),
            b ∉ y.results.map (fun r => r.value_id)) := by
      intro x y hxy b hby hbx
      exact hxy b hbx hby
    have hd := hpw.forall hsymm hop' hop heq
    have hv1 : r.value_id ∈ op'.results.map (fun r => r.value_id) :=
      List.mem_map.mpr ⟨r', hr', hv⟩
    have hv2 : r.value_id ∈ op.results.map (fun r => r.value_id) :=
      List.mem_map.mpr ⟨r, hr, rfl⟩
    exact absurd hv2 (hd r.value_id hv1)

/-- The accumulator's externality test on the producer map agrees with the
spec-side `producedOutside` predicate, given duplicate-free result values. -/
theorem external_iff_producedOutside (opIds : List String) (graph : IRGraph)
    (hwf : (graph.operations.flatMap
      (fun op => op.results.map (fun r => r.value_id))).Nodup)
    (v : String) :
    (∀ p, (buildValueProducerMap graph).get? v = some p →
      opIds.contains p.opId = false) ↔
      producedOutside opIds graph v = true := by
  unfold producedOutside
  rw [List.all_eq_true]
  constructor
  · intro h op hop
    by_cases hprod : ∃ r ∈ op.results, r.value_id = v
    · obtain ⟨r, hr, hrv⟩ := hprod
      have hkey : v ∈ (buildValueProducerMap graph).keys :=
        (mem_producer_keys_iff graph v).mpr ⟨op, hop, r, hr, hrv⟩
      rw [JsMap.mem_keys_iff_get?] at hkey
      cases hg : (buildValueProducerMap graph).get? v with
      | none => rw [hg] at hkey; simp at hkey
      | some p =>
        have hpid : p.opId = op.op_id := by
          apply producer_unique graph hwf hop hr
          rw [hrv]; exact hg
        have hc := h p hg
        rw [hpid] at hc
        rw [Bool.or_eq_true]
        right
        rw [hc]
        rfl
    · push_neg at hprod
      have hall : op.results.all (fun r => r.value_id != v) = true := by
        rw [List.all_eq_true]
        intro r hr
        simp [hprod r hr]
      simp [hall]
  · intro h p hp
    obtain ⟨op, hop, hid, r, hr, hrv⟩ := producer_some_mem graph v p hp
    have hc := h op hop
    rw [Bool.or_eq_true, List.all_eq_true] at hc
    rcases hc with hc | hc
    · have := hc r hr
      rw [hrv] at this
      simp at this
    · rw [Bool.not_eq_true'] at hc
      rw [hid] at hc
      exact hc

/-- Under duplicate-free operation ids, `find?` by id resolves exactly the
member operation with that id. -/
theorem find?_op_iff (graph : IRGraph)
    (hopids : (graph.operations.map (fun op => op.op_id)).Nodup)
    (opId : String) (op : OperationInfo) :
    graph.operations.find? (fun o => o.op_id == opId) = some op ↔
      op ∈ graph.operations ∧ op.op_id = opId := by
  constructor
  · intro h
    refine ⟨List.mem_of_find?_eq_some h, ?_⟩
    have := List.find?_some h
    exact eq_of_beq this
  · rintro ⟨hmem, hid⟩
    have hsome : (graph.operations.find? (fun o => o.op_id == opId)).isSome := by
      rw [List.find?_isSome]
      exact ⟨op, hmem, by simp [hid]⟩
    cases hf : graph.operations.find? (fun o => o.op_id == opId) with
    | none => rw [hf] at hsome; simp at hsome
    | some op' =>
      have hmem' := List.mem_of_find?_eq_some hf
      have hps := List.find?_some (p := fun o : OperationInfo => o.op_id == opId) hf
      have hid' : op'.op_id = opId := eq_of_beq hps
      have : op' = op :=
        List.inj_on_of_nodup_map hopids hmem' hmem (by rw [hid, hid'])
      rw [this]

/-- The keys of the boundary-input map are exactly the spec's external
consumed-value ids, under well-formedness of the snapshot. -/
theorem inputsKeys_iff_spec (opIds : List String) (graph : IRGraph)
    (hwf : (graph.operations.flatMap
      (fun op => op.results.map (fun r => r.value_id))).Nodup)
    (hopids : (graph.operations.map (fun op => op.op_id)).Nodup)
    (k : String) :
    k ∈ (groupInputsMap opIds graph).keys ↔
      k ∈ (memberOps opIds graph).flatMap
        (fun op =>
          (op.operands.filter
              (fun od => producedOutside opIds graph od.value_id)).map
            (fun od => od.value_id)) := by
  rw [groupInputsMap_keys]
  rw [List.mem_flatMap]
  constructor
  · rintro ⟨opId, hopId, op, hf, od, hod, hk, hext⟩
    obtain ⟨hmem, hid⟩ := (find?_op_iff graph hopids opId op).mp hf
    refine ⟨op, ?_, ?_⟩
    · unfold memberOps
      rw [List.mem_filter]
      refine ⟨hmem, ?_⟩
      rw [JsSet.contains_iff, hid]
      exact hopId
    · rw [List.mem_map]
      refine ⟨od, ?_, hk⟩
      rw [List.mem_filter]
      exact ⟨hod, (external_iff_producedOutside opIds graph hwf od.value_id).mp hext⟩
  · rintro ⟨op, hmem, hin⟩
    unfold memberOps at hmem
    rw [List.mem_filter] at hmem
    obtain ⟨hmem, hcont⟩ := hmem
    rw [List.mem_map] at hin
    obtain ⟨od, hod, hk⟩ := hin
    rw [List.mem_filter] at hod
    refine ⟨op.op_id, (JsSet.contains_iff _ _).mp hcont, op,
      (find?_op_iff graph hopids op.op_id op).mpr ⟨hmem, rfl⟩, od, hod.1, hk, ?_⟩
    exact (external_iff_producedOutside opIds graph hwf od.value_id).mpr hod.2

/-- The boundary-input list has exactly one entry per distinct external
consumed value. -/
theorem inputs_length_eq (opIds : List String) (graph : IRGraph)
    (hwf : (graph.operations.flatMap
      (fun op => op.results.map (fun r => r.value_id))).Nodup)
    (hopids : (graph.operations.map (fun op => op.op_id)).Nodup) :
    (computeGroupIo opIds graph).1.length =
      specExternalInputCount opIds graph := by
  show (groupInputsMap opIds graph).values.length = _
  rw [JsMap.length_values, ← JsMap.length_keys]
  unfold specExternalInputCount
  rw [← List.toFinset_card_of_nodup (groupInputsMap_keys_nodup opIds graph)]
  congr 1
  apply Finset.ext
  intro k
  rw [List.mem_toFinset, List.mem_toFinset]
  exact inputsKeys_iff_spec opIds graph hwf hopids k

/-! ## Boundary outputs: characterization and count -/

/-- The value ids carried by the boundary-output list, per member operation. -/
theorem outputs_map_valueId (opIds : List String) (graph : IRGraph) :
    (groupOutputsList opIds graph).map (fun o => o.valueId) =
      opIds.flatMap (fun opId =>
        match graph.operations.find? (fun o => o.op_id == opId) with
        | none => []
        | some op =>
          ((op.results.enum).filter (fun q =>
            (((buildValueConsumerMap graph).get? q.2.value_id).getD []).any
              (fun cId => !opIds.contains cId))).map
            (fun q => q.2.value_id)) := by
  rw [groupOutputsList_eq, List.map_flatMap]
  congr 1
  funext opId
  cases hf : graph.operations.find? (fun o => o.op_id == opId) with
  | none => rfl
  | some op => simp [List.map_map]

/-- Two distinct operations of a snapshot with duplicate-free result values
have disjoint result-value sets. -/
theorem results_disjoint (graph : IRGraph)
    (hwf : (graph.operations.flatMap
      (fun op => op.results.map (fun r => r.value_id))).Nodup)
    {op op' : OperationInfo} (hop : op ∈ graph.operations)
    (hop' : op' ∈ graph.operations) (hne : op ≠ op') :
    ∀ v ∈ op.results.map (fun r => r.value_id),
      v ∉ op'.results.map (fun r => r.value_id) := by
  have hpw := nodup_flatMap_pairwise hwf
  have hsymm : Symmetric
      (fun x y : OperationInfo =>
        ∀ b ∈ x.results.map (fun r => r.value_id),
          b ∉ y.results.map (fun r => r.value_id)) := by
    intro x y hxy b hby hbx
    exact hxy b hbx hby
  exact hpw.forall hsymm hop hop' hne

/-- The boundary-output value-id list is duplicate-free, given duplicate-free
member ids and a well-formed snapshot. -/
theorem outputs_valueIds_nodup (opIds : List String) (graph : IRGraph)
    (hwf : (graph.operations.flatMap
      (fun op => op.results.map (fun r => r.value_id))).Nodup)
    (hG : opIds.Nodup) :
    ((groupOutputsList opIds graph).map (fun o => o.valueId)).Nodup := by
  rw [outputs_map_valueId]
  have hsub : ∀ opId : String,
      ∀ v ∈ (match graph.operations.find? (fun o => o.op_id == opId) with
        | none => ([] : List String)
        | some op =>
          ((op.results.enum).filter (fun q : Nat × ValueInfo =>
            (((buildValueConsumerMap graph).get? q.2.value_id).getD []).any
              (fun cId => !opIds.contains cId))).map
            (fun q : Nat × ValueInfo => q.2.value_id)),
      ∃ op, graph.operations.find? (fun o => o.op_id == opId) = some op ∧
        v ∈ op.results.map (fun r => r.value_id) := by
    intro opId v hv
    cases hf : graph.operations.find? (fun o => o.op_id == opId) with
    | none => rw [hf] at hv; cases hv
    | some op =>
      rw [hf] at hv
      refine ⟨op, rfl, ?_⟩
      obtain ⟨q, hq, hqv⟩ := List.mem_map.mp hv
      have hq2 : q ∈ op.results.enum := List.mem_of_mem_filter hq
      exact List.mem_map.mpr ⟨q.2, mem_of_mem_enum hq2, hqv⟩
  apply flatMap_nodup
  · intro opId _
    cases hf : graph.operations.find? (fun o => o.op_id == opId) with
    | none => exact List.nodup_nil
    | some op =>
      have hmem := List.mem_of_find?_eq_some hf
      have hres : (op.results.map (fun r => r.value_id)).Nodup :=
        (sublist_flatMap (fun op => op.results.map (fun r => r.value_id))
          hmem).nodup hwf
      have hsubl :
          (((op.results.enum).filter (fun q =>
            (((buildValueConsumerMap graph).get? q.2.value_id).getD []).any
              (fun cId => !opIds.contains cId))).map
            (fun q => q.2.value_id)).Sublist
            ((op.results.enum).map (fun q => q.2.value_id)) :=
        (List.filter_sublist _).map _
      have henum : (op.results.enum).map (fun q : Nat × ValueInfo => q.2.value_id)
          = op.results.map (fun r => r.value_id) := by
        show (op.results.enum).map
          ((fun r : ValueInfo => r.value_id) ∘ Prod.snd) = _
        rw [← List.map_map, List.enum_map_snd]
      rw [henum] at hsubl
      exact hsubl.nodup hres
  · refine List.Pairwise.imp ?_ hG
    intro a b hab v hva hvb
    obtain ⟨op, hfa, hma⟩ := hsub a v hva
    obtain ⟨op', hfb, hmb⟩ := hsub b v hvb
    have hida := eq_of_beq
      (List.find?_some (p := fun o : OperationInfo => o.op_id == a) hfa)
    have hidb := eq_of_beq
      (List.find?_some (p := fun o : OperationInfo => o.op_id == b) hfb)
    have hne : op ≠ op' := by
      intro he
      rw [he, hidb] at hida
      exact hab hida.symm
    exact results_disjoint graph hwf (List.mem_of_find?_eq_some hfa)
      (List.mem_of_find?_eq_some hfb) hne v hma hmb

/-- The accumulator's externality test on the consumer map agrees with the
spec's "at least one external consumer" edge scan. -/
theorem anyExternal_iff (opIds : List String) (graph : IRGraph) (w : String) :
    ((((buildValueConsumerMap graph).get? w).getD []).any
      (fun cId => !opIds.contains cId)) = true ↔
      (graph.edges.any
        (fun e => e.from_value == w && !opIds.contains e.to_op)) = true := by
  rw [consumerMap_getD, List.any_eq_true, List.any_eq_true]
  constructor
  · rintro ⟨c, hc, hcp⟩
    obtain ⟨e, he, rfl⟩ := List.mem_map.mp hc
    rw [List.mem_filter] at he
    refine ⟨e, he.1, ?_⟩
    rw [Bool.and_eq_true]
    exact ⟨he.2, hcp⟩
  · rintro ⟨e, he, hp⟩
    rw [Bool.and_eq_true] at hp
    exact ⟨e.to_op,
      List.mem_map_of_mem _ (List.mem_filter.mpr ⟨he, hp.1⟩), hp.2⟩

/-- The boundary-output value ids are exactly the spec's externally consumed
produced values, under well-formedness. -/
theorem outputsValueIds_iff_spec (opIds : List String) (graph : IRGraph)
    (hopids : (graph.operations.map (fun op => op.op_id)).Nodup)
    (v : String) :
    v ∈ (groupOutputsList opIds graph).map (fun o => o.valueId) ↔
      v ∈ (memberOps opIds graph).flatMap
        (fun op =>
          (op.results.filter
              (fun r =>
                graph.edges.any
                  (fun e =>
                    e.from_value == r.value_id && !opIds.contains e.to_op))).map
            (fun r => r.value_id)) := by
  rw [outputs_map_valueId, List.mem_flatMap, List.mem_flatMap]
  constructor
  · rintro ⟨opId, hopId, hv⟩
    cases hf : graph.operations.find? (fun o => o.op_id == opId) with
    | none => rw [hf] at hv; cases hv
    | some op =>
      rw [hf] at hv
      obtain ⟨q, hq, hqv⟩ := List.mem_map.mp hv
      rw [List.mem_filter] at hq
      obtain ⟨hmem, hid⟩ := (find?_op_iff graph hopids opId op).mp hf
      refine ⟨op, ?_, ?_⟩
      · unfold memberOps
        rw [List.mem_filter]
        refine ⟨hmem, ?_⟩
        rw [JsSet.contains_iff, hid]
        exact hopId
      · rw [List.mem_map]
        refine ⟨q.2, ?_, hqv⟩
        rw [List.mem_filter]
        refine ⟨mem_of_mem_enum hq.1, ?_⟩
        exact (anyExternal_iff opIds graph q.2.value_id).mp hq.2
  · rintro ⟨op, hmem, hin⟩
    unfold memberOps at hmem
    rw [List.mem_filter] at hmem
    obtain ⟨hmem, hcont⟩ := hmem
    obtain ⟨r, hr, hrv⟩ := List.mem_map.mp hin
    rw [List.mem_filter] at hr
    refine ⟨op.op_id, (JsSet.contains_iff _ _).mp hcont, ?_⟩
    rw [(find?_op_iff graph hopids op.op_id op).mpr ⟨hmem, rfl⟩]
    have hq : ∃ q ∈ op.results.enum, q.2 = r := by
      have : r ∈ (op.results.enum).map Prod.snd := by
        rw [List.enum_map_snd]
        exact hr.1
      obtain ⟨q, hq, hq2⟩ := List.mem_map.mp this
      exact ⟨q, hq, hq2⟩
    obtain ⟨q, hqe, hq2⟩ := hq
    rw [List.mem_map]
    refine ⟨q, ?_, by rw [hq2, hrv]⟩
    rw [List.mem_filter]
    refine ⟨hqe, ?_⟩
    rw [hq2]
    exact (anyExternal_iff opIds graph r.value_id).mpr hr.2

/-- The boundary-output list has exactly one entry per distinct externally
consumed produced value. -/
theorem outputs_length_eq (opIds : List String) (graph : IRGraph)
    (hwf : (graph.operations.flatMap
      (fun op => op.results.map (fun r => r.value_id))).Nodup)
    (hopids : (graph.operations.map (fun op => op.op_id)).Nodup)
    (hG : opIds.Nodup) :
    (computeGroupIo opIds graph).2.length =
      specExternalOutputCount opIds graph := by
  show (groupOutputsList opIds graph).length = _
  have hlen : (groupOutputsList opIds graph).length =
      ((groupOutputsList opIds graph).map (fun o => o.valueId)).length := by
    rw [List.length_map]
  rw [hlen]
  unfold specExternalOutputCount
  rw [← List.toFinset_card_of_nodup (outputs_valueIds_nodup opIds graph hwf hG)]
  congr 1
  apply Finset.ext
  intro v
  rw [List.mem_toFinset, List.mem_toFinset]
  exact outputsValueIds_iff_spec opIds graph hopids v

/-- C3: for a non-empty, duplicate-free member-id set over a snapshot with
duplicate-free operation ids and globally duplicate-free result values, the
boundary-IO calculator returns one input entry per distinct value consumed by
a member whose producer is outside the group or absent (with each consuming
member id recorded at most once per entry), and one output entry per distinct
member-produced value with at least one external consumer — never one per
external consumer. -/
theorem boundary_io_counts (opIds : List String) (graph : IRGraph)
    (_hne : opIds ≠ [])
    (hG : opIds.Nodup)
    (hopids : (graph.operations.map (fun op => op.op_id)).Nodup)
    (hwf : (graph.operations.flatMap
      (fun op => op.results.map (fun r => r.value_id))).Nodup) :
    (computeGroupIo opIds graph).1.length =
      specExternalInputCount opIds graph ∧
    (computeGroupIo opIds graph).2.length =
      specExternalOutputCount opIds graph ∧
    ∀ inp ∈ (computeGroupIo opIds graph).1, inp.consumerOpIds.Nodup := by
  refine ⟨inputs_length_eq opIds graph hwf hopids,
    outputs_length_eq opIds graph hwf hopids hG, ?_⟩
  intro inp hinp
  have hv : inp ∈ (groupInputsMap opIds graph).values := hinp
  obtain ⟨kv, hkv, hkv2⟩ := List.mem_map.mp hv
  have he := groupInputsMap_entries opIds graph kv hkv
  rw [hkv2] at he
  exact he.2

theorem boundary_io_counts_witness :
    (["op_addf", "op_mulf"] : List String) ≠ [] ∧
    (["op_addf", "op_mulf"] : List String).Nodup ∧
    ((computeGroupIo ["op_addf", "op_mulf"] sampleGraph).1.length =
      specExternalInputCount ["op_addf", "op_mulf"] sampleGraph ∧
    (computeGroupIo ["op_addf", "op_mulf"] sampleGraph).2.length =
      specExternalOutputCount ["op_addf", "op_mulf"] sampleGraph ∧
    ∀ inp ∈ (computeGroupIo ["op_addf", "op_mulf"] sampleGraph).1,
      inp.consumerOpIds.Nodup) :=
  ⟨by decide, by decide,
    boundary_io_counts ["op_addf", "op_mulf"] sampleGraph (by decide)
      (by decide) (by decide) (by decide)⟩

/-! ## Pseudo-input node bookkeeping (for the drilldown claims) -/

theorem inputNodeIds_append (l1 l2 : List FlowNode) :
    inputNodeIds (l1 ++ l2) = inputNodeIds l1 ++ inputNodeIds l2 := by
  simp [inputNodeIds, List.filterMap_append]

theorem mem_inputNodeIds (l : List FlowNode) (x : String) :
    x ∈ inputNodeIds l ↔
      ∃ n ∈ l, n.id = x ∧ ∃ d, n.data = NodeData.input d := by
  unfold inputNodeIds
  rw [List.mem_filterMap]
  constructor
  · rintro ⟨n, hn, hx⟩
    cases hd : n.data with
    | input d =>
      rw [hd] at hx
      exact ⟨n, hn, Option.some_injective _ hx, d, hd⟩
    | op d => rw [hd] at hx; cases hx
    | group d => rw [hd] at hx; cases hx
  · rintro ⟨n, hn, hx, d, hd⟩
    exact ⟨n, hn, by rw [hd, hx]⟩

theorem inputNodeIds_sublist {l1 l2 : List FlowNode} (h : l1.Sublist l2) :
    (inputNodeIds l1).Sublist (inputNodeIds l2) :=
  h.filterMap _

/-- Every pseudo-input node the walk emits carries the id `input_<value>` of
its underlying value. -/
theorem walkStep_input_format {env : WalkEnv} {s s' : WalkState}
    (hstep : WalkStep env s s')
    (h : ∀ n ∈ s.nodes, ∀ d, n.data = NodeData.input d →
      n.id = "input_" ++ d.valueId) :
    ∀ n ∈ s'.nodes, ∀ d, n.data = NodeData.input d →
      n.id = "input_" ++ d.valueId := by
  cases hstep with
  | blockArg arg nodeId hmap hfmt =>
    intro n hn d hd
    rcases List.mem_append.mp hn with hn | hn
    · exact h n hn d hd
    · rcases List.mem_singleton.mp hn with rfl
      cases hd
      exact hfmt
  | groupEmit opId op group hop hkey hhid hgrp hnew =>
    intro n hn d hd
    rcases List.mem_append.mp hn with hn | hn
    · exact h n hn d hd
    · rcases List.mem_singleton.mp hn with rfl
      cases hd
  | groupSkip opId op group hop hkey hhid hgrp hold =>
    exact h
  | visibleOp opId op d hop hkey hhid hgrp hlabel =>
    intro n hn d' hd'
    rcases List.mem_append.mp hn with hn | hn
    · exact h n hn d' hd'
    · rcases List.mem_singleton.mp hn with rfl
      cases hd'

/-- Nodes never leave the list as the virtual-input loop runs. -/
theorem drillFold_mono (inputs : List GroupInput)
    (acc : List FlowNode × JsSet) {n : FlowNode} (h : n ∈ acc.1) :
    n ∈ (inputs.foldl drillInputFold acc).1 := by
  induction inputs generalizing acc with
  | nil => exact h
  | cons inp rest ih =>
    rw [List.foldl_cons]
    apply ih
    unfold drillInputFold
    by_cases hc : acc.1.any (fun n => n.id == "input_" ++ inp.valueId) = true
    · rw [if_pos hc]; exact h
    · rw [if_neg hc]; exact List.mem_append_left _ h

/-- Every node after the virtual-input loop either was there before or is a
virtual pseudo-input node of one of the boundary inputs. -/
theorem drillFold_mem (inputs : List GroupInput)
    (acc : List FlowNode × JsSet) :
    ∀ n ∈ (inputs.foldl drillInputFold acc).1, n ∈ acc.1 ∨
      ∃ inp ∈ inputs,
        n = ⟨"input_" ++ inp.valueId,
          NodeData.input ⟨inp.type, inp.type, inp.valueId⟩⟩ := by
  induction inputs generalizing acc with
  | nil =>
    intro n hn
    exact Or.inl hn
  | cons inp rest ih =>
    intro n hn
    rw [List.foldl_cons] at hn
    rcases ih (drillInputFold acc inp) n hn with hn | ⟨inp', hinp', he⟩
    · unfold drillInputFold at hn
      by_cases hc : acc.1.any (fun n => n.id == "input_" ++ inp.valueId) = true
      · rw [if_pos hc] at hn
        exact Or.inl hn
      · rw [if_neg hc] at hn
        rcases List.mem_append.mp hn with hn | hn
        · exact Or.inl hn
        · rcases List.mem_singleton.mp hn with rfl
          exact Or.inr ⟨inp, List.mem_cons_self _ _, rfl⟩
    · exact Or.inr ⟨inp', List.mem_cons_of_mem _ hinp', he⟩

/-- After the virtual-input loop, every boundary input has a node bearing its
pseudo-input id. -/
theorem drillFold_exists (inputs : List GroupInput)
    (acc : List FlowNode × JsSet) :
    ∀ inp ∈ inputs, ∃ n ∈ (inputs.foldl drillInputFold acc).1,
      n.id = "input_" ++ inp.valueId := by
  induction inputs generalizing acc with
  | nil => intro inp hinp; cases hinp
  | cons inp0 rest ih =>
    intro inp hinp
    rw [List.foldl_cons]
    rcases List.mem_cons.mp hinp with rfl | hinp
    · have hbase : ∃ n ∈ (drillInputFold acc inp).1,
          n.id = "input_" ++ inp.valueId := by
        unfold drillInputFold
        by_cases hc : acc.1.any (fun n => n.id == "input_" ++ inp.valueId) = true
        · rw [if_pos hc]
          obtain ⟨n, hn, hid⟩ := List.any_eq_true.mp hc
          exact ⟨n, hn, eq_of_beq hid⟩
        · rw [if_neg hc]
          exact ⟨_, List.mem_append_right _ (List.mem_singleton.mpr rfl), rfl⟩
      obtain ⟨n, hn, hid⟩ := hbase
      exact ⟨n, drillFold_mono rest _ hn, hid⟩
    · exact ih (drillInputFold acc inp0) inp hinp

/-- The virtual-input loop never duplicates a pseudo-input id. -/
theorem drillFold_nodup (inputs : List GroupInput)
    (acc : List FlowNode × JsSet) (h : (inputNodeIds acc.1).Nodup) :
    (inputNodeIds (inputs.foldl drillInputFold acc).1).Nodup := by
  induction inputs generalizing acc with
  | nil => exact h
  | cons inp rest ih =>
    rw [List.foldl_cons]
    apply ih
    unfold drillInputFold
    by_cases hc : acc.1.any (fun n => n.id == "input_" ++ inp.valueId) = true
    · rw [if_pos hc]
      exact h
    · rw [if_neg hc]
      show (inputNodeIds (acc.1 ++
        [⟨"input_" ++ inp.valueId,
          NodeData.input ⟨inp.type, inp.type, inp.valueId⟩⟩])).Nodup
      rw [inputNodeIds_append]
      rw [List.nodup_append]
      refine ⟨h, by simp [inputNodeIds], ?_⟩
      intro x hx hmem
      have hxid : x = "input_" ++ inp.valueId := by
        simpa [inputNodeIds] using hmem
      obtain ⟨n, hn, hid, _, _⟩ := (mem_inputNodeIds acc.1 x).mp hx
      rw [Bool.not_eq_true, List.any_eq_false] at hc
      have := hc n hn
      rw [hid, hxid] at this
      simp at this

/-- A duplicate-free list whose elements are all equal has at most one
element. -/
theorem nodup_const_length_le_one {l : List String} (t : String)
    (h : l.Nodup) (hc : ∀ x ∈ l, x = t) : l.length ≤ 1 := by
  cases l with
  | nil => simp
  | cons a rest =>
    cases rest with
    | nil => simp
    | cons b rest' =>
      have ha : a = t := hc a (by simp)
      have hb : b = t := hc b (by simp)
      rw [List.nodup_cons] at h
      exact absurd (by rw [ha, hb]; simp : a ∈ b :: rest') h.1

/-- On a list of pseudo-input nodes, `inputNodeIds` is just the id list. -/
theorem inputNodeIds_of_all_input (l : List FlowNode)
    (h : ∀ n ∈ l, ∃ d, n.data = NodeData.input d) :
    inputNodeIds l = l.map (fun n => n.id) := by
  induction l with
  | nil => rfl
  | cons n rest ih =>
    obtain ⟨d, hd⟩ := h n (by simp)
    have hstep : inputNodeIds (n :: rest) = n.id :: inputNodeIds rest := by
      simp [inputNodeIds, List.filterMap_cons, hd]
    rw [hstep, ih (fun m hm => h m (by simp [hm])), List.map_cons]

/-- With an active drill group that resolves in the group list, the drill
filter keeps member op nodes and boundary-input pseudo-nodes, then runs the
virtual-input loop. -/
theorem drillFilter_some (nodeGroups : List NodeGroup) (gid : String)
    (activeGroup : NodeGroup)
    (hfind : nodeGroups.find? (fun g => g.id == gid) = some activeGroup)
    (st : WalkState) :
    drillFilter nodeGroups (some gid) st =
      ⟨(activeGroup.inputs.foldl drillInputFold
          (st.nodes.filter
            (fun n =>
              match n.data with
              | NodeData.op _ => activeGroup.opIds.contains n.id
              | NodeData.input d =>
                activeGroup.inputs.any (fun inp => inp.valueId == d.valueId)
              | NodeData.group _ => false),
           st.visibleInputNodeIds)).1,
       st.visibleOpIds.filter (fun id => activeGroup.opIds.contains id),
       (activeGroup.inputs.foldl drillInputFold
          (st.nodes.filter
            (fun n =>
              match n.data with
              | NodeData.op _ => activeGroup.opIds.contains n.id
              | NodeData.input d =>
                activeGroup.inputs.any (fun inp => inp.valueId == d.valueId)
              | NodeData.group _ => false),
           st.visibleInputNodeIds)).2⟩ := by
  show (match nodeGroups.find? (fun g => g.id == gid) with
    | none => (⟨st.nodes, st.visibleOpIds, st.visibleInputNodeIds⟩ : DrillResult)
    | some activeGroup => _) = _
  rw [hfind]

/-- C7: with an active drill group that resolves in the group list, a
non-empty view, no member id colliding with a boundary pseudo-input id, and a
walk that does not duplicate pseudo-input ids, the returned node set consists
of operation nodes for the group's member ids plus exactly one pseudo-input
node per entry of the group's boundary-input list, and contains zero group
nodes. -/
theorem drilldown_node_set (graph : IRGraph) (viewPath : List String)
    (maxExpandDepth : Nat) (hiddenOpNames : List String)
    (nodeGroups : List NodeGroup) (gid : String) (activeGroup : NodeGroup)
    (hfind : nodeGroups.find? (fun g => g.id == gid) = some activeGroup)
    (hne : getViewRootRegionIds graph viewPath (buildLookups graph).opMap ≠ [])
    (hhyg : ∀ inp ∈ activeGroup.inputs,
      activeGroup.opIds.contains ("input_" ++ inp.valueId) = false)
    (hwalkdup : (inputNodeIds
      (walkRegions
        (getViewRootRegionIds graph viewPath (buildLookups graph).opMap)
        1 maxExpandDepth
        ⟨buildLookups graph, hiddenOpNames,
         (buildGroupMaps nodeGroups (some gid)).collapsedGroupByOp,
         (buildGroupMaps nodeGroups (some gid)).inlineGroupByOp⟩
        WalkState.initial).nodes).Nodup) :
    (∀ n ∈ (irToFlow graph viewPath maxExpandDepth hiddenOpNames nodeGroups
        (some gid)).nodes,
      match n.data with
      | NodeData.op _ => activeGroup.opIds.contains n.id = true
      | NodeData.input d => ∃ inp ∈ activeGroup.inputs, inp.valueId = d.valueId
      | NodeData.group _ => False) ∧
    ∀ inp ∈ activeGroup.inputs,
      ((irToFlow graph viewPath maxExpandDepth hiddenOpNames nodeGroups
          (some gid)).nodes.filter
        (fun n => n.id == "input_" ++ inp.valueId)).length = 1 := by
  have hnodes : (irToFlow graph viewPath maxExpandDepth hiddenOpNames
      nodeGroups (some gid)).nodes =
      (activeGroup.inputs.foldl drillInputFold
        ((walkRegions
            (getViewRootRegionIds graph viewPath (buildLookups graph).opMap)
            1 maxExpandDepth
            ⟨buildLookups graph, hiddenOpNames,
             (buildGroupMaps nodeGroups (some gid)).collapsedGroupByOp,
             (buildGroupMaps nodeGroups (some gid)).inlineGroupByOp⟩
            WalkState.initial).nodes.filter
          (fun n =>
            match n.data with
            | NodeData.op _ => activeGroup.opIds.contains n.id
            | NodeData.input d =>
              activeGroup.inputs.any (fun inp => inp.valueId == d.valueId)
            | NodeData.group _ => false),
         (walkRegions
            (getViewRootRegionIds graph viewPath (buildLookups graph).opMap)
            1 maxExpandDepth
            ⟨buildLookups graph, hiddenOpNames,
             (buildGroupMaps nodeGroups (some gid)).collapsedGroupByOp,
             (buildGroupMaps nodeGroups (some gid)).inlineGroupByOp⟩
            WalkState.initial).visibleInputNodeIds)).1 := by
    rw [irToFlow_unfold graph viewPath maxExpandDepth hiddenOpNames nodeGroups
      (some gid) hne]
    rw [drillFilter_some nodeGroups gid activeGroup hfind]
  set st := walkRegions
    (getViewRootRegionIds graph viewPath (buildLookups graph).opMap)
    1 maxExpandDepth
    ⟨buildLookups graph, hiddenOpNames,
     (buildGroupMaps nodeGroups (some gid)).collapsedGroupByOp,
     (buildGroupMaps nodeGroups (some gid)).inlineGroupByOp⟩
    WalkState.initial with hst
  have hfmt : ∀ n ∈ st.nodes, ∀ d, n.data = NodeData.input d →
      n.id = "input_" ++ d.valueId := by
    refine rtc_invariant
      (fun s => ∀ n ∈ s.nodes, ∀ d, n.data = NodeData.input d →
        n.id = "input_" ++ d.valueId)
      (fun s s' hstep hP => walkStep_input_format hstep hP)
      (walkRegions_rtc _ (buildLookups_envKeyed graph hiddenOpNames _ _)
        _ 1 maxExpandDepth WalkState.initial) ?_
    intro n hn
    cases hn
  have hmemF : ∀ n ∈ (activeGroup.inputs.foldl drillInputFold
      (st.nodes.filter
        (fun n =>
          match n.data with
          | NodeData.op _ => activeGroup.opIds.contains n.id
          | NodeData.input d =>
            activeGroup.inputs.any (fun inp => inp.valueId == d.valueId)
          | NodeData.group _ => false),
       st.visibleInputNodeIds)).1,
      (n ∈ st.nodes ∧
        (match n.data with
          | NodeData.op _ => activeGroup.opIds.contains n.id
          | NodeData.input d =>
            activeGroup.inputs.any (fun inp => inp.valueId == d.valueId)
          | NodeData.group _ => false) = true) ∨
      ∃ inp ∈ activeGroup.inputs,
        n = ⟨"input_" ++ inp.valueId,
          NodeData.input ⟨inp.type, inp.type, inp.valueId⟩⟩ := by
    intro n hn
    rcases drillFold_mem _ _ n hn with hn | h
    · exact Or.inl (List.mem_filter.mp hn)
    · exact Or.inr h
  constructor
  · intro n hn
    rw [hnodes] at hn
    rcases hmemF n hn with ⟨hmem, hpred⟩ | ⟨inp, hinp, rfl⟩
    · cases hd : n.data with
      | op d =>
        simp only [hd] at hpred
        simp only [hd]
        exact hpred
      | input d =>
        simp only [hd] at hpred
        simp only [hd]
        obtain ⟨inp, hinp, hbeq⟩ := List.any_eq_true.mp hpred
        exact ⟨inp, hinp, eq_of_beq hbeq⟩
      | group d =>
        simp only [hd] at hpred
        cases hpred
    · exact ⟨inp, hinp, rfl⟩
  · intro inp hinp
    rw [hnodes]
    set final := (activeGroup.inputs.foldl drillInputFold
      (st.nodes.filter
        (fun n =>
          match n.data with
          | NodeData.op _ => activeGroup.opIds.contains n.id
          | NodeData.input d =>
            activeGroup.inputs.any (fun inp => inp.valueId == d.valueId)
          | NodeData.group _ => false),
       st.visibleInputNodeIds)).1 with hfinal
    have hinput : ∀ n ∈ final, n.id = "input_" ++ inp.valueId →
        ∃ d, n.data = NodeData.input d := by
      intro n hn hid
      rcases hmemF n hn with ⟨hmem, hpred⟩ | ⟨inp', _, rfl⟩
      · cases hd : n.data with
        | op d =>
          simp only [hd] at hpred
          rw [hid] at hpred
          rw [hhyg inp hinp] at hpred
          cases hpred
        | input d => exact ⟨d, rfl⟩
        | group d =>
          simp only [hd] at hpred
          cases hpred
      · exact ⟨_, rfl⟩
    have hnodup : (inputNodeIds final).Nodup := by
      rw [hfinal]
      apply drillFold_nodup
      exact (inputNodeIds_sublist (List.filter_sublist _)).nodup hwalkdup
    have hex : ∃ n ∈ final, n.id = "input_" ++ inp.valueId := by
      rw [hfinal]
      exact drillFold_exists _ _ inp hinp
    set K := final.filter (fun n => n.id == "input_" ++ inp.valueId) with hK
    have hK_input : ∀ n ∈ K, ∃ d, n.data = NodeData.input d := by
      intro n hn
      have h2 := List.mem_filter.mp hn
      exact hinput n h2.1 (eq_of_beq h2.2)
    have hle : K.length ≤ 1 := by
      have hmap : inputNodeIds K = K.map (fun n => n.id) :=
        inputNodeIds_of_all_input K hK_input
      have hnodupK : (inputNodeIds K).Nodup :=
        (inputNodeIds_sublist (List.filter_sublist _)).nodup hnodup
      rw [hmap] at hnodupK
      have hconst : ∀ x ∈ K.map (fun n => n.id),
          x = "input_" ++ inp.valueId := by
        intro x hx
        obtain ⟨n, hn, rfl⟩ := List.mem_map.mp hx
        exact eq_of_beq (List.mem_filter.mp hn).2
      have := nodup_const_length_le_one ("input_" ++ inp.valueId) hnodupK hconst
      rwa [List.length_map] at this
    have hge : 1 ≤ K.length := by
      obtain ⟨n, hn, hid⟩ := hex
      have : n ∈ K := List.mem_filter.mpr ⟨hn, by rw [hid]; simp⟩
      have := List.length_pos.mpr (List.ne_nil_of_mem this)
      omega
    omega

theorem drilldown_node_set_witness :
    [sampleGroup].find? (fun g => g.id == "group_1") = some sampleGroup ∧
    ((∀ n ∈ (irToFlow sampleGraph sampleViewPath 3 [] [sampleGroup]
        (some "group_1")).nodes,
      match n.data with
      | NodeData.op _ => sampleGroup.opIds.contains n.id = true
      | NodeData.input d => ∃ inp ∈ sampleGroup.inputs, inp.valueId = d.valueId
      | NodeData.group _ => False) ∧
    ∀ inp ∈ sampleGroup.inputs,
      ((irToFlow sampleGraph sampleViewPath 3 [] [sampleGroup]
          (some "group_1")).nodes.filter
        (fun n => n.id == "input_" ++ inp.valueId)).length = 1) :=
  ⟨by decide,
   drilldown_node_set sampleGraph sampleViewPath 3 [] [sampleGroup] "group_1"
     sampleGroup (by decide) (by decide) (by decide) (by decide)⟩

/-! ## Walk-state well-formedness (preservation and transport) -/

theorem walkStep_wf {env : WalkEnv} {s s' : WalkState}
    (hstep : WalkStep env s s') (h : WalkWf env s) : WalkWf env s' := by
  obtain ⟨hA, hB, hCo, hCi, hCg, hRV⟩ := h
  cases hstep with
  | blockArg arg nodeId hmap hfmt =>
    refine ⟨hA, ?_, ?_, ?_, ?_, hRV⟩
    · intro n hn
      rcases List.mem_append.mp hn with hn | hn
      · obtain ⟨hBo, hBi, hBg⟩ := hB n hn
        refine ⟨hBo, ?_, hBg⟩
        intro d hd
        obtain ⟨h1, h2⟩ := hBi d hd
        exact ⟨JsSet.mem_add_of_mem _ h1, h2⟩
      · rcases List.mem_singleton.mp hn with rfl
        refine ⟨?_, ?_, ?_⟩
        · intro d hd; cases hd
        · intro d hd
          exact ⟨JsSet.self_mem_add _ _, arg.value_id, hmap⟩
        · intro d hd; cases hd
    · intro id hid
      obtain ⟨n, hn, hni, d, hnd⟩ := hCo id hid
      exact ⟨n, List.mem_append_left _ hn, hni, d, hnd⟩
    · intro id hid
      rcases (JsSet.mem_add _ _ _).mp hid with hid | rfl
      · obtain ⟨n, hn, hni, d, hnd⟩ := hCi id hid
        exact ⟨n, List.mem_append_left _ hn, hni, d, hnd⟩
      · exact ⟨_, List.mem_append_right _ (List.mem_singleton.mpr rfl), rfl,
          _, rfl⟩
    · intro id hid
      obtain ⟨n, hn, hni, d, hnd⟩ := hCg id hid
      exact ⟨n, List.mem_append_left _ hn, hni, d, hnd⟩
  | groupEmit opId op group hop hkey hhid hgrp hnew =>
    refine ⟨hA, ?_, ?_, ?_, ?_, ?_⟩
    · intro n hn
      rcases List.mem_append.mp hn with hn | hn
      · obtain ⟨hBo, hBi, hBg⟩ := hB n hn
        refine ⟨hBo, hBi, ?_⟩
        intro d hd
        obtain ⟨h1, h2⟩ := hBg d hd
        exact ⟨JsSet.mem_add_of_mem _ h1, h2⟩
      · rcases List.mem_singleton.mp hn with rfl
        refine ⟨?_, ?_, ?_⟩
        · intro d hd; cases hd
        · intro d hd; cases hd
        · intro d hd
          exact ⟨JsSet.self_mem_add _ _, group, opId, hgrp, rfl⟩
    · intro id hid
      obtain ⟨n, hn, hni, d, hnd⟩ := hCo id hid
      exact ⟨n, List.mem_append_left _ hn, hni, d, hnd⟩
    · intro id hid
      obtain ⟨n, hn, hni, d, hnd⟩ := hCi id hid
      exact ⟨n, List.mem_append_left _ hn, hni, d, hnd⟩
    · intro id hid
      rcases (JsSet.mem_add _ _ _).mp hid with hid | rfl
      · obtain ⟨n, hn, hni, d, hnd⟩ := hCg id hid
        exact ⟨n, List.mem_append_left _ hn, hni, d, hnd⟩
      · exact ⟨_, List.mem_append_right _ (List.mem_singleton.mpr rfl), rfl,
          _, rfl⟩
    · show (ghostEncounter opId s).renderedGroupIds.add group.id =
        (ghostEncounter opId s).visibleGroupIds.add group.id
      show s.renderedGroupIds.add group.id = s.visibleGroupIds.add group.id
      rw [hRV]
  | groupSkip opId op group hop hkey hhid hgrp hold =>
    exact ⟨hA, hB, hCo, hCi, hCg, hRV⟩
  | visibleOp opId op d hop hkey hhid hgrp hlabel =>
    refine ⟨?_, ?_, ?_, ?_, ?_, hRV⟩
    · intro id hid
      rcases (JsSet.mem_add _ _ _).mp hid with hid | rfl
      · exact hA id hid
      · refine ⟨op, ?_, hhid, ?_, rfl⟩
        · rw [hkey]; exact hop
        · rw [hkey]; exact hgrp
    · intro n hn
      rcases List.mem_append.mp hn with hn | hn
      · obtain ⟨hBo, hBi, hBg⟩ := hB n hn
        refine ⟨?_, hBi, hBg⟩
        intro d' hd'
        obtain ⟨h1, h2⟩ := hBo d' hd'
        exact ⟨JsSet.mem_add_of_mem _ h1, h2⟩
      · rcases List.mem_singleton.mp hn with rfl
        refine ⟨?_, ?_, ?_⟩
        · intro d' hd'
          cases hd'
          refine ⟨JsSet.self_mem_add _ _, ?_⟩
          rw [hlabel]
          exact hhid
        · intro d' hd'; cases hd'
        · intro d' hd'; cases hd'
    · intro id hid
      rcases (JsSet.mem_add _ _ _).mp hid with hid | rfl
      · obtain ⟨n, hn, hni, d', hnd⟩ := hCo id hid
        exact ⟨n, List.mem_append_left _ hn, hni, d', hnd⟩
      · exact ⟨_, List.mem_append_right _ (List.mem_singleton.mpr rfl), rfl,
          _, rfl⟩
    · intro id hid
      obtain ⟨n, hn, hni, d', hnd⟩ := hCi id hid
      exact ⟨n, List.mem_append_left _ hn, hni, d', hnd⟩
    · intro id hid
      obtain ⟨n, hn, hni, d', hnd⟩ := hCg id hid
      exact ⟨n, List.mem_append_left _ hn, hni, d', hnd⟩

theorem initial_wf (env : WalkEnv) : WalkWf env WalkState.initial := by
  refine ⟨?_, ?_, ?_, ?_, ?_, rfl⟩ <;> intro x hx <;> cases hx

/-- Every emission step only grows the sets and the node list. -/
theorem walkStep_mono {env : WalkEnv} {s s' : WalkState}
    (hstep : WalkStep env s s') :
    WalkLe s s' ∧ ∀ n ∈ s.nodes, n ∈ s'.nodes := by
  cases hstep with
  | blockArg arg nodeId hmap hfmt =>
    exact ⟨⟨fun x hx => hx, fun x hx => JsSet.mem_add_of_mem _ hx,
      fun x hx => hx, fun x hx => hx⟩,
      fun n hn => List.mem_append_left _ hn⟩
  | groupEmit opId op group hop hkey hhid hgrp hnew =>
    exact ⟨⟨fun x hx => hx, fun x hx => hx,
      fun x hx => JsSet.mem_add_of_mem _ hx,
      fun x hx => JsSet.mem_add_of_mem _ hx⟩,
      fun n hn => List.mem_append_left _ hn⟩
  | groupSkip opId op group hop hkey hhid hgrp hold =>
    exact ⟨⟨fun x hx => hx, fun x hx => hx, fun x hx => hx, fun x hx => hx⟩,
      fun n hn => hn⟩
  | visibleOp opId op d hop hkey hhid hgrp hlabel =>
    exact ⟨⟨fun x hx => JsSet.mem_add_of_mem _ hx, fun x hx => hx,
      fun x hx => hx, fun x hx => hx⟩,
      fun n hn => List.mem_append_left _ hn⟩

theorem rtc_mono {env : WalkEnv} {s s' : WalkState}
    (h : Relation.ReflTransGen (WalkStep env) s s') :
    WalkLe s s' ∧ ∀ n ∈ s.nodes, n ∈ s'.nodes := by
  induction h with
  | refl =>
    exact ⟨⟨fun x hx => hx, fun x hx => hx, fun x hx => hx, fun x hx => hx⟩,
      fun n hn => hn⟩
  | tail _ h2 ih =>
    obtain ⟨⟨i1, i2, i3, i4⟩, i5⟩ := ih
    obtain ⟨⟨j1, j2, j3, j4⟩, j5⟩ := walkStep_mono h2
    exact ⟨⟨fun x hx => j1 x (i1 x hx), fun x hx => j2 x (i2 x hx),
      fun x hx => j3 x (i3 x hx), fun x hx => j4 x (i4 x hx)⟩,
      fun n hn => j5 n (i5 n hn)⟩

/-- Rendered and visible group-id lists evolve in lockstep. -/
theorem walkStep_rv {env : WalkEnv} {s s' : WalkState}
    (hstep : WalkStep env s s')
    (h : s.renderedGroupIds = s.visibleGroupIds) :
    s'.renderedGroupIds = s'.visibleGroupIds := by
  cases hstep with
  | blockArg arg nodeId hmap hfmt => exact h
  | groupEmit opId op group hop hkey hhid hgrp hnew =>
    show s.renderedGroupIds.add group.id = s.visibleGroupIds.add group.id
    rw [h]
  | groupSkip opId op group hop hkey hhid hgrp hold => exact h
  | visibleOp opId op d hop hkey hhid hgrp hlabel => exact h

/-! ## Paired walk: hiding names only shrinks the visibility sets -/

theorem subset_add (s t : JsSet) (x : String) (h : ∀ y ∈ s, y ∈ t) :
    ∀ y ∈ s.add x, y ∈ t.add x := by
  intro y hy
  rcases (JsSet.mem_add _ _ _).mp hy with hy | rfl
  · exact JsSet.mem_add_of_mem _ (h y hy)
  · exact JsSet.self_mem_add _ _

theorem walkLe_push (op : OperationInfo) (d1 d2 : OpNodeData)
    {s1 s2 : WalkState} (h : WalkLe s1 s2) :
    WalkLe (pushOpNode op d1 s1) (pushOpNode op d2 s2) :=
  ⟨subset_add _ _ _ h.1, h.2.1, h.2.2.1, h.2.2.2⟩

theorem walkLe_emitGroup (g : NodeGroup) {s1 s2 : WalkState}
    (h : WalkLe s1 s2) :
    WalkLe (emitGroupNode g s1) (emitGroupNode g s2) :=
  ⟨h.1, h.2.1, subset_add _ _ _ h.2.2.1, subset_add _ _ _ h.2.2.2⟩

theorem foldl_pair {α : Type} (R : WalkState → WalkState → Prop)
    (f1 f2 : WalkState → α → WalkState) (l : List α)
    (hstep : ∀ s1 s2 x, x ∈ l → R s1 s2 → R (f1 s1 x) (f2 s2 x)) :
    ∀ s1 s2, R s1 s2 → R (l.foldl f1 s1) (l.foldl f2 s2) := by
  induction l with
  | nil => intro s1 s2 h; exact h
  | cons x rest ih =>
    intro s1 s2 h
    rw [List.foldl_cons, List.foldl_cons]
    exact ih (fun a b y hy hr => hstep a b y (by simp [hy]) hr) _ _
      (hstep s1 s2 x (by simp) h)

/-- Processing one op in the run that hides `H` versus the run that hides
nothing: the visibility sets of the hiding run stay below those of the full
run. -/
theorem walkOpStep_pair (lookups : Lookups) (H : List String)
    (cbo igo : JsMap NodeGroup)
    (hek : EnvKeyed ⟨lookups, [], cbo, igo⟩)
    (ec1 ec2 : Option (List String → WalkState → WalkState))
    (hec : (ec1 = none ∧ ec2 = none) ∨
      ∃ f1 f2, ec1 = some f1 ∧ ec2 = some f2 ∧
        ∀ rids s1 s2,
          WalkLe s1 s2 ∧ s2.renderedGroupIds = s2.visibleGroupIds →
          WalkLe (f1 rids s1) (f2 rids s2) ∧
            (f2 rids s2).renderedGroupIds = (f2 rids s2).visibleGroupIds)
    (hec2rtc : ∀ f, ec2 = some f → ∀ rids st,
      Relation.ReflTransGen (WalkStep ⟨lookups, [], cbo, igo⟩) st (f rids st))
    (s1 s2 : WalkState)
    (hP : WalkLe s1 s2 ∧ s2.renderedGroupIds = s2.visibleGroupIds)
    (opId : String) :
    WalkLe (walkOpStep ⟨lookups, H, cbo, igo⟩ ec1 s1 opId)
        (walkOpStep ⟨lookups, [], cbo, igo⟩ ec2 s2 opId) ∧
      (walkOpStep ⟨lookups, [], cbo, igo⟩ ec2 s2 opId).renderedGroupIds =
        (walkOpStep ⟨lookups, [], cbo, igo⟩ ec2 s2 opId).visibleGroupIds := by
  obtain ⟨hLe, hRV⟩ := hP
  cases hop : lookups.opMap.get? opId with
  | none =>
    simp only [walkOpStep, hop]
    exact ⟨hLe, hRV⟩
  | some op =>
    have hrv2 : ∀ s s' : WalkState,
        Relation.ReflTransGen (WalkStep ⟨lookups, [], cbo, igo⟩) s s' →
        s.renderedGroupIds = s.visibleGroupIds →
        s'.renderedGroupIds = s'.visibleGroupIds := by
      intro s s' hr h0
      exact rtc_invariant
        (fun t : WalkState => t.renderedGroupIds = t.visibleGroupIds)
        (fun a b hab h => walkStep_rv hab h) hr h0
    have hstep2 : Relation.ReflTransGen (WalkStep ⟨lookups, [], cbo, igo⟩) s2
        (walkOpStep ⟨lookups, [], cbo, igo⟩ ec2 s2 opId) :=
      walkOpStep_rtc _ hek ec2 hec2rtc s2 opId
    cases hhid : H.contains op.name with
    | true =>
      have h1 : walkOpStep ⟨lookups, H, cbo, igo⟩ ec1 s1 opId = s1 := by
        simp only [walkOpStep, hop, hhid, if_true]
      rw [h1]
      refine ⟨?_, hrv2 _ _ hstep2 hRV⟩
      obtain ⟨⟨i1, i2, i3, i4⟩, _⟩ := rtc_mono hstep2
      exact ⟨fun x hx => i1 x (hLe.1 x hx), fun x hx => i2 x (hLe.2.1 x hx),
        fun x hx => i3 x (hLe.2.2.1 x hx), fun x hx => i4 x (hLe.2.2.2 x hx)⟩
    | false =>
      have hhid2 : ([] : List String).contains op.name = false := rfl
      simp only [walkOpStep, hop, hhid, hhid2, Bool.false_eq_true, if_false]
      cases hgrp : cbo.get? opId with
      | some group =>
        simp only [hgrp]
        cases hr1 : (ghostEncounter opId s1).renderedGroupIds.contains group.id with
        | true =>
          rw [if_pos (rfl : (true : Bool) = true)]
          have hr2 : (ghostEncounter opId s2).renderedGroupIds.contains group.id
              = true := by
            rw [JsSet.contains_iff] at hr1 ⊢
            exact hLe.2.2.2 _ hr1
          rw [if_pos hr2]
          exact ⟨hLe, hRV⟩
        | false =>
          rw [if_neg (by intro hh; cases hh)]
          cases hr2 : (ghostEncounter opId s2).renderedGroupIds.contains group.id
          with
          | true =>
            rw [if_pos (rfl : (true : Bool) = true)]
            refine ⟨⟨hLe.1, hLe.2.1, ?_, ?_⟩, hRV⟩
            · intro x hx
              rcases (JsSet.mem_add _ _ _).mp hx with hx | rfl
              · exact hLe.2.2.1 x hx
              · show group.id ∈ s2.visibleGroupIds
                rw [← hRV]
                exact (JsSet.contains_iff _ _).mp hr2
            · intro x hx
              rcases (JsSet.mem_add _ _ _).mp hx with hx | rfl
              · exact hLe.2.2.2 x hx
              · exact (JsSet.contains_iff _ _).mp hr2
          | false =>
            rw [if_neg (by intro hh; cases hh)]
            refine ⟨walkLe_emitGroup group hLe, ?_⟩
            show s2.renderedGroupIds.add group.id = s2.visibleGroupIds.add group.id
            rw [hRV]
      | none =>
        simp only [hgrp]
        by_cases hreg : 0 < op.regions.length
        · rw [if_pos hreg, if_pos hreg]
          rcases hec with ⟨he1, he2⟩ | ⟨f1, f2, he1, he2, hpair⟩
          · rw [he1, he2]
            exact ⟨walkLe_push op _ _ hLe, hRV⟩
          · rw [he1, he2]
            exact hpair op.regions _ _ ⟨walkLe_push op _ _ hLe, hRV⟩
        · rw [if_neg hreg, if_neg hreg]
          exact ⟨walkLe_push op _ _ hLe, hRV⟩

theorem walkLevel_pair (lookups : Lookups) (H : List String)
    (cbo igo : JsMap NodeGroup)
    (hek : EnvKeyed ⟨lookups, [], cbo, igo⟩)
    (ec1 ec2 : Option (List String → WalkState → WalkState))
    (hec : (ec1 = none ∧ ec2 = none) ∨
      ∃ f1 f2, ec1 = some f1 ∧ ec2 = some f2 ∧
        ∀ rids s1 s2,
          WalkLe s1 s2 ∧ s2.renderedGroupIds = s2.visibleGroupIds →
          WalkLe (f1 rids s1) (f2 rids s2) ∧
            (f2 rids s2).renderedGroupIds = (f2 rids s2).visibleGroupIds)
    (hec2rtc : ∀ f, ec2 = some f → ∀ rids st,
      Relation.ReflTransGen (WalkStep ⟨lookups, [], cbo, igo⟩) st (f rids st)) :
    ∀ rids s1 s2,
      WalkLe s1 s2 ∧ s2.renderedGroupIds = s2.visibleGroupIds →
      WalkLe (walkLevel ⟨lookups, H, cbo, igo⟩ ec1 rids s1)
          (walkLevel ⟨lookups, [], cbo, igo⟩ ec2 rids s2) ∧
        (walkLevel ⟨lookups, [], cbo, igo⟩ ec2 rids s2).renderedGroupIds =
          (walkLevel ⟨lookups, [], cbo, igo⟩ ec2 rids s2).visibleGroupIds := by
  intro rids s1 s2 hP
  unfold walkLevel
  refine foldl_pair
    (fun a b => WalkLe a b ∧ b.renderedGroupIds = b.visibleGroupIds)
    _ _ rids ?_ s1 s2 hP
  intro a b rid _ hab
  cases hr : lookups.regionMap.get? rid with
  | none =>
    simp only [hr]
    exact hab
  | some region =>
    simp only [hr]
    refine foldl_pair
      (fun a b => WalkLe a b ∧ b.renderedGroupIds = b.visibleGroupIds)
      _ _ region.blocks ?_ a b hab
    intro a' b' bid _ hab'
    cases hb : lookups.blockMap.get? bid with
    | none =>
      simp only [hb]
      exact hab'
    | some block =>
      simp only [hb]
      have hargs :
          WalkLe (block.arguments.foldl (emitBlockArg lookups) a')
              (block.arguments.foldl (emitBlockArg lookups) b') ∧
            (block.arguments.foldl (emitBlockArg lookups) b').renderedGroupIds =
              (block.arguments.foldl (emitBlockArg lookups) b').visibleGroupIds := by
        refine foldl_pair
          (fun a b => WalkLe a b ∧ b.renderedGroupIds = b.visibleGroupIds)
          _ _ block.arguments ?_ a' b' hab'
        intro c c' arg _ hcc
        unfold emitBlockArg
        cases hm : lookups.blockArgNodeMap.get? arg.value_id with
        | none =>
          simp only [hm]
          exact hcc
        | some nodeId =>
          simp only [hm]
          exact ⟨⟨hcc.1.1, subset_add _ _ _ hcc.1.2.1, hcc.1.2.2.1,
            hcc.1.2.2.2⟩, hcc.2⟩
      refine foldl_pair
        (fun a b => WalkLe a b ∧ b.renderedGroupIds = b.visibleGroupIds)
        _ _ block.operations ?_ _ _ hargs
      intro c c' opId _ hcc
      exact walkOpStep_pair lookups H cbo igo hek ec1 ec2 hec hec2rtc c c'
        hcc opId

/-- The hiding run's visibility sets stay below the full run's, at every
expansion budget. -/
theorem walkGas_pair (lookups : Lookups) (H : List String)
    (cbo igo : JsMap NodeGroup)
    (hek : EnvKeyed ⟨lookups, [], cbo, igo⟩) :
    ∀ gas rids s1 s2,
      WalkLe s1 s2 ∧ s2.renderedGroupIds = s2.visibleGroupIds →
      WalkLe (walkRegionsGas ⟨lookups, H, cbo, igo⟩ gas rids s1)
          (walkRegionsGas ⟨lookups, [], cbo, igo⟩ gas rids s2) ∧
        (walkRegionsGas ⟨lookups, [], cbo, igo⟩ gas rids s2).renderedGroupIds =
          (walkRegionsGas ⟨lookups, [], cbo, igo⟩ gas rids s2).visibleGroupIds := by
  intro gas
  induction gas with
  | zero =>
    exact walkLevel_pair lookups H cbo igo hek none none (Or.inl ⟨rfl, rfl⟩)
      (fun f hf => by cases hf)
  | succ g ih =>
    exact walkLevel_pair lookups H cbo igo hek
      (some (walkRegionsGas ⟨lookups, H, cbo, igo⟩ g))
      (some (walkRegionsGas ⟨lookups, [], cbo, igo⟩ g))
      (Or.inr ⟨_, _, rfl, rfl, fun rids s1 s2 h => ih rids s1 s2 h⟩)
      (fun f hf => by cases hf; exact walkRegionsGas_rtc _ hek g)

/-! ## Edge synthesizer: flatMap characterization and transfer lemmas -/

theorem genEdges_opFold (vO vI vG : JsSet) (lookups : Lookups)
    (cbo : JsMap NodeGroup) :
    ∀ (l : List String) (init : List FlowEdge),
      l.foldl
        (fun edges opId =>
          match lookups.opMap.get? opId with
          | none => edges
          | some op =>
            (op.operands.enum).foldl
              (fun edges p =>
                edges ++
                  edgesForOperand vO vI vG lookups cbo op p.1 p.2)
              edges)
        init =
      init ++ l.flatMap (fun opId =>
        match lookups.opMap.get? opId with
        | none => []
        | some op =>
          (op.operands.enum).flatMap
            (fun q => edgesForOperand vO vI vG lookups cbo op q.1 q.2)) := by
  intro l
  induction l with
  | nil => intro init; simp
  | cons x rest ih =>
    intro init
    rw [List.foldl_cons, List.flatMap_cons]
    cases hop : lookups.opMap.get? x with
    | none =>
      simp only [hop]
      rw [ih]
      simp
    | some op =>
      simp only [hop]
      rw [foldl_append_eq
        (fun q : Nat × ValueInfo =>
          edgesForOperand vO vI vG lookups cbo op q.1 q.2) op.operands.enum
        init]
      rw [ih, List.append_assoc]

theorem genEdges_groupFold (vO vI vG : JsSet) (lookups : Lookups)
    (cbo cgm : JsMap NodeGroup) :
    ∀ (l : List String) (init : List FlowEdge),
      l.foldl
        (fun edges gid =>
          match cgm.get? gid with
          | none => edges
          | some group =>
            (group.inputs.enum).foldl
              (fun edges p =>
                edges ++
                  edgesForGroupInput vO vI vG lookups cbo group p.1 p.2)
              edges)
        init =
      init ++ l.flatMap (fun gid =>
        match cgm.get? gid with
        | none => []
        | some g =>
          (g.inputs.enum).flatMap
            (fun q => edgesForGroupInput vO vI vG lookups cbo g q.1 q.2)) := by
  intro l
  induction l with
  | nil => intro init; simp
  | cons x rest ih =>
    intro init
    rw [List.foldl_cons, List.flatMap_cons]
    cases hg : cgm.get? x with
    | none =>
      simp only [hg]
      rw [ih]
      simp
    | some g =>
      simp only [hg]
      rw [foldl_append_eq
        (fun q : Nat × GroupInput =>
          edgesForGroupInput vO vI vG lookups cbo g q.1 q.2) g.inputs.enum
        init]
      rw [ih, List.append_assoc]

/-- `generateEdges` as the concatenation of the per-visible-op and
per-visible-group edge lists. -/
theorem generateEdges_eq (vO vI vG : JsSet) (lookups : Lookups)
    (cbo cgm : JsMap NodeGroup) :
    generateEdges vO vI vG lookups cbo cgm =
      vO.flatMap (fun opId =>
        match lookups.opMap.get? opId with
        | none => []
        | some op =>
          (op.operands.enum).flatMap
            (fun q => edgesForOperand vO vI vG lookups cbo op q.1 q.2)) ++
      vG.flatMap (fun gid =>
        match cgm.get? gid with
        | none => []
        | some g =>
          (g.inputs.enum).flatMap
            (fun q => edgesForGroupInput vO vI vG lookups cbo g q.1 q.2)) := by
  show vG.foldl
      (fun edges gid =>
        match cgm.get? gid with
        | none => edges
        | some group =>
          (group.inputs.enum).foldl
            (fun edges p =>
              edges ++
                edgesForGroupInput vO vI vG lookups cbo group p.1 p.2)
            edges)
      (vO.foldl
        (fun edges opId =>
          match lookups.opMap.get? opId with
          | none => edges
          | some op =>
            (op.operands.enum).foldl
              (fun edges p =>
                edges ++
                  edgesForOperand vO vI vG lookups cbo op p.1 p.2)
              edges)
        []) = _
  rw [genEdges_groupFold vO vI vG lookups cbo cgm vG, genEdges_opFold]
  simp

theorem blockArgEdge_sub {vI1 vI2 : JsSet} (lookups : Lookups)
    (valueId type targetId : String) (targetIdx : Nat) (deletable : Bool)
    (h2 : ∀ x ∈ vI1, x ∈ vI2) :
    ∀ e ∈ blockArgEdge vI1 lookups valueId type targetId targetIdx deletable,
      e ∈ blockArgEdge vI2 lookups valueId type targetId targetIdx deletable := by
  intro e he
  unfold blockArgEdge at he ⊢
  cases hm : lookups.blockArgNodeMap.get? valueId with
  | none => simp only [hm] at he; cases he
  | some inputNodeId =>
    simp only [hm] at he ⊢
    cases hc : vI1.contains inputNodeId with
    | false => rw [if_neg (by intro hh; rw [hc] at hh; cases hh)] at he; cases he
    | true =>
      rw [if_pos hc] at he
      have hc2 : vI2.contains inputNodeId = true :=
        (JsSet.contains_iff _ _).mpr (h2 _ ((JsSet.contains_iff _ _).mp hc))
      rw [if_pos hc2]
      exact he

theorem blockArgEdge_back {vI1 vI2 : JsSet} (lookups : Lookups)
    (valueId type targetId : String) (targetIdx : Nat) (deletable : Bool)
    (M : String → Prop)
    (hIn : ∀ x, x ∈ vI2 → M x → x ∈ vI1) :
    ∀ e ∈ blockArgEdge vI2 lookups valueId type targetId targetIdx deletable,
      M e.source →
      e ∈ blockArgEdge vI1 lookups valueId type targetId targetIdx deletable := by
  intro e he hM
  unfold blockArgEdge at he ⊢
  cases hm : lookups.blockArgNodeMap.get? valueId with
  | none => simp only [hm] at he; cases he
  | some inputNodeId =>
    simp only [hm] at he ⊢
    cases hc : vI2.contains inputNodeId with
    | false => rw [if_neg (by intro hh; rw [hc] at hh; cases hh)] at he; cases he
    | true =>
      rw [if_pos hc] at he
      rcases List.mem_singleton.mp he with rfl
      have hc1 : vI1.contains inputNodeId = true :=
        (JsSet.contains_iff _ _).mpr
          (hIn _ ((JsSet.contains_iff _ _).mp hc) hM)
      rw [if_pos hc1]
      exact List.mem_singleton.mpr rfl

/-- Hiding names only removes operand edges: any operand edge of the hiding
run is also produced by the full run (given the inclusion of the visibility
sets, that visible ops are never collapsed-group members in the full run, and
that produced values are not block arguments). -/
theorem edgesForOperand_sub {vO1 vI1 vG1 vO2 vI2 vG2 : JsSet}
    (lookups : Lookups) (cbo : JsMap NodeGroup) (op : OperationInfo)
    (idx : Nat) (od : ValueInfo)
    (h1 : ∀ x ∈ vO1, x ∈ vO2) (h2 : ∀ x ∈ vI1, x ∈ vI2)
    (h3 : ∀ x ∈ vG1, x ∈ vG2)
    (hA2 : ∀ x ∈ vO2, cbo.get? x = none)
    (hdisj : ∀ v p, lookups.valueProducerMap.get? v = some p →
      lookups.blockArgNodeMap.get? v = none) :
    ∀ e ∈ edgesForOperand vO1 vI1 vG1 lookups cbo op idx od,
      e ∈ edgesForOperand vO2 vI2 vG2 lookups cbo op idx od := by
  intro e he
  unfold edgesForOperand at he ⊢
  cases hp : lookups.valueProducerMap.get? od.value_id with
  | none =>
    simp only [hp] at he ⊢
    exact blockArgEdge_sub lookups od.value_id od.type op.op_id idx true h2 e he
  | some p =>
    have hblk : lookups.blockArgNodeMap.get? od.value_id = none :=
      hdisj od.value_id p hp
    simp only [hp] at he ⊢
    cases hv1 : vO1.contains p.opId with
    | true =>
      rw [if_pos hv1] at he
      have hv2 : vO2.contains p.opId = true :=
        (JsSet.contains_iff _ _).mpr (h1 _ ((JsSet.contains_iff _ _).mp hv1))
      rw [if_pos hv2]
      exact he
    | false =>
      rw [if_neg (by intro hh; rw [hv1] at hh; cases hh)] at he
      cases hg : cbo.get? p.opId with
      | none =>
        simp only [hg] at he
        unfold blockArgEdge at he
        simp only [hblk] at he
        cases he
      | some g =>
        simp only [hg] at he
        cases hvg1 : vG1.contains g.id with
        | false =>
          rw [if_neg (by intro hh; rw [hvg1] at hh; cases hh)] at he
          unfold blockArgEdge at he
          simp only [hblk] at he
          cases he
        | true =>
          rw [if_pos hvg1] at he
          have hv2 : vO2.contains p.opId = false := by
            cases hv2 : vO2.contains p.opId with
            | false => rfl
            | true =>
              have := hA2 p.opId ((JsSet.contains_iff _ _).mp hv2)
              rw [this] at hg
              cases hg
          rw [if_neg (by intro hh; rw [hv2] at hh; cases hh)]
          simp only [hg]
          have hvg2 : vG2.contains g.id = true :=
            (JsSet.contains_iff _ _).mpr
              (h3 _ ((JsSet.contains_iff _ _).mp hvg1))
          rw [if_pos hvg2]
          exact he

/-- An operand edge of the full run whose source is still visible in the
hiding run is also produced by the hiding run. -/
theorem edgesForOperand_back {vO1 vI1 vG1 vO2 vI2 vG2 : JsSet}
    (lookups : Lookups) (cbo : JsMap NodeGroup) (op : OperationInfo)
    (idx : Nat) (od : ValueInfo) (M : String → Prop)
    (h1 : ∀ x ∈ vO1, x ∈ vO2)
    (hdisj : ∀ v p, lookups.valueProducerMap.get? v = some p →
      lookups.blockArgNodeMap.get? v = none)
    (hOp : ∀ x, x ∈ vO2 → M x → x ∈ vO1)
    (hGr : ∀ x, x ∈ vG2 → M x → x ∈ vG1)
    (hIn : ∀ x, x ∈ vI2 → M x → x ∈ vI1) :
    ∀ e ∈ edgesForOperand vO2 vI2 vG2 lookups cbo op idx od, M e.source →
      e ∈ edgesForOperand vO1 vI1 vG1 lookups cbo op idx od := by
  intro e he hM
  unfold edgesForOperand at he ⊢
  cases hp : lookups.valueProducerMap.get? od.value_id with
  | none =>
    simp only [hp] at he ⊢
    exact blockArgEdge_back lookups od.value_id od.type op.op_id idx true M
      hIn e he hM
  | some p =>
    have hblk : lookups.blockArgNodeMap.get? od.value_id = none :=
      hdisj od.value_id p hp
    simp only [hp] at he ⊢
    cases hv2 : vO2.contains p.opId with
    | true =>
      rw [if_pos hv2] at he
      rcases List.mem_singleton.mp he with rfl
      have hv1 : vO1.contains p.opId = true :=
        (JsSet.contains_iff _ _).mpr
          (hOp _ ((JsSet.contains_iff _ _).mp hv2) hM)
      rw [if_pos hv1]
      exact List.mem_singleton.mpr rfl
    | false =>
      rw [if_neg (by intro hh; rw [hv2] at hh; cases hh)] at he
      have hv1 : vO1.contains p.opId = false := by
        cases hv1 : vO1.contains p.opId with
        | false => rfl
        | true =>
          have := (JsSet.contains_iff _ _).mpr
            (h1 _ ((JsSet.contains_iff _ _).mp hv1))
          rw [this] at hv2
          cases hv2
      rw [if_neg (by intro hh; rw [hv1] at hh; cases hh)]
      cases hg : cbo.get? p.opId with
      | none =>
        simp only [hg] at he
        unfold blockArgEdge at he
        simp only [hblk] at he
        cases he
      | some g =>
        simp only [hg] at he ⊢
        cases hvg2 : vG2.contains g.id with
        | false =>
          rw [if_neg (by intro hh; rw [hvg2] at hh; cases hh)] at he
          unfold blockArgEdge at he
          simp only [hblk] at he
          cases he
        | true =>
          rw [if_pos hvg2] at he
          cases hidx : g.outputs.findIdx? (fun o => o.valueId == od.value_id)
          with
          | none =>
            simp only [hidx] at he
            cases he
          | some outputIdx =>
            simp only [hidx] at he
            rcases List.mem_singleton.mp he with rfl
            have hvg1 : vG1.contains g.id = true :=
              (JsSet.contains_iff _ _).mpr
                (hGr _ ((JsSet.contains_iff _ _).mp hvg2) hM)
            rw [if_pos hvg1]
            simp only [hidx]
            exact List.mem_singleton.mpr rfl

/-- Hiding names only removes group-input edges (same hypotheses as for
operand edges). -/
theorem edgesForGroupInput_sub {vO1 vI1 vG1 vO2 vI2 vG2 : JsSet}
    (lookups : Lookups) (cbo : JsMap NodeGroup) (group : NodeGroup)
    (idx : Nat) (inp : GroupInput)
    (h1 : ∀ x ∈ vO1, x ∈ vO2) (h2 : ∀ x ∈ vI1, x ∈ vI2)
    (h3 : ∀ x ∈ vG1, x ∈ vG2)
    (hA2 : ∀ x ∈ vO2, cbo.get? x = none)
    (hdisj : ∀ v p, lookups.valueProducerMap.get? v = some p →
      lookups.blockArgNodeMap.get? v = none) :
    ∀ e ∈ edgesForGroupInput vO1 vI1 vG1 lookups cbo group idx inp,
      e ∈ edgesForGroupInput vO2 vI2 vG2 lookups cbo group idx inp := by
  intro e he
  unfold edgesForGroupInput at he ⊢
  cases hp : lookups.valueProducerMap.get? inp.valueId with
  | none =>
    simp only [hp] at he ⊢
    exact blockArgEdge_sub lookups inp.valueId inp.type group.id idx false h2
      e he
  | some p =>
    have hblk : lookups.blockArgNodeMap.get? inp.valueId = none :=
      hdisj inp.valueId p hp
    simp only [hp] at he ⊢
    cases hv1 : vO1.contains p.opId with
    | true =>
      rw [if_pos hv1] at he
      have hv2 : vO2.contains p.opId = true :=
        (JsSet.contains_iff _ _).mpr (h1 _ ((JsSet.contains_iff _ _).mp hv1))
      rw [if_pos hv2]
      exact he
    | false =>
      rw [if_neg (by intro hh; rw [hv1] at hh; cases hh)] at he
      cases hg : cbo.get? p.opId with
      | none =>
        simp only [hg] at he
        unfold blockArgEdge at he
        simp only [hblk] at he
        cases he
      | some pg =>
        simp only [hg] at he
        by_cases hvg1 : vG1.contains pg.id = true ∧ pg.id ≠ group.id
        · rw [if_pos hvg1] at he
          have hv2 : vO2.contains p.opId = false := by
            cases hv2 : vO2.contains p.opId with
            | false => rfl
            | true =>
              have := hA2 p.opId ((JsSet.contains_iff _ _).mp hv2)
              rw [this] at hg
              cases hg
          rw [if_neg (by intro hh; rw [hv2] at hh; cases hh)]
          simp only [hg]
          have hvg2 : vG2.contains pg.id = true ∧ pg.id ≠ group.id :=
            ⟨(JsSet.contains_iff _ _).mpr
              (h3 _ ((JsSet.contains_iff _ _).mp hvg1.1)), hvg1.2⟩
          rw [if_pos hvg2]
          exact he
        · rw [if_neg hvg1] at he
          unfold blockArgEdge at he
          simp only [hblk] at he
          cases he

/-- A group-input edge of the full run whose source is still visible in the
hiding run is also produced by the hiding run. -/
theorem edgesForGroupInput_back {vO1 vI1 vG1 vO2 vI2 vG2 : JsSet}
    (lookups : Lookups) (cbo : JsMap NodeGroup) (group : NodeGroup)
    (idx : Nat) (inp : GroupInput) (M : String → Prop)
    (h1 : ∀ x ∈ vO1, x ∈ vO2)
    (hdisj : ∀ v p, lookups.valueProducerMap.get? v = some p →
      lookups.blockArgNodeMap.get? v = none)
    (hOp : ∀ x, x ∈ vO2 → M x → x ∈ vO1)
    (hGr : ∀ x, x ∈ vG2 → M x → x ∈ vG1)
    (hIn : ∀ x, x ∈ vI2 → M x → x ∈ vI1) :
    ∀ e ∈ edgesForGroupInput vO2 vI2 vG2 lookups cbo group idx inp,
      M e.source →
      e ∈ edgesForGroupInput vO1 vI1 vG1 lookups cbo group idx inp := by
  intro e he hM
  unfold edgesForGroupInput at he ⊢
  cases hp : lookups.valueProducerMap.get? inp.valueId with
  | none =>
    simp only [hp] at he ⊢
    exact blockArgEdge_back lookups inp.valueId inp.type group.id idx false M
      hIn e he hM
  | some p =>
    have hblk : lookups.blockArgNodeMap.get? inp.valueId = none :=
      hdisj inp.valueId p hp
    simp only [hp] at he ⊢
    cases hv2 : vO2.contains p.opId with
    | true =>
      rw [if_pos hv2] at he
      rcases List.mem_singleton.mp he with rfl
      have hv1 : vO1.contains p.opId = true :=
        (JsSet.contains_iff _ _).mpr
          (hOp _ ((JsSet.contains_iff _ _).mp hv2) hM)
      rw [if_pos hv1]
      exact List.mem_singleton.mpr rfl
    | false =>
      rw [if_neg (by intro hh; rw [hv2] at hh; cases hh)] at he
      have hv1 : vO1.contains p.opId = false := by
        cases hv1 : vO1.contains p.opId with
        | false => rfl
        | true =>
          have := (JsSet.contains_iff _ _).mpr
            (h1 _ ((JsSet.contains_iff _ _).mp hv1))
          rw [this] at hv2
          cases hv2
      rw [if_neg (by intro hh; rw [hv1] at hh; cases hh)]
      cases hg : cbo.get? p.opId with
      | none =>
        simp only [hg] at he
        unfold blockArgEdge at he
        simp only [hblk] at he
        cases he
      | some pg =>
        simp only [hg] at he ⊢
        by_cases hvg2 : vG2.contains pg.id = true ∧ pg.id ≠ group.id
        · rw [if_pos hvg2] at he
          cases hidx : pg.outputs.findIdx? (fun o => o.valueId == inp.valueId)
          with
          | none =>
            simp only [hidx] at he
            cases he
          | some outputIdx =>
            simp only [hidx] at he
            rcases List.mem_singleton.mp he with rfl
            have hvg1 : vG1.contains pg.id = true ∧ pg.id ≠ group.id :=
              ⟨(JsSet.contains_iff _ _).mpr
                (hGr _ ((JsSet.contains_iff _ _).mp hvg2.1) hM), hvg2.2⟩
            rw [if_pos hvg1]
            simp only [hidx]
            exact List.mem_singleton.mpr rfl
        · rw [if_neg hvg2] at he
          unfold blockArgEdge at he
          simp only [hblk] at he
          cases he

/-- C8: hiding a qualified name removes every operation node bearing it and
every edge touching the hidden operation's node, and leaves the edges between
the remaining visible nodes unaffected: an edge is synthesized by the hiding
run exactly when the full (nothing-hidden) run synthesizes it and both its
endpoints still have nodes in the hiding run. Hypotheses: node-id hygiene
(operation ids, group ids and pseudo-input ids do not collide) and produced
values are not block arguments. -/
theorem hidden_name_removal (graph : IRGraph) (viewPath : List String)
    (maxExpandDepth : Nat) (H : List String) (nodeGroups : List NodeGroup)
    (opId : String) (hidden : OperationInfo)
    (hhop : (buildLookups graph).opMap.get? opId = some hidden)
    (hhname : H.contains hidden.name = true)
    (hoi : ∀ op ∈ graph.operations,
      ∀ kv ∈ (buildLookups graph).blockArgNodeMap,
        op.op_id ≠ (kv : String × String).2)
    (hog : ∀ g ∈ nodeGroups, ∀ op ∈ graph.operations, g.id ≠ op.op_id)
    (hgi : ∀ g ∈ nodeGroups,
      ∀ kv ∈ (buildLookups graph).blockArgNodeMap,
        g.id ≠ (kv : String × String).2)
    (hdisjf : ∀ kv ∈ (buildLookups graph).valueProducerMap,
      (buildLookups graph).blockArgNodeMap.get?
        (kv : String × Producer).1 = none) :
    (∀ n ∈ (irToFlow graph viewPath maxExpandDepth H nodeGroups none).nodes,
      ∀ d, n.data = NodeData.op d → H.contains d.label = false) ∧
    (∀ e ∈ (irToFlow graph viewPath maxExpandDepth H nodeGroups none).edges,
      e.source ≠ opId ∧ e.target ≠ opId) ∧
    (∀ e, e ∈ (irToFlow graph viewPath maxExpandDepth H nodeGroups none).edges
      ↔ (e ∈ (irToFlow graph viewPath maxExpandDepth [] nodeGroups none).edges ∧
        (∃ n ∈ (irToFlow graph viewPath maxExpandDepth H nodeGroups
          none).nodes, n.id = e.source) ∧
        (∃ n ∈ (irToFlow graph viewPath maxExpandDepth H nodeGroups
          none).nodes, n.id = e.target))) := by
  by_cases hview :
      (getViewRootRegionIds graph viewPath (buildLookups graph).opMap).length = 0
  · have hH : irToFlow graph viewPath maxExpandDepth H nodeGroups none
        = ⟨[], []⟩ := by
      show (if (getViewRootRegionIds graph viewPath
        (buildLookups graph).opMap).length = 0 then (⟨[], []⟩ : FlowResult)
        else _) = _
      rw [if_pos hview]
    have h0 : irToFlow graph viewPath maxExpandDepth [] nodeGroups none
        = ⟨[], []⟩ := by
      show (if (getViewRootRegionIds graph viewPath
        (buildLookups graph).opMap).length = 0 then (⟨[], []⟩ : FlowResult)
        else _) = _
      rw [if_pos hview]
    rw [hH, h0]
    refine ⟨?_, ?_, ?_⟩
    · intro n hn; cases hn
    · intro e he; cases he
    · intro e
      constructor
      · intro he; cases he
      · rintro ⟨he, -, -⟩; cases he
  · have hne : getViewRootRegionIds graph viewPath (buildLookups graph).opMap
        ≠ [] := fun h => hview (by rw [h]; rfl)
    have hH := irToFlow_unfold graph viewPath maxExpandDepth H nodeGroups none
      hne
    have h0 := irToFlow_unfold graph viewPath maxExpandDepth [] nodeGroups none
      hne
    simp only [drillFilter_none] at hH h0
    set L := buildLookups graph with hdefL
    set maps := buildGroupMaps nodeGroups none with hdefmaps
    set stH := walkRegions (getViewRootRegionIds graph viewPath L.opMap) 1
      maxExpandDepth ⟨L, H, maps.collapsedGroupByOp, maps.inlineGroupByOp⟩
      WalkState.initial with hdefstH
    set st0 := walkRegions (getViewRootRegionIds graph viewPath L.opMap) 1
      maxExpandDepth ⟨L, [], maps.collapsedGroupByOp, maps.inlineGroupByOp⟩
      WalkState.initial with hdefst0
    have hNNH : (irToFlow graph viewPath maxExpandDepth H nodeGroups
        none).nodes = stH.nodes := by rw [hH]
    have hENH : (irToFlow graph viewPath maxExpandDepth H nodeGroups
        none).edges = generateEdges stH.visibleOpIds stH.visibleInputNodeIds
        stH.visibleGroupIds L maps.collapsedGroupByOp
        maps.collapsedGroupsMap := by rw [hH]
    have hEN0 : (irToFlow graph viewPath maxExpandDepth [] nodeGroups
        none).edges = generateEdges st0.visibleOpIds st0.visibleInputNodeIds
        st0.visibleGroupIds L maps.collapsedGroupByOp
        maps.collapsedGroupsMap := by rw [h0]
    rw [hNNH, hENH, hEN0]
    have hekH : EnvKeyed ⟨L, H, maps.collapsedGroupByOp, maps.inlineGroupByOp⟩ :=
      buildLookups_envKeyed graph H _ _
    have hek0 : EnvKeyed ⟨L, [], maps.collapsedGroupByOp, maps.inlineGroupByOp⟩ :=
      buildLookups_envKeyed graph [] _ _
    have hwfH : WalkWf ⟨L, H, maps.collapsedGroupByOp, maps.inlineGroupByOp⟩
        stH :=
      rtc_invariant (WalkWf _) (fun a b hab h => walkStep_wf hab h)
        (walkRegions_rtc _ hekH _ 1 maxExpandDepth WalkState.initial)
        (initial_wf _)
    have hwf0 : WalkWf ⟨L, [], maps.collapsedGroupByOp, maps.inlineGroupByOp⟩
        st0 :=
      rtc_invariant (WalkWf _) (fun a b hab h => walkStep_wf hab h)
        (walkRegions_rtc _ hek0 _ 1 maxExpandDepth WalkState.initial)
        (initial_wf _)
    have hLe : WalkLe stH st0 :=
      (walkGas_pair L H maps.collapsedGroupByOp maps.inlineGroupByOp hek0
        (maxExpandDepth + 1 - 1)
        (getViewRootRegionIds graph viewPath L.opMap)
        WalkState.initial WalkState.initial
        ⟨⟨fun x hx => hx, fun x hx => hx, fun x hx => hx, fun x hx => hx⟩,
          rfl⟩).1
    have hdisj : ∀ v p, L.valueProducerMap.get? v = some p →
        L.blockArgNodeMap.get? v = none :=
      fun v p hp => hdisjf (v, p) (JsMap.mem_of_get?_eq_some hp)
    have hA2 : ∀ x ∈ st0.visibleOpIds, maps.collapsedGroupByOp.get? x = none := by
      intro x hx
      obtain ⟨op', -, -, hnone, -⟩ := hwf0.1 x hx
      exact hnone
    have hOpM : ∀ x, x ∈ st0.visibleOpIds →
        (∃ n ∈ stH.nodes, n.id = x) → x ∈ stH.visibleOpIds := by
      rintro x hx ⟨n, hn, hid⟩
      obtain ⟨opx, hopx, -, -, hkeyx⟩ := hwf0.1 x hx
      obtain ⟨hBo, hBi, hBg⟩ := hwfH.2.1 n hn
      cases hd : n.data with
      | op d =>
        rw [← hid]
        exact (hBo d hd).1
      | input d =>
        obtain ⟨-, v, hv⟩ := hBi d hd
        have hne2 := hoi opx (opMap_mem graph x opx hopx) (v, n.id)
          (JsMap.mem_of_get?_eq_some hv)
        rw [hkeyx] at hne2
        exact absurd hid.symm hne2
      | group d =>
        obtain ⟨-, g, opId', hg, hgid⟩ := hBg d hd
        obtain ⟨hgmem, -, -⟩ := collapsedByOp_range nodeGroups opId' g hg
        have hne2 := hog g hgmem opx (opMap_mem graph x opx hopx)
        rw [hkeyx] at hne2
        have hx2 : g.id = x := by rw [← hgid]; exact hid
        exact absurd hx2 hne2
    have hGrM : ∀ x, x ∈ st0.visibleGroupIds →
        (∃ n ∈ stH.nodes, n.id = x) → x ∈ stH.visibleGroupIds := by
      rintro x hx ⟨n, hn, hid⟩
      obtain ⟨n0, hn0, hid0, d0, hd0⟩ := hwf0.2.2.2.2.1 x hx
      obtain ⟨-, g0, opId0, hg0, hgid0⟩ := (hwf0.2.1 n0 hn0).2.2 d0 hd0
      obtain ⟨hg0mem, -, -⟩ := collapsedByOp_range nodeGroups opId0 g0 hg0
      have hg0x : g0.id = x := by rw [← hgid0]; exact hid0
      obtain ⟨hBo, hBi, hBg⟩ := hwfH.2.1 n hn
      cases hd : n.data with
      | op d =>
        have hvo := (hBo d hd).1
        obtain ⟨opx, hopx, -, -, hkeyx⟩ := hwfH.1 n.id hvo
        have hne2 := hog g0 hg0mem opx (opMap_mem graph n.id opx hopx)
        rw [hkeyx, hid] at hne2
        exact absurd hg0x hne2
      | input d =>
        obtain ⟨-, v, hv⟩ := hBi d hd
        have hne2 := hgi g0 hg0mem (v, n.id) (JsMap.mem_of_get?_eq_some hv)
        rw [hid] at hne2
        exact absurd hg0x hne2
      | group d =>
        rw [← hid]
        exact (hBg d hd).1
    have hInM : ∀ x, x ∈ st0.visibleInputNodeIds →
        (∃ n ∈ stH.nodes, n.id = x) → x ∈ stH.visibleInputNodeIds := by
      rintro x hx ⟨n, hn, hid⟩
      obtain ⟨n0, hn0, hid0, d0, hd0⟩ := hwf0.2.2.2.1 x hx
      obtain ⟨-, v0, hv0⟩ := (hwf0.2.1 n0 hn0).2.1 d0 hd0
      rw [hid0] at hv0
      obtain ⟨hBo, hBi, hBg⟩ := hwfH.2.1 n hn
      cases hd : n.data with
      | op d =>
        have hvo := (hBo d hd).1
        obtain ⟨opx, hopx, -, -, hkeyx⟩ := hwfH.1 n.id hvo
        have hne2 := hoi opx (opMap_mem graph n.id opx hopx) (v0, x)
          (JsMap.mem_of_get?_eq_some hv0)
        rw [hkeyx, hid] at hne2
        exact absurd rfl hne2
      | input d =>
        rw [← hid]
        exact (hBi d hd).1
      | group d =>
        obtain ⟨-, g, opId', hg, hgid⟩ := hBg d hd
        obtain ⟨hgmem, -, -⟩ := collapsedByOp_range nodeGroups opId' g hg
        have hne2 := hgi g hgmem (v0, x) (JsMap.mem_of_get?_eq_some hv0)
        have hx2 : g.id = x := by rw [← hgid]; exact hid
        exact absurd hx2 hne2
    have hMofO : ∀ x ∈ stH.visibleOpIds, ∃ n ∈ stH.nodes, n.id = x := by
      intro x hx
      obtain ⟨n, hn, hid, -⟩ := hwfH.2.2.1 x hx
      exact ⟨n, hn, hid⟩
    have hMofI : ∀ x ∈ stH.visibleInputNodeIds, ∃ n ∈ stH.nodes, n.id = x := by
      intro x hx
      obtain ⟨n, hn, hid, -⟩ := hwfH.2.2.2.1 x hx
      exact ⟨n, hn, hid⟩
    have hMofG : ∀ x ∈ stH.visibleGroupIds, ∃ n ∈ stH.nodes, n.id = x := by
      intro x hx
      obtain ⟨n, hn, hid, -⟩ := hwfH.2.2.2.2.1 x hx
      exact ⟨n, hn, hid⟩
    have hkeyhid : hidden.op_id = opId := opMap_keyed graph opId hidden hhop
    have hendne : ∀ x, (x ∈ stH.visibleOpIds ∨
        (∃ g ∈ nodeGroups, x = g.id) ∨
        (∃ v, L.blockArgNodeMap.get? v = some x)) → x ≠ opId := by
      rintro x (hx | ⟨g, hgmem, rfl⟩ | ⟨v, hv⟩) heq
      · obtain ⟨opx, hopx, hhidx, -, -⟩ := hwfH.1 x hx
        rw [heq, hhop] at hopx
        cases hopx
        rw [hhname] at hhidx
        cases hhidx
      · have hne2 := hog g hgmem hidden (opMap_mem graph opId hidden hhop)
        rw [hkeyhid] at hne2
        exact hne2 heq
      · have hne2 := hoi hidden (opMap_mem graph opId hidden hhop) (v, x)
          (JsMap.mem_of_get?_eq_some hv)
        rw [hkeyhid] at hne2
        exact hne2 heq.symm
    refine ⟨?_, ?_, ?_⟩
    · intro n hn d hd
      exact ((hwfH.2.1 n hn).1 d hd).2
    · intro e he
      rw [generateEdges_eq] at he
      rcases List.mem_append.mp he with he | he
      · obtain ⟨opIdC, hopIdC, hin⟩ := List.mem_flatMap.mp he
        cases hop : L.opMap.get? opIdC with
        | none => simp only [hop] at hin; cases hin
        | some op =>
          simp only [hop] at hin
          obtain ⟨q, hq, hqe⟩ := List.mem_flatMap.mp hin
          obtain ⟨htar, hsrc⟩ := edgesForOperand_cases hqe
          obtain ⟨op', hop', -, -, hkey'⟩ := hwfH.1 opIdC hopIdC
          have hopeq : op' = op := by
            rw [hop] at hop'
            exact (Option.some_injective _ hop').symm
          have htid : e.target = opIdC := by
            rw [htar, ← hopeq, hkey']
          constructor
          · rcases hsrc with hs | ⟨p, g, -, hgg, hsid, -⟩ | ⟨hmap, -⟩
            · exact hendne _ (Or.inl hs)
            · obtain ⟨hgmem, -, -⟩ := collapsedByOp_range nodeGroups p.opId g hgg
              exact hendne _ (Or.inr (Or.inl ⟨g, hgmem, hsid⟩))
            · exact hendne _ (Or.inr (Or.inr ⟨_, hmap⟩))
          · rw [htid]
            exact hendne _ (Or.inl hopIdC)
      · obtain ⟨gid, hgid, hin⟩ := List.mem_flatMap.mp he
        cases hg : maps.collapsedGroupsMap.get? gid with
        | none => simp only [hg] at hin; cases hin
        | some g =>
          simp only [hg] at hin
          obtain ⟨q, hq, hqe⟩ := List.mem_flatMap.mp hin
          obtain ⟨htar, hsrc⟩ := edgesForGroupInput_cases hqe
          obtain ⟨-, hgmem, -⟩ := collapsedGroupsMap_keyed nodeGroups gid g hg
          constructor
          · rcases hsrc with hs | ⟨p, g', -, hgg, hsid, -⟩ | ⟨hmap, -⟩
            · exact hendne _ (Or.inl hs)
            · obtain ⟨hgmem', -, -⟩ :=
                collapsedByOp_range nodeGroups p.opId g' hgg
              exact hendne _ (Or.inr (Or.inl ⟨g', hgmem', hsid⟩))
            · exact hendne _ (Or.inr (Or.inr ⟨_, hmap⟩))
          · rw [htar]
            exact hendne _ (Or.inr (Or.inl ⟨g, hgmem, rfl⟩))
    · intro e
      constructor
      · intro he
        rw [generateEdges_eq] at he
        rcases List.mem_append.mp he with he | he
        · obtain ⟨opIdC, hopIdC, hin⟩ := List.mem_flatMap.mp he
          cases hop : L.opMap.get? opIdC with
          | none => simp only [hop] at hin; cases hin
          | some op =>
            simp only [hop] at hin
            obtain ⟨q, hq, hqe⟩ := List.mem_flatMap.mp hin
            obtain ⟨htar, hsrc⟩ := edgesForOperand_cases hqe
            obtain ⟨op', hop', -, -, hkey'⟩ := hwfH.1 opIdC hopIdC
            have hopeq : op' = op := by
              rw [hop] at hop'
              exact (Option.some_injective _ hop').symm
            have htid : e.target = opIdC := by
              rw [htar, ← hopeq, hkey']
            refine ⟨?_, ?_, ?_⟩
            · rw [generateEdges_eq]
              refine List.mem_append.mpr (Or.inl (List.mem_flatMap.mpr
                ⟨opIdC, hLe.1 _ hopIdC, ?_⟩))
              simp only [hop]
              exact List.mem_flatMap.mpr ⟨q, hq,
                edgesForOperand_sub L maps.collapsedGroupByOp op q.1 q.2
                  hLe.1 hLe.2.1 hLe.2.2.1 hA2 hdisj e hqe⟩
            · rcases hsrc with hs | ⟨p, g, -, -, hsid, hs⟩ | ⟨-, hs⟩
              · exact hMofO _ hs
              · exact hMofG _ hs
              · exact hMofI _ hs
            · rw [htid]
              exact hMofO _ hopIdC
        · obtain ⟨gid, hgid2, hin⟩ := List.mem_flatMap.mp he
          cases hg : maps.collapsedGroupsMap.get? gid with
          | none => simp only [hg] at hin; cases hin
          | some g =>
            simp only [hg] at hin
            obtain ⟨q, hq, hqe⟩ := List.mem_flatMap.mp hin
            obtain ⟨htar, hsrc⟩ := edgesForGroupInput_cases hqe
            obtain ⟨hgk, -, -⟩ := collapsedGroupsMap_keyed nodeGroups gid g hg
            refine ⟨?_, ?_, ?_⟩
            · rw [generateEdges_eq]
              refine List.mem_append.mpr (Or.inr (List.mem_flatMap.mpr
                ⟨gid, hLe.2.2.1 _ hgid2, ?_⟩))
              simp only [hg]
              exact List.mem_flatMap.mpr ⟨q, hq,
                edgesForGroupInput_sub L maps.collapsedGroupByOp g q.1 q.2
                  hLe.1 hLe.2.1 hLe.2.2.1 hA2 hdisj e hqe⟩
            · rcases hsrc with hs | ⟨p, g', -, -, hsid, hs⟩ | ⟨-, hs⟩
              · exact hMofO _ hs
              · exact hMofG _ hs
              · exact hMofI _ hs
            · rw [htar, hgk]
              exact hMofG _ hgid2
      · rintro ⟨he0, hMs, hMt⟩
        rw [generateEdges_eq] at he0 ⊢
        rcases List.mem_append.mp he0 with he0 | he0
        · obtain ⟨opIdC, hopIdC, hin⟩ := List.mem_flatMap.mp he0
          cases hop : L.opMap.get? opIdC with
          | none => simp only [hop] at hin; cases hin
          | some op =>
            simp only [hop] at hin
            obtain ⟨q, hq, hqe⟩ := List.mem_flatMap.mp hin
            obtain ⟨htar, -⟩ := edgesForOperand_cases hqe
            obtain ⟨op', hop', -, -, hkey'⟩ := hwf0.1 opIdC hopIdC
            have hopeq : op' = op := by
              rw [hop] at hop'
              exact (Option.some_injective _ hop').symm
            have htid : e.target = opIdC := by
              rw [htar, ← hopeq, hkey']
            have hCvis : opIdC ∈ stH.visibleOpIds := by
              refine hOpM opIdC hopIdC ?_
              rw [← htid]
              exact hMt
            refine List.mem_append.mpr (Or.inl (List.mem_flatMap.mpr
              ⟨opIdC, hCvis, ?_⟩))
            simp only [hop]
            refine List.mem_flatMap.mpr ⟨q, hq, ?_⟩
            exact edgesForOperand_back L maps.collapsedGroupByOp op q.1 q.2
              (fun x => ∃ n ∈ stH.nodes, n.id = x) hLe.1 hdisj hOpM hGrM hInM
              e hqe hMs
        · obtain ⟨gid, hgid2, hin⟩ := List.mem_flatMap.mp he0
          cases hg : maps.collapsedGroupsMap.get? gid with
          | none => simp only [hg] at hin; cases hin
          | some g =>
            simp only [hg] at hin
            obtain ⟨q, hq, hqe⟩ := List.mem_flatMap.mp hin
            obtain ⟨htar, -⟩ := edgesForGroupInput_cases hqe
            obtain ⟨hgk, -, -⟩ := collapsedGroupsMap_keyed nodeGroups gid g hg
            have hGvis : gid ∈ stH.visibleGroupIds := by
              refine hGrM gid hgid2 ?_
              rw [← hgk, ← htar]
              exact hMt
            refine List.mem_append.mpr (Or.inr (List.mem_flatMap.mpr
              ⟨gid, hGvis, ?_⟩))
            simp only [hg]
            refine List.mem_flatMap.mpr ⟨q, hq, ?_⟩
            exact edgesForGroupInput_back L maps.collapsedGroupByOp g q.1 q.2
              (fun x => ∃ n ∈ stH.nodes, n.id = x) hLe.1 hdisj hOpM hGrM hInM
              e hqe hMs

theorem hidden_name_removal_witness :
    (buildLookups sampleGraph).opMap.get? "op_addf" =
      some ⟨"op_addf", "arith.addf", "arith", [],
        [⟨"val_arg0", "f32"⟩, ⟨"val_arg1", "f32"⟩],
        [⟨"val_add_result", "f32"⟩], [], "block_0", 0⟩ ∧
    (["arith.addf"] : List String).contains "arith.addf" = true ∧
    ((∀ n ∈ (irToFlow sampleGraph sampleViewPath 3 ["arith.addf"] []
        none).nodes,
      ∀ d, n.data = NodeData.op d →
        (["arith.addf"] : List String).contains d.label = false) ∧
    (∀ e ∈ (irToFlow sampleGraph sampleViewPath 3 ["arith.addf"] []
        none).edges,
      e.source ≠ "op_addf" ∧ e.target ≠ "op_addf") ∧
    (∀ e, e ∈ (irToFlow sampleGraph sampleViewPath 3 ["arith.addf"] []
        none).edges ↔
      (e ∈ (irToFlow sampleGraph sampleViewPath 3 [] [] none).edges ∧
        (∃ n ∈ (irToFlow sampleGraph sampleViewPath 3 ["arith.addf"] []
          none).nodes, n.id = e.source) ∧
        (∃ n ∈ (irToFlow sampleGraph sampleViewPath 3 ["arith.addf"] []
          none).nodes, n.id = e.target)))) :=
  ⟨by decide, by decide,
   hidden_name_removal sampleGraph sampleViewPath 3 ["arith.addf"] []
     "op_addf"
     ⟨"op_addf", "arith.addf", "arith", [],
       [⟨"val_arg0", "f32"⟩, ⟨"val_arg1", "f32"⟩],
       [⟨"val_add_result", "f32"⟩], [], "block_0", 0⟩
     (by decide) (by decide) (by decide) (by decide) (by decide) (by decide)⟩

/-! ## Fresh boundary caches cover the producer-less consumed values -/

/-- With a fresh boundary-IO cache, every producer-less operand value of a
member operation appears in the group's boundary-input list. -/
theorem fresh_input_exists (graph : IRGraph) (g : NodeGroup)
    (hopids : (graph.operations.map (fun op => op.op_id)).Nodup)
    (hfresh : g.inputs = (computeGroupIo g.opIds graph).1)
    (opIdC : String) (op : OperationInfo) (od : ValueInfo)
    (hmem : opIdC ∈ g.opIds)
    (hget : (buildLookups graph).opMap.get? opIdC = some op)
    (hod : od ∈ op.operands)
    (hnone : (buildValueProducerMap graph).get? od.value_id = none) :
    ∃ inp ∈ g.inputs, inp.valueId = od.value_id := by
  have hopmem := opMap_mem graph opIdC op hget
  have hopkey := opMap_keyed graph opIdC op hget
  have hfind : graph.operations.find? (fun o => o.op_id == opIdC) = some op :=
    (find?_op_iff graph hopids opIdC op).mpr ⟨hopmem, hopkey⟩
  have hkey : od.value_id ∈ (groupInputsMap g.opIds graph).keys := by
    refine (groupInputsMap_keys g.opIds graph od.value_id).mpr
      ⟨opIdC, hmem, op, hfind, od, hod, rfl, ?_⟩
    intro p hp
    rw [hnone] at hp
    cases hp
  obtain ⟨kv, hkv, hk1⟩ := List.mem_map.mp hkey
  have hent := groupInputsMap_entries g.opIds graph kv hkv
  refine ⟨kv.2, ?_, ?_⟩
  · rw [hfresh]
    show kv.2 ∈ (groupInputsMap g.opIds graph).values
    exact List.mem_map_of_mem _ hkv
  · rw [hent.1, hk1]

/-- With an active drill group that does not resolve, the drill filter is the
identity extraction. -/
theorem drillFilter_some_none (nodeGroups : List NodeGroup) (gid : String)
    (st : WalkState)
    (hfind : nodeGroups.find? (fun g => g.id == gid) = none) :
    drillFilter nodeGroups (some gid) st =
      ⟨st.nodes, st.visibleOpIds, st.visibleInputNodeIds⟩ := by
  show (match nodeGroups.find? (fun g => g.id == gid) with
    | none => (⟨st.nodes, st.visibleOpIds, st.visibleInputNodeIds⟩ : DrillResult)
    | some activeGroup => _) = _
  rw [hfind]

/-- C10: every edge of the returned edge set references nodes of the returned
node list at both its source and its target, for any navigation state with
fresh group boundary-IO caches, duplicate-free operation ids, and produced
values distinct from block arguments. -/
theorem edges_reference_nodes (graph : IRGraph) (viewPath : List String)
    (maxExpandDepth : Nat) (hiddenOpNames : List String)
    (nodeGroups : List NodeGroup) (activeDrillGroupId : Option String)
    (hopids : (graph.operations.map (fun op => op.op_id)).Nodup)
    (hfresh : ∀ g ∈ nodeGroups, g.inputs = (computeGroupIo g.opIds graph).1)
    (hdisjf : ∀ kv ∈ (buildLookups graph).valueProducerMap,
      (buildLookups graph).blockArgNodeMap.get?
        (kv : String × Producer).1 = none) :
    ∀ e ∈ (irToFlow graph viewPath maxExpandDepth hiddenOpNames nodeGroups
        activeDrillGroupId).edges,
      (∃ n ∈ (irToFlow graph viewPath maxExpandDepth hiddenOpNames nodeGroups
        activeDrillGroupId).nodes, n.id = e.source) ∧
      (∃ n ∈ (irToFlow graph viewPath maxExpandDepth hiddenOpNames nodeGroups
        activeDrillGroupId).nodes, n.id = e.target) := by
  by_cases hview :
      (getViewRootRegionIds graph viewPath (buildLookups graph).opMap).length = 0
  · have hH : irToFlow graph viewPath maxExpandDepth hiddenOpNames nodeGroups
        activeDrillGroupId = ⟨[], []⟩ := by
      show (if (getViewRootRegionIds graph viewPath
        (buildLookups graph).opMap).length = 0 then (⟨[], []⟩ : FlowResult)
        else _) = _
      rw [if_pos hview]
    rw [hH]
    intro e he
    cases he
  · have hne : getViewRootRegionIds graph viewPath (buildLookups graph).opMap
        ≠ [] := fun h => hview (by rw [h]; rfl)
    have hRES := irToFlow_unfold graph viewPath maxExpandDepth hiddenOpNames
      nodeGroups activeDrillGroupId hne
    set L := buildLookups graph with hdefL
    set maps := buildGroupMaps nodeGroups activeDrillGroupId with hdefmaps
    set st := walkRegions (getViewRootRegionIds graph viewPath L.opMap) 1
      maxExpandDepth
      ⟨L, hiddenOpNames, maps.collapsedGroupByOp, maps.inlineGroupByOp⟩
      WalkState.initial with hdefst
    have hek : EnvKeyed
        ⟨L, hiddenOpNames, maps.collapsedGroupByOp, maps.inlineGroupByOp⟩ :=
      buildLookups_envKeyed graph hiddenOpNames _ _
    have hwf : WalkWf
        ⟨L, hiddenOpNames, maps.collapsedGroupByOp, maps.inlineGroupByOp⟩
        st :=
      rtc_invariant (WalkWf _) (fun a b hab h => walkStep_wf hab h)
        (walkRegions_rtc _ hek _ 1 maxExpandDepth WalkState.initial)
        (initial_wf _)
    have hdisj : ∀ v p, L.valueProducerMap.get? v = some p →
        L.blockArgNodeMap.get? v = none :=
      fun v p hp => hdisjf (v, p) (JsMap.mem_of_get?_eq_some hp)
    have hID : (∀ k g', maps.collapsedGroupsMap.get? k = some g' → g'.id = k) →
        ∀ e ∈ generateEdges st.visibleOpIds st.visibleInputNodeIds
          st.visibleGroupIds L maps.collapsedGroupByOp maps.collapsedGroupsMap,
        (∃ n ∈ st.nodes, n.id = e.source) ∧
        (∃ n ∈ st.nodes, n.id = e.target) := by
      intro hkeyed e he
      rw [generateEdges_eq] at he
      have hsrcOf : ∀ x, (x ∈ st.visibleOpIds ∨ x ∈ st.visibleGroupIds ∨
          x ∈ st.visibleInputNodeIds) → ∃ n ∈ st.nodes, n.id = x := by
        rintro x (hx | hx | hx)
        · obtain ⟨n, hn, hid, -⟩ := hwf.2.2.1 x hx
          exact ⟨n, hn, hid⟩
        · obtain ⟨n, hn, hid, -⟩ := hwf.2.2.2.2.1 x hx
          exact ⟨n, hn, hid⟩
        · obtain ⟨n, hn, hid, -⟩ := hwf.2.2.2.1 x hx
          exact ⟨n, hn, hid⟩
      rcases List.mem_append.mp he with he | he
      · obtain ⟨opIdC, hopIdC, hin⟩ := List.mem_flatMap.mp he
        cases hop : L.opMap.get? opIdC with
        | none => simp only [hop] at hin; cases hin
        | some op =>
          simp only [hop] at hin
          obtain ⟨q, hq, hqe⟩ := List.mem_flatMap.mp hin
          obtain ⟨htar, hsrc⟩ := edgesForOperand_cases hqe
          obtain ⟨op', hop', -, -, hkey'⟩ := hwf.1 opIdC hopIdC
          have hopeq : op' = op := by
            rw [hop] at hop'
            exact (Option.some_injective _ hop').symm
          have htid : e.target = opIdC := by rw [htar, ← hopeq, hkey']
          refine ⟨?_, ?_⟩
          · rcases hsrc with hs | ⟨p, g', -, -, -, hs⟩ | ⟨-, hs⟩
            · exact hsrcOf _ (Or.inl hs)
            · exact hsrcOf _ (Or.inr (Or.inl hs))
            · exact hsrcOf _ (Or.inr (Or.inr hs))
          · rw [htid]
            exact hsrcOf _ (Or.inl hopIdC)
      · obtain ⟨gid', hgid', hin⟩ := List.mem_flatMap.mp he
        cases hg : maps.collapsedGroupsMap.get? gid' with
        | none => simp only [hg] at hin; cases hin
        | some g =>
          simp only [hg] at hin
          obtain ⟨q, hq, hqe⟩ := List.mem_flatMap.mp hin
          obtain ⟨htar, hsrc⟩ := edgesForGroupInput_cases hqe
          refine ⟨?_, ?_⟩
          · rcases hsrc with hs | ⟨p, g', -, -, -, hs⟩ | ⟨-, hs⟩
            · exact hsrcOf _ (Or.inl hs)
            · exact hsrcOf _ (Or.inr (Or.inl hs))
            · exact hsrcOf _ (Or.inr (Or.inr hs))
          · rw [htar, hkeyed gid' g hg]
            exact hsrcOf _ (Or.inr (Or.inl hgid'))
    cases hdrill : activeDrillGroupId with
    | none =>
      subst hdrill
      simp only [drillFilter_none] at hRES
      have hEdges : (irToFlow graph viewPath maxExpandDepth hiddenOpNames
          nodeGroups none).edges = generateEdges st.visibleOpIds
          st.visibleInputNodeIds st.visibleGroupIds L maps.collapsedGroupByOp
          maps.collapsedGroupsMap := by rw [hRES]
      have hNodes : (irToFlow graph viewPath maxExpandDepth hiddenOpNames
          nodeGroups none).nodes = st.nodes := by rw [hRES]
      rw [hEdges, hNodes]
      exact hID (fun k g' h => (collapsedGroupsMap_keyed nodeGroups k g' h).1)
    | some gid =>
      subst hdrill
      have hmapsE : maps = GroupMaps.empty := buildGroupMaps_drill nodeGroups gid
      cases hfindg : nodeGroups.find? (fun g => g.id == gid) with
      | none =>
        rw [drillFilter_some_none nodeGroups gid _ hfindg] at hRES
        have hEdges : (irToFlow graph viewPath maxExpandDepth hiddenOpNames
            nodeGroups (some gid)).edges = generateEdges st.visibleOpIds
            st.visibleInputNodeIds st.visibleGroupIds L
            maps.collapsedGroupByOp maps.collapsedGroupsMap := by rw [hRES]
        have hNodes : (irToFlow graph viewPath maxExpandDepth hiddenOpNames
            nodeGroups (some gid)).nodes = st.nodes := by rw [hRES]
        rw [hEdges, hNodes]
        refine hID ?_
        intro k g' h
        rw [hmapsE] at h
        simp [GroupMaps.empty, JsMap.get?] at h
      | some activeGroup =>
        have hgmem : activeGroup ∈ nodeGroups :=
          List.mem_of_find?_eq_some hfindg
        have hfreshg := hfresh activeGroup hgmem
        rw [drillFilter_some nodeGroups gid activeGroup hfindg] at hRES
        have hEdges : (irToFlow graph viewPath maxExpandDepth hiddenOpNames
            nodeGroups (some gid)).edges = generateEdges
            (st.visibleOpIds.filter
              (fun id => activeGroup.opIds.contains id))
            (activeGroup.inputs.foldl drillInputFold
              (st.nodes.filter
                (fun n =>
                  match n.data with
                  | NodeData.op _ => activeGroup.opIds.contains n.id
                  | NodeData.input d =>
                    activeGroup.inputs.any (fun inp => inp.valueId == d.valueId)
                  | NodeData.group _ => false),
               st.visibleInputNodeIds)).2
            st.visibleGroupIds L maps.collapsedGroupByOp
            maps.collapsedGroupsMap := by rw [hRES]
        have hNodes : (irToFlow graph viewPath maxExpandDepth hiddenOpNames
            nodeGroups (some gid)).nodes =
            (activeGroup.inputs.foldl drillInputFold
              (st.nodes.filter
                (fun n =>
                  match n.data with
                  | NodeData.op _ => activeGroup.opIds.contains n.id
                  | NodeData.input d =>
                    activeGroup.inputs.any (fun inp => inp.valueId == d.valueId)
                  | NodeData.group _ => false),
               st.visibleInputNodeIds)).1 := by rw [hRES]
        rw [hEdges, hNodes]
        have hnodeOf : ∀ x, x ∈ st.visibleOpIds →
            activeGroup.opIds.contains x = true →
            ∃ n ∈ (activeGroup.inputs.foldl drillInputFold
              (st.nodes.filter
                (fun n =>
                  match n.data with
                  | NodeData.op _ => activeGroup.opIds.contains n.id
                  | NodeData.input d =>
                    activeGroup.inputs.any (fun inp => inp.valueId == d.valueId)
                  | NodeData.group _ => false),
               st.visibleInputNodeIds)).1, n.id = x := by
          intro x hx hcx
          obtain ⟨n, hn, hid, d, hd⟩ := hwf.2.2.1 x hx
          refine ⟨n, ?_, hid⟩
          apply drillFold_mono
          refine List.mem_filter.mpr ⟨hn, ?_⟩
          simp only [hd]
          rw [hid]
          exact hcx
        intro e he
        rw [generateEdges_eq] at he
        rcases List.mem_append.mp he with he | he
        · obtain ⟨opIdC, hopIdC, hin⟩ := List.mem_flatMap.mp he
          obtain ⟨hopIdC1, hopIdC2⟩ := List.mem_filter.mp hopIdC
          cases hop : L.opMap.get? opIdC with
          | none => simp only [hop] at hin; cases hin
          | some op =>
            simp only [hop] at hin
            obtain ⟨q, hq, hqe⟩ := List.mem_flatMap.mp hin
            obtain ⟨htar, hsrc⟩ := edgesForOperand_cases hqe
            obtain ⟨op', hop', -, -, hkey'⟩ := hwf.1 opIdC hopIdC1
            have hopeq : op' = op := by
              rw [hop] at hop'
              exact (Option.some_injective _ hop').symm
            have htid : e.target = opIdC := by rw [htar, ← hopeq, hkey']
            refine ⟨?_, ?_⟩
            · rcases hsrc with hs | ⟨p, g', -, hgg, -, -⟩ | ⟨hmap, -⟩
              · obtain ⟨hs1, hs2⟩ := List.mem_filter.mp hs
                exact hnodeOf _ hs1 hs2
              · rw [hmapsE] at hgg
                simp [GroupMaps.empty, JsMap.get?] at hgg
              · cases hp : L.valueProducerMap.get? q.2.value_id with
                | some p =>
                  have := hdisj q.2.value_id p hp
                  rw [this] at hmap
                  cases hmap
                | none =>
                  have hsrcfmt : e.source = "input_" ++ q.2.value_id :=
                    blockArgNodeMap_format graph q.2.value_id e.source hmap
                  obtain ⟨inp, hinp, hval⟩ := fresh_input_exists graph
                    activeGroup hopids hfreshg opIdC op q.2
                    ((JsSet.contains_iff _ _).mp hopIdC2) hop
                    (mem_of_mem_enum hq) hp
                  obtain ⟨n, hn, hid⟩ := drillFold_exists activeGroup.inputs
                    (st.nodes.filter
                      (fun n =>
                        match n.data with
                        | NodeData.op _ => activeGroup.opIds.contains n.id
                        | NodeData.input d =>
                          activeGroup.inputs.any
                            (fun inp => inp.valueId == d.valueId)
                        | NodeData.group _ => false),
                     st.visibleInputNodeIds) inp hinp
                  refine ⟨n, hn, ?_⟩
                  rw [hid, hsrcfmt, hval]
            · rw [htid]
              exact hnodeOf _ hopIdC1 hopIdC2
        · obtain ⟨gid', hgid', hin⟩ := List.mem_flatMap.mp he
          rw [hmapsE] at hin
          simp [GroupMaps.empty, JsMap.get?] at hin

theorem edges_reference_nodes_witness :
    (sampleGraph.operations.map (fun op => op.op_id)).Nodup ∧
    (∀ g ∈ [sampleGroup], g.inputs = (computeGroupIo g.opIds sampleGraph).1) ∧
    ∀ e ∈ (irToFlow sampleGraph sampleViewPath 3 [] [sampleGroup]
        (some "group_1")).edges,
      (∃ n ∈ (irToFlow sampleGraph sampleViewPath 3 [] [sampleGroup]
        (some "group_1")).nodes, n.id = e.source) ∧
      (∃ n ∈ (irToFlow sampleGraph sampleViewPath 3 [] [sampleGroup]
        (some "group_1")).nodes, n.id = e.target) :=
  ⟨by decide, by decide,
   edges_reference_nodes sampleGraph sampleViewPath 3 [] [sampleGroup]
     (some "group_1") (by decide) (by decide) (by decide)⟩

end IrView
